import Mathlib

/-!
# portping: statistics accumulator, probe scheduler and command line

A shallow embedding of the Go packages `internal/models`, `internal/stats`,
`internal/probe`, `internal/app`, `internal/helpers` and `internal/cli` of
`sopov/portping`, followed by theorems about the embedded functions.

Conventions of the embedding:

* Go `int` and `time.Duration` (a signed count of nanoseconds) are integers (`Int`).
  `Update64` is `stats.Update` with the arithmetic of a 64-bit platform: each `++`
  and `+=` is taken modulo `2^64` (`wrapInt64`). `Update` is the same function with
  ordinary addition; `Update64_eq_Update` and `UpdateAll64_eq_UpdateAll` show
  that the two agree as long as the counters and the latency sum stay below `2^63`,
  which is the setting of the theorems about the probing loop. The products that
  turn milliseconds into durations are taken modulo `2^64` as well.
* A Go `error` is an `Option String`: `none` is `nil`, `some msg` is an error
  with that message.
* A function that mutates a record through a pointer returns the new record;
  package-level variables are an explicit state.
* Everything the program learns from the outside world (probe outcomes, the
  cancellation signal, the clock, the resolver) is read from an explicit `Env`
  or `NetLib`; the command line is taken as the values of the flags and the
  positional arguments that the `flag` library leaves.
* Printing is recorded as a list of events, one event per printed line.
-/

namespace PortPing

/-! ## internal/models -/

/-- Go `error`: `none` is `nil`. -/
abbrev GoError := Option String

/-- Go `type Proto string`. -/
abbrev Proto := String

/-- Go `const TCP Proto = "tcp"`. -/
def TCP : Proto := "tcp"

/-- Go `const UDP Proto = "udp"`. -/
def UDP : Proto := "udp"

/-- Go `models.IP`. -/
structure IP where
  IP : String
  IsIPv4 : Bool
deriving DecidableEq, Repr, Inhabited

/-- Go `func (ip IP) IsIPv6() bool`. -/
def IP.IsIPv6 (ip : PortPing.IP) : Bool := !ip.IsIPv4

/-- Go `models.Config`. `UDPPayload` is a byte slice (each element a byte). -/
structure Config where
  Proto : Proto
  Host : String
  Port : String
  Timeout : Int
  /-- A `time.Duration`, in nanoseconds. -/
  TimeoutDur : Int
  Delay : Int
  /-- A `time.Duration`, in nanoseconds. -/
  DelayDur : Int
  Count : Int
  Nonstop : Bool
  AllowIPv4 : Bool
  AllowIPv6 : Bool
  NoColor : Bool
  IPs : List PortPing.IP
  Preset : String
  UDPPayloadHex : String
  UDPPayload : List Nat
deriving DecidableEq, Repr, Inhabited

/-- Go `func (c *Config) IsUDP() bool`. -/
def Config.IsUDP (c : Config) : Bool := decide (c.Proto = UDP)

/-- Go `func (c *Config) IsTCP() bool`. -/
def Config.IsTCP (c : Config) : Bool := decide (c.Proto = TCP)

/-- Go `models.Stats`. `Minimum`, `Maximum` and `Total` are `time.Duration`s, in nanoseconds. -/
structure Stats where
  IP : PortPing.IP
  Attempts : Int
  Connects : Int
  Failures : Int
  Minimum : Int
  Maximum : Int
  Total : Int
deriving DecidableEq, Repr, Inhabited

/-- The record `&models.Stats{IP: ip}`: every other field has its zero value. -/
def zeroStats (ip : PortPing.IP) : Stats :=
  { IP := ip, Attempts := 0, Connects := 0, Failures := 0, Minimum := 0, Maximum := 0, Total := 0 }

/-! ## internal/stats: Update -/

/-- Go conversion of an integer to `int64` (and `time.Duration`): the value modulo 2^64,
between -2^63 and 2^63 - 1. -/
def wrapInt64 (x : Int) : Int :=
  (x + 9223372036854775808) % 18446744073709551616 - 9223372036854775808

/-- Go `stats.Update(stats, duration, err)`. The test `float64(stats.Minimum) == 0`
holds exactly when the integer `stats.Minimum` is zero. -/
def Update (stats : Stats) (duration : Int) (err : GoError) : Stats :=
  let stats := { stats with Attempts := stats.Attempts + 1 }
  if err.isSome then
    { stats with Failures := stats.Failures + 1 }
  else
    let stats := { stats with Connects := stats.Connects + 1 }
    let stats := { stats with Total := stats.Total + duration }
    let stats :=
      if stats.Minimum = 0 ∨ stats.Minimum > duration then { stats with Minimum := duration }
      else stats
    if stats.Maximum < duration then { stats with Maximum := duration } else stats

/-- Go `stats.Update(stats, duration, err)` with the arithmetic of the machine:
`Attempts`, `Connects` and `Failures` are `int` and `Total` is a `time.Duration`, all of
64 bits, so each `++` and `+=` is taken modulo 2^64. `Update` above is this function with
the arithmetic of the integers; the two agree as long as no counter leaves the 64-bit
range. -/
def Update64 (stats : Stats) (duration : Int) (err : GoError) : Stats :=
  let stats := { stats with Attempts := wrapInt64 (stats.Attempts + 1) }
  if err.isSome then
    { stats with Failures := wrapInt64 (stats.Failures + 1) }
  else
    let stats := { stats with Connects := wrapInt64 (stats.Connects + 1) }
    let stats := { stats with Total := wrapInt64 (stats.Total + duration) }
    let stats :=
      if stats.Minimum = 0 ∨ stats.Minimum > duration then { stats with Minimum := duration }
      else stats
    if stats.Maximum < duration then { stats with Maximum := duration } else stats

/-- A finite sequence of `Update64` calls on one record, oldest call first. -/
def UpdateAll64 (stats : Stats) (calls : List (Int × GoError)) : Stats :=
  calls.foldl (fun s c => Update64 s c.1 c.2) stats

/-- A finite sequence of `Update` calls on one record, oldest call first. -/
def UpdateAll (stats : Stats) (calls : List (Int × GoError)) : Stats :=
  calls.foldl (fun s c => Update s c.1 c.2) stats

/-- The durations of the successful (nil-error) calls of a sequence, in call order. -/
def successDurations (calls : List (Int × GoError)) : List Int :=
  (calls.filter (fun c => c.2.isNone)).map (fun c => c.1)

/-! ## Go maps with string keys -/

/-- A Go `map[string]V`: an association list with at most one entry per key. -/
abbrev GoMap (V : Type) := List (String × V)

/-- Go `v, ok := m[k]`: the value stored under `k`, if there is one. -/
def mapGet {V : Type} : GoMap V → String → Option V
  | [], _ => none
  | (k1, v) :: rest, k => if k1 = k then some v else mapGet rest k

/-- Go `m[k] = v`: replaces the value of an existing key, adds the key otherwise. -/
def mapSet {V : Type} : GoMap V → String → V → GoMap V
  | [], k, v => [(k, v)]
  | (k1, v1) :: rest, k, v => if k1 = k then (k, v) :: rest else (k1, v1) :: mapSet rest k v

/-- Go `len(m)`. -/
def mapLen {V : Type} (m : GoMap V) : Nat := m.length

/-- Go `map[string]*models.Stats`: a value is a pointer, `none` is the nil pointer. -/
abbrev StatsMap := GoMap (Option Stats)

/-- Go `statsMap[k]` on a map of pointers: nil when the key is absent. -/
def statsAt (m : StatsMap) (k : String) : Option Stats := (mapGet m k).join

/-! ## The outside world and the printed output -/

/-- Go `models.PingOptions`. The `Context` field is not a value of the embedding: what the
context does to a probe is part of the outcome read from `Env`. -/
structure PingOptions where
  Config : Config
  Address : String
  Payload : List Nat
deriving DecidableEq, Repr, Inhabited

/-- One call on the network made by a probe. -/
inductive SockOp where
  /-- The call `d.DialContext(opts.Context, network, address)`. -/
  | dial (network address : String)
  /-- The call `conn.SetWriteDeadline(t)`. -/
  | setWriteDeadline (t : Int)
  /-- The call `conn.Write(payload)`. -/
  | write (payload : List Nat)
  /-- The call `conn.SetReadDeadline(t)`. -/
  | setReadDeadline (t : Int)
  /-- The call `conn.Read(tmp[:])` into a buffer of one byte. -/
  | read
  /-- The call `conn.Close()`. -/
  | close
deriving DecidableEq, Repr

/-- Everything a run reads from outside the program. -/
structure Env where
  /-- The result of the poll of `a.ctx.Done()` made in front of the n-th probe (counted
  from 0): `true` when the context is found cancelled, in which case the probe is not made
  and `Run` returns. -/
  done : Nat → Bool
  /-- The result of the `select` that waits between rounds, by the number of the round just
  finished: `true` when `a.ctx.Done()` is received, `false` when the timer fires. -/
  waitDone : Nat → Bool
  /-- The value of `time.Since(batchStart)` read after the round with the given number. -/
  since : Nat → Int
  /-- The k-th reading of the clock (counted from 0) made during the n-th probe (counted
  from 0), in nanoseconds: a value of `time.Now()`, alone or inside `time.Since`. -/
  clock : Nat → Nat → Int
  /-- The error returned by a network call made during the n-th probe (`none` is nil). -/
  sock : Nat → SockOp → GoError

/-- One printed line, or one interaction with the network or the timer. -/
inductive Event where
  /-- The first line printed by `ShowBanner`. -/
  | bannerHead (host proto port : String) (nIPs : Nat) (ipSuffix : String)
  /-- The line printed by `ShowBanner` for one address. -/
  | bannerIP (family ip : String)
  /-- The payload line printed by `ShowBanner` under UDP. -/
  | bannerPayload (hex : String)
  /-- A call of `a.Ping(opts)`. -/
  | probe (opts : PingOptions)
  /-- The line printed by `ShowCurrent` called with these arguments. -/
  | current (cnt subcnt : Int) (ip : String) (maxIPLen : Int) (duration : Int) (err : GoError)
  /-- A call of `timer.Reset(wait)` followed by the `select` on the timer. -/
  | wait (d : Int)
  /-- The line `Statistics of ping ...` printed by `ShowStats`. -/
  | statsTitle (host proto port : String)
  /-- The line of column titles printed by `ShowStats` with the given format. -/
  | statsColumns (format : String)
  /-- The line printed by `ShowStats` for one record with the given format. -/
  | statsRow (format : String) (st : Stats)
deriving DecidableEq, Repr

/-! ## internal/stats: printing -/

/-- Go `stats.ShowBanner(cfg)`. -/
def ShowBanner (cfg : Config) : List Event :=
  let ipSuffix := if cfg.IPs.length > 1 then "IP" ++ "s" else "IP"
  [Event.bannerHead cfg.Host cfg.Proto cfg.Port cfg.IPs.length ipSuffix]
    ++ cfg.IPs.map (fun ip => Event.bannerIP (if ip.IsIPv6 then "IPv6" else "IPv4") ip.IP)
    ++ (if cfg.IsUDP then [Event.bannerPayload cfg.UDPPayloadHex] else [])

/-- The loop of `ShowStats` that finds the greatest key length (`len` counts bytes). The Go
code sorts the keys first, which does not change the greatest length. -/
def maxKeyLen (statsMap : StatsMap) : Nat :=
  statsMap.foldl (fun maxLen kv => if kv.1.utf8ByteSize > maxLen then kv.1.utf8ByteSize else maxLen) 0

/-- The format string built by `ShowStats`. -/
def statsFormat (cfg : Config) (maxLen : Nat) : String :=
  if cfg.NoColor then
    "% " ++ toString (maxLen + 1) ++ "s% 12s% 11s % 15s% 10s %10s  %10s\n"
  else
    "% " ++ toString (maxLen + 10) ++ "s% 12s% 21s % 24s% 10s %10s  %10s\n"

/-- Go `stats.ShowStats(cfg, statsMap)`. The average of a row is computed from the record
when the line is rendered; the row event carries the record. -/
def ShowStats (cfg : Config) (statsMap : StatsMap) : List Event :=
  if mapLen statsMap = 0 then []
  else
    let format := statsFormat cfg (maxKeyLen statsMap)
    [Event.statsTitle cfg.Host cfg.Proto cfg.Port, Event.statsColumns format]
      ++ cfg.IPs.filterMap (fun ip =>
          match statsAt statsMap ip.IP with
          | none => none
          | some st => if st.Attempts = 0 then none else some (Event.statsRow format st))

/-- Go `stats.ShowCurrent(cfg, cnt, subcnt, ip, maxIPLen, duration, err)`: one line. -/
def ShowCurrent (_cfg : Config) (cnt subcnt : Int) (ip : String) (maxIPLen : Int)
    (duration : Int) (err : GoError) : List Event :=
  [Event.current cnt subcnt ip maxIPLen duration err]

/-- The package-level variables `okFmt` and `errFmt` of `internal/stats`. -/
structure FmtVars where
  okFmt : String
  errFmt : String
deriving DecidableEq, Repr

/-- The package variables when the process starts: both are the empty string. -/
def startVars : FmtVars := { okFmt := "", errFmt := "" }

/-- Go `stats.showCurrentFmt(cfg, maxIPLen, ok)`, with the package variables as they are
before the call: the format returned and the package variables after the call. -/
def showCurrentFmt (vars : FmtVars) (cfg : Config) (maxIPLen : Int) (ok : Bool) :
    String × FmtVars :=
  let vars :=
    if vars.okFmt = "" then
      let postMsgLen := if cfg.NoColor then "10" else "19"
      let okFmt := "% 3s\t%" ++ toString maxIPLen ++ "s\t%" ++ postMsgLen ++ "s"
      { okFmt := okFmt ++ "%s\n", errFmt := okFmt ++ "\tErr: %s\n" }
    else vars
  (if ok then vars.okFmt else vars.errFmt, vars)

/-- The package variables after a sequence of calls of `showCurrentFmt`, each given by its
config, its `maxIPLen` and its success flag. -/
def afterCalls (vars : FmtVars) (calls : List (Config × Int × Bool)) : FmtVars :=
  calls.foldl (fun v c => (showCurrentFmt v c.1 c.2.1 c.2.2).2) vars

/-- In the words of the claim: the line format as a function of `cfg.NoColor`, of
`maxIPLen` and of the success flag, and of nothing else. -/
def lineFormat (noColor : Bool) (maxIPLen : Int) (ok : Bool) : String :=
  "% 3s\t%" ++ toString maxIPLen ++ "s\t%" ++ (if noColor then "10" else "19") ++ "s"
    ++ (if ok then "%s\n" else "\tErr: %s\n")

/-! ## internal/probe and internal/app -/

/-- Go standard library `net.JoinHostPort(host, port)`. -/
def JoinHostPort (host port : String) : String :=
  if host.data.any (fun c => c == ':') then "[" ++ host ++ "]:" ++ port else host ++ ":" ++ port

/-- What a probe returns, with the network calls it made, in order. -/
structure PingResult where
  duration : Int
  err : GoError
  ops : List SockOp
deriving DecidableEq, Repr

/-- Go `probe.PingTCP(opts)`, as the n-th probe of `env`: `start := time.Now()` is reading
0 of the clock and `time.Since(start)` is reading 1 less the start; the connection is
closed on success. -/
def PingTCP (env : Env) (n : Nat) (opts : PingOptions) : PingResult :=
  let start := env.clock n 0
  let err := env.sock n (SockOp.dial TCP opts.Address)
  let elapsed := env.clock n 1 - start
  match err with
  | some e => { duration := elapsed, err := some e, ops := [SockOp.dial TCP opts.Address] }
  | none =>
    { duration := elapsed, err := none, ops := [SockOp.dial TCP opts.Address, SockOp.close] }

/-- Go `probe.PingUDP(opts)`, as the n-th probe of `env`. The payload test comes first.
Then `start := time.Now()` is reading 0 of the clock; each `time.Now()` of a deadline and
each `time.Since(start)` is the next reading; the deferred `conn.Close()` runs last on
every way out after a successful dial. -/
def PingUDP (env : Env) (n : Nat) (opts : PingOptions) : PingResult :=
  if opts.Payload.length = 0 then
    { duration := 0, err := some "udp payload required", ops := [] }
  else
    let start := env.clock n 0
    let dial := SockOp.dial UDP opts.Address
    match env.sock n dial with
    | some e => { duration := env.clock n 1 - start, err := some e, ops := [dial] }
    | none =>
      let wd := SockOp.setWriteDeadline (env.clock n 1 + opts.Config.TimeoutDur)
      match env.sock n wd with
      | some e =>
        { duration := env.clock n 2 - start, err := some e, ops := [dial, wd, SockOp.close] }
      | none =>
        let wr := SockOp.write opts.Payload
        match env.sock n wr with
        | some e =>
          { duration := env.clock n 2 - start, err := some e,
            ops := [dial, wd, wr, SockOp.close] }
        | none =>
          let rd := SockOp.setReadDeadline (env.clock n 2 + opts.Config.TimeoutDur)
          match env.sock n rd with
          | some e =>
            { duration := env.clock n 3 - start, err := some e,
              ops := [dial, wd, wr, rd, SockOp.close] }
          | none =>
            { duration := env.clock n 3 - start, err := env.sock n SockOp.read,
              ops := [dial, wd, wr, rd, SockOp.read, SockOp.close] }

/-- Go `App`: the context is represented by `Env.done` and `Env.waitDone`. -/
structure App where
  cfg : Config
  stats : StatsMap

/-- Go `app.NewApp(ctx, cfg)`. -/
def NewApp (cfg : Config) : App := { cfg := cfg, stats := [] }

/-- Go `func (a *App) Ping(opts)`. -/
def App.Ping (env : Env) (n : Nat) (cfg : Config) (opts : PingOptions) : Int × GoError :=
  if cfg.IsTCP then ((PingTCP env n opts).duration, (PingTCP env n opts).err)
  else ((PingUDP env n opts).duration, (PingUDP env n opts).err)

/-- What the first loop of `Run` builds. -/
structure Setup where
  pingOpts : GoMap PingOptions
  stats : StatsMap
  maxIPLen : Int

/-- One iteration of the first loop of `Run`. -/
def setupStep (cfg : Config) (s : Setup) (ip : IP) : Setup :=
  { pingOpts := mapSet s.pingOpts ip.IP
      { Config := cfg, Address := JoinHostPort ip.IP cfg.Port, Payload := cfg.UDPPayload },
    stats := mapSet s.stats ip.IP (some (zeroStats ip)),
    maxIPLen := if (ip.IP.utf8ByteSize : Int) > s.maxIPLen then ip.IP.utf8ByteSize
                else s.maxIPLen }

/-- The first loop of `Run`, over `a.cfg.IPs`. -/
def setup (a : App) : Setup :=
  a.cfg.IPs.foldl (setupStep a.cfg) { pingOpts := [], stats := a.stats, maxIPLen := 0 }

/-- The state of the probing loop of `Run`. -/
structure RunState where
  stats : StatsMap
  trace : List Event
  /-- The number of probes issued so far. -/
  pings : Nat

/-- How the inner loop of `Run` ends. -/
inductive RoundEnd where
  /-- Every address of the round was probed. -/
  | completed
  /-- The context was found cancelled: `return nil`. -/
  | cancelled
  /-- The record of the address is a nil pointer: `Update` dereferences it. -/
  | nilStats
deriving DecidableEq, Repr

/-- How `Run` ends. -/
inductive RunResult where
  /-- The value returned by `Run`. -/
  | returned (err : GoError)
  /-- A nil-pointer dereference. -/
  | panicked
deriving DecidableEq, Repr

/-- The inner loop of `Run` (`for idx, ip := range a.cfg.IPs`), from index `idx` on. -/
def runRound (env : Env) (cfg : Config) (pingOpts : GoMap PingOptions) (singleIP : Bool)
    (maxIPLen : Int) (attempt : Nat) : Nat → List IP → RunState → RoundEnd × RunState
  | _, [], st => (RoundEnd.completed, st)
  | idx, ip :: rest, st =>
    if env.done st.pings then
      (RoundEnd.cancelled, st)
    else
      let opts := (mapGet pingOpts ip.IP).getD default
      let r := App.Ping env st.pings cfg opts
      match statsAt st.stats ip.IP with
      | none =>
        (RoundEnd.nilStats,
          { st with trace := st.trace ++ [Event.probe opts], pings := st.pings + 1 })
      | some record =>
        let sub : Int := if singleIP then 0 else (idx : Int) + 1
        runRound env cfg pingOpts singleIP maxIPLen attempt (idx + 1) rest
          { stats := mapSet st.stats ip.IP (some (Update record r.1 r.2)),
            trace := st.trace ++ [Event.probe opts]
                      ++ ShowCurrent cfg attempt sub ip.IP maxIPLen r.1 r.2,
            pings := st.pings + 1 }

/-- The outer loop of `Run` (`for \x7b ... \x7d`), entered with `attempt` rounds done. Each
iteration uses one unit of `fuel`; `none` means the fuel ran out. -/
def runLoop (env : Env) (cfg : Config) (pingOpts : GoMap PingOptions) (singleIP : Bool)
    (maxIPLen : Int) : Nat → Nat → RunState → Option (RunResult × RunState)
  | 0, _, _ => none
  | fuel + 1, attempt, st =>
    if !cfg.Nonstop && decide ((attempt : Int) ≥ cfg.Count) then
      some (RunResult.returned none, st)
    else
      let attempt := attempt + 1
      match runRound env cfg pingOpts singleIP maxIPLen attempt 0 cfg.IPs st with
      | (RoundEnd.cancelled, st1) => some (RunResult.returned none, st1)
      | (RoundEnd.nilStats, st1) => some (RunResult.panicked, st1)
      | (RoundEnd.completed, st1) =>
        if cfg.Nonstop || decide ((attempt : Int) < cfg.Count) then
          if env.since attempt < cfg.DelayDur then
            let wait := cfg.DelayDur - env.since attempt
            let st2 := { st1 with trace := st1.trace ++ [Event.wait wait] }
            if env.waitDone attempt then some (RunResult.returned none, st2)
            else runLoop env cfg pingOpts singleIP maxIPLen fuel attempt st2
          else runLoop env cfg pingOpts singleIP maxIPLen fuel attempt st1
        else runLoop env cfg pingOpts singleIP maxIPLen fuel attempt st1

/-- What is observed of a call of `Run`. -/
structure RunOutcome where
  result : RunResult
  /-- The map `a.stats` when `Run` ends. -/
  stats : StatsMap
  /-- Everything printed and every probe and wait, in order. -/
  trace : List Event
deriving DecidableEq, Repr

/-- Go `func (a *App) Run() error`. The deferred `ShowStats` prints last, on every way out
of the function. `none` means the fuel ran out before `Run` ended. -/
def App.Run (env : Env) (a : App) (fuel : Nat) : Option RunOutcome :=
  let su := setup a
  let singleIP := decide (a.cfg.IPs.length = 1)
  match runLoop env a.cfg su.pingOpts singleIP su.maxIPLen fuel 0
      { stats := su.stats, trace := ShowBanner a.cfg, pings := 0 } with
  | none => none
  | some (res, st) =>
    some { result := res, stats := st.stats, trace := st.trace ++ ShowStats a.cfg st.stats }

/-! ## internal/probe: address resolution -/

/-- Go `net.IP`: a slice of bytes. -/
abbrev NetIP := List Nat

/-- Go standard library `func (ip IP) To4() IP`: the 4-byte form of an address, which a
4-byte address and a 16-byte IPv4-mapped address have. -/
def To4 (ip : NetIP) : Option NetIP :=
  if ip.length = 4 then some ip
  else if ip.length = 16 ∧ ip.take 10 = List.replicate 10 0
      ∧ (ip.drop 10).take 2 = [255, 255] then
    some (ip.drop 12)
  else none

/-- Go standard library `func (ip IP) To16() IP`: the 16-byte form of an address. -/
def To16 (ip : NetIP) : Option NetIP :=
  if ip.length = 4 then some (List.replicate 10 0 ++ [255, 255] ++ ip)
  else if ip.length = 16 then some ip
  else none

/-- The parts of the Go standard library that address resolution calls, taken as given. -/
structure NetLib where
  /-- Go `net.ParseIP(s)`: the address that `s` is a literal of, or nil. -/
  ParseIP : String → Option NetIP
  /-- Go `net.DefaultResolver.LookupIP(ctx, "ip", host)` under the timeout of the config:
  the addresses found, or the message of the error. -/
  LookupIP : String → Except String (List NetIP)
  /-- Go `func (ip IP) String() string`: the text form of an address. -/
  ipString : NetIP → String

/-- Go `probe.getIPv4(cfg, addr)`. -/
def getIPv4 (net : NetLib) (cfg : Config) (addr : NetIP) : String × Bool :=
  if !cfg.AllowIPv4 then ("", false)
  else
    match To4 addr with
    | some ipv4 => (net.ipString ipv4, true)
    | none => ("", false)

/-- Go `probe.getIPv6(cfg, addr)`. -/
def getIPv6 (net : NetLib) (cfg : Config) (addr : NetIP) : String × Bool :=
  if !cfg.AllowIPv6 then ("", false)
  else if (To4 addr).isSome then ("", false)
  else
    match To16 addr with
    | some ipv6 => (net.ipString ipv6, true)
    | none => ("", false)

/-- Go `probe.getIP(cfg, addr)`. -/
def getIP (net : NetLib) (cfg : Config) (addr : NetIP) : IP × Bool :=
  if (getIPv4 net cfg addr).2 then
    ({ IP := (getIPv4 net cfg addr).1, IsIPv4 := true }, true)
  else if (getIPv6 net cfg addr).2 then
    ({ IP := (getIPv6 net cfg addr).1, IsIPv4 := false }, true)
  else ({ IP := "", IsIPv4 := false }, false)

/-- What `GetAddrs` returns, with the hosts it asked the resolver for. -/
structure AddrsResult where
  ips : List IP
  err : GoError
  lookups : List String
deriving DecidableEq, Repr

/-- Go `probe.GetAddrs(cfg)`. -/
def GetAddrs (net : NetLib) (cfg : Config) : AddrsResult :=
  match net.ParseIP cfg.Host with
  | some ip =>
    if (getIP net cfg ip).2 then
      { ips := [(getIP net cfg ip).1], err := none, lookups := [] }
    else { ips := [], err := some "no addresses found", lookups := [] }
  | none =>
    match net.LookupIP cfg.Host with
    | Except.error e =>
      { ips := [], err := some ("resolve host `" ++ cfg.Host ++ "`: " ++ e),
        lookups := [cfg.Host] }
    | Except.ok addrs =>
      let ips := addrs.filterMap (fun addr =>
        if (getIP net cfg addr).2 then some (getIP net cfg addr).1 else none)
      if ips.length = 0 then
        { ips := ips, err := some "no addresses found", lookups := [cfg.Host] }
      else { ips := ips, err := none, lookups := [cfg.Host] }

/-! ## internal/cli: SortIPs -/

/-- The lexicographic order of two texts, character by character, by code point. -/
def lessChars : List Char → List Char → Bool
  | _, [] => false
  | [], _ :: _ => true
  | a :: as, b :: bs =>
    if a.toNat < b.toNat then true
    else if b.toNat < a.toNat then false
    else lessChars as bs

/-- Go `a < b` on strings. Go compares the strings byte by byte; for UTF-8 text that is
the order of the code points, character by character. -/
def lessString (a b : String) : Bool := lessChars a.data b.data

/-- The function passed to `sort.Slice` by `SortIPs`: whether `ipA` goes before `ipB`. -/
def lessIP (ipA ipB : IP) : Bool :=
  if ipA.IsIPv4 != ipB.IsIPv4 then ipA.IsIPv4
  else lessString ipA.IP ipB.IP

/-- The order that `lessIP` sorts by: `ipB` does not go before `ipA`. -/
def notAfter (ipA ipB : IP) : Prop := lessIP ipB ipA = false

instance notAfter_decidable : DecidableRel notAfter := fun a b =>
  inferInstanceAs (Decidable (lessIP b a = false))

/-- Go `cli.SortIPs(cfg)`. The library call `sort.Slice(cfg.IPs, less)` puts the slice in
the order of `less`; it is embedded as an insertion sort. Two entries that `less` does not
tell apart are equal, so every sorting algorithm gives the same slice. -/
def SortIPs (cfg : Config) : Config :=
  { cfg with IPs := cfg.IPs.insertionSort notAfter }

/-! ## internal/helpers, presets and the Go library calls of internal/cli -/

/-- Go standard library `strconv.Atoi(s)`: an optional sign and one or more decimal
digits, with a value that fits a 64-bit `int`; nil otherwise. -/
def Atoi (s : String) : Option Int :=
  let digits : List Char :=
    match s.data with
    | '-' :: rest => rest
    | '+' :: rest => rest
    | cs => cs
  if digits = [] ∨ digits.all Char.isDigit = false then none
  else
    let magnitude : Int := digits.foldl (fun acc c => acc * 10 + ((c.toNat : Int) - 48)) 0
    let value : Int := if s.data.head? = some '-' then -magnitude else magnitude
    if value < -9223372036854775808 ∨ 9223372036854775807 < value then none
    else some value

/-- Go `helpers.ValidPort(port)`. -/
def ValidPort (port : String) : Bool :=
  match Atoi port with
  | some i => decide (1 ≤ i) && decide (i ≤ 65535)
  | none => false

/-- In the words of the claim: the text `p` is a base-10 integer literal of value `i`, that
is an optional sign `+` or `-` followed by one or more decimal digits and nothing else,
`i` being the number that the digits write, negated under the sign `-`. -/
def IsDecimalLiteral (p : String) (i : Int) : Prop :=
  ∃ (sign digits : List Char),
    p.data = sign ++ digits
    ∧ (sign = [] ∨ sign = ['+'] ∨ sign = ['-'])
    ∧ digits ≠ []
    ∧ (∀ c ∈ digits, c.isDigit = true)
    ∧ i = (if sign = ['-'] then -1 else 1)
          * ((Nat.ofDigits 10 (digits.reverse.map (fun c => c.toNat - 48)) : Nat) : Int)

/-- The value of a hexadecimal digit, of either case. -/
def hexVal (c : Char) : Option Nat :=
  if '0' ≤ c ∧ c ≤ '9' then some (c.toNat - 48)
  else if 'a' ≤ c ∧ c ≤ 'f' then some (c.toNat - 87)
  else if 'A' ≤ c ∧ c ≤ 'F' then some (c.toNat - 55)
  else none

/-- The bytes written by pairs of hexadecimal digits; nil when a character is no such
digit or one digit is left over. -/
def decodePairs : List Char → Option (List Nat)
  | [] => some []
  | [_] => none
  | p :: q :: rest =>
    match hexVal p, hexVal q, decodePairs rest with
    | some a, some b, some tail => some ((a * 16 + b) :: tail)
    | _, _, _ => none

/-- Go standard library `hex.DecodeString(s)`: the bytes, or nil for an error. -/
def hexDecodeString (s : String) : Option (List Nat) := decodePairs s.data

/-- Go `probe.Preset`. -/
structure Preset where
  Proto : Proto
  Port : String
  UDPPayloadHex : String
deriving DecidableEq, Repr

/-- Go `probe.Predefined`. The entries are written in the order of their names, which is
the order in which `sort.Strings` puts the keys of the map. -/
def Predefined : GoMap Preset :=
  [("dns", ⟨UDP, "53", "0000010000000000000100000377777706676f6f676c6503636f6d0000010001"⟩),
   ("ftp", ⟨TCP, "21", ""⟩),
   ("http", ⟨TCP, "80", ""⟩),
   ("https", ⟨TCP, "443", ""⟩),
   ("imap", ⟨TCP, "143", ""⟩),
   ("mysql", ⟨TCP, "3306", ""⟩),
   ("ntp", ⟨UDP, "123",
      "1b0000000000000000000000000000000000000000000000000000000000000000000000000000000000000000000000"⟩),
   ("pop3", ⟨TCP, "110", ""⟩),
   ("postgres", ⟨TCP, "5432", ""⟩),
   ("smtp", ⟨TCP, "25", ""⟩),
   ("ssh", ⟨TCP, "22", ""⟩),
   ("stun", ⟨UDP, "3478", "000100002112a442636363636363636363636363"⟩)]

/-- Go `probe.GetPreset(name)`. -/
def GetPreset (name : String) : Option Preset := mapGet Predefined name

/-- The index of the first occurrence of a character in a text. -/
def indexOfChar (c : Char) : List Char → Option Nat
  | [] => none
  | x :: rest => if x = c then some 0 else (indexOfChar c rest).map (fun i => i + 1)

/-- The index of the last occurrence of a character in a text. -/
def lastIndexOfChar (c : Char) : List Char → Option Nat
  | [] => none
  | x :: rest =>
    match lastIndexOfChar c rest with
    | some i => some (i + 1)
    | none => if x = c then some 0 else none

/-- Go standard library `net.SplitHostPort(hostport)`: the host and the port, or nil for an
error. The port starts after the last colon; a host in brackets must end right before that
colon; without brackets the host holds no colon; no other bracket may occur. -/
def SplitHostPort (hostport : String) : Option (String × String) :=
  let cs := hostport.data
  match lastIndexOfChar ':' cs with
  | none => none
  | some i =>
    if cs.head? = some '[' then
      match indexOfChar ']' cs with
      | none => none
      | some close =>
        if close + 1 = cs.length then none
        else if close + 1 = i then
          if (cs.drop 1).any (fun c => c == '[') then none
          else if (cs.drop (close + 1)).any (fun c => c == ']') then none
          else some (String.mk ((cs.take close).drop 1), String.mk (cs.drop (i + 1)))
        else none
    else
      if (cs.take i).any (fun c => c == ':') then none
      else if cs.any (fun c => c == '[') then none
      else if cs.any (fun c => c == ']') then none
      else some (String.mk (cs.take i), String.mk (cs.drop (i + 1)))

/-- Go standard library `strings.Trim(s, "[]")`. -/
def trimBrackets (s : String) : String :=
  let isBracket : Char → Bool := fun c => c == '[' || c == ']'
  String.mk ((((s.data.dropWhile isBracket).reverse).dropWhile isBracket).reverse)

/-- Go `fmt` verb `%q` on a text without characters to escape: the text in double
quotes. -/
def goQuote (s : String) : String := "\"" ++ s ++ "\""

/-! ## internal/cli -/

/-- What `fs.Parse(args)` of the Go `flag` library leaves behind when it succeeds: the
value of every flag registered by `initFlags` and the positional arguments. -/
structure Flags where
  /-- The flag `-nocolor` (on Windows the flag does not exist and the value is true). -/
  nocolor : Bool
  /-- The flag `-t`. -/
  t : Int
  /-- The flag `-d`. -/
  d : Int
  /-- The flag `-c`. -/
  c : Int
  /-- The flag `-4`. -/
  v4 : Bool
  /-- The flag `-6`. -/
  v6 : Bool
  /-- The flag `-preset`. -/
  preset : String
  /-- The flag `-payload`. -/
  payload : String
  /-- The flag `-udp`. -/
  udp : Bool
  /-- The flag `-tcp`. -/
  tcp : Bool
  /-- The boolean flag registered under the name of each preset. -/
  shortcut : String → Bool
  /-- The positional arguments `fs.Args()`. -/
  args : List String

/-- The zero value `&models.Config\x7b\x7d`. -/
def zeroConfig : Config :=
  { Proto := "", Host := "", Port := "", Timeout := 0, TimeoutDur := 0, Delay := 0,
    DelayDur := 0, Count := 0, Nonstop := false, AllowIPv4 := false, AllowIPv6 := false,
    NoColor := false, IPs := [], Preset := "", UDPPayloadHex := "", UDPPayload := [] }

/-- Go `cli.trySplitHostPort(s)`: the host and the port, or nil for an error. -/
def trySplitHostPort (s : String) : Option (String × String) :=
  match SplitHostPort s with
  | some hp => some hp
  | none =>
    if 2 ≤ s.data.count ':' ∧ ¬ (s.data.head? = some '[') then
      match lastIndexOfChar ':' s.data with
      | some i =>
        if 0 < i ∧ i + 1 < s.data.length then
          SplitHostPort ("[" ++ String.mk (s.data.take i) ++ "]:"
            ++ String.mk (s.data.drop (i + 1)))
        else none
      | none => none
    else none

/-- Lines 124 to 145 of `parseArgs`: the preset whose boolean shortcut is set becomes
`cfg.Preset` unless `-preset` names one; two shortcuts, or a shortcut and another preset,
are an error. The names are visited in sorted order. -/
def choosePreset (fl : Flags) (cfg : Config) : Except String Config :=
  let selected := (Predefined.map Prod.fst).filter fl.shortcut
  if 1 < selected.length then Except.error "multiple presets selected"
  else
    let chosen := selected.headD ""
    let cfg := if chosen ≠ "" ∧ cfg.Preset = "" then { cfg with Preset := chosen } else cfg
    if chosen ≠ "" ∧ cfg.Preset ≠ "" ∧ cfg.Preset ≠ chosen then
      Except.error ("conflicting presets: " ++ goQuote cfg.Preset ++ " and " ++ goQuote chosen)
    else Except.ok cfg

/-- Lines 147 to 161 of `parseArgs`: `host`, `port` and `portInHost`, from the first
positional argument `raw0` and the arguments after it. -/
def splitArgs (raw0 : String) (more : List String) : String × String × Bool :=
  let split : Option (String × String) :=
    if raw0.data.head? = some '[' ∨ raw0.data.any (fun c => c == ':') = true then
      trySplitHostPort raw0
    else none
  let host0 := (split.map (fun hp => hp.1)).getD ""
  let port0 := (split.map (fun hp => hp.2)).getD ""
  let host := if host0 = "" then trimBrackets raw0 else host0
  let port := if host0 = "" then more.headD port0 else port0
  (host, port, split.isSome)

/-- Lines 165 to 181 of `parseArgs`: the port, the protocol and the payload text that the
preset gives where they are not set; the port and the config, or the error. -/
def applyPreset (cfg : Config) (port : String) : Except String (String × Config) :=
  if cfg.Preset ≠ "" then
    match GetPreset cfg.Preset with
    | none => Except.error ("invalid preset " ++ goQuote cfg.Preset)
    | some pr =>
      let port := if port = "" then pr.Port else port
      let cfg := if cfg.Proto ≠ UDP ∧ cfg.Proto ≠ TCP then { cfg with Proto := pr.Proto }
                 else cfg
      let cfg := if cfg.Proto = UDP ∧ cfg.UDPPayloadHex = "" then
          { cfg with UDPPayloadHex := pr.UDPPayloadHex } else cfg
      Except.ok (port, cfg)
  else Except.ok (port, cfg)

/-- Lines 185 to 199 of `parseArgs`: under UDP the positional argument after the port,
when it is there and not empty, replaces the payload text. -/
def positionalPayload (cfg : Config) (args : List String) (portInHost : Bool) : Config :=
  let payloadFromArg :=
    if cfg.IsUDP then (args.drop (if portInHost then 1 else 2)).headD "" else ""
  if payloadFromArg ≠ "" then { cfg with UDPPayloadHex := payloadFromArg } else cfg

/-- Go `cli.parseArgs(fs, cfg)`: the config with host, port, preset, protocol and payload
text filled in, or the message of the error. -/
def parseArgs (fl : Flags) (cfg : Config) : Except String Config :=
  match fl.args with
  | [] => Except.ok cfg
  | raw0 :: more =>
    match choosePreset fl cfg with
    | Except.error e => Except.error e
    | Except.ok cfg =>
      match applyPreset cfg (splitArgs raw0 more).2.1 with
      | Except.error e => Except.error e
      | Except.ok (port, cfg) =>
        Except.ok { positionalPayload cfg (raw0 :: more) (splitArgs raw0 more).2.2 with
                    Host := (splitArgs raw0 more).1, Port := port }

/-- What a call of `Validate` gives: the config as the call leaves it, the error returned,
and the hosts that the resolver was asked for. -/
structure ValidateResult where
  cfg : Config
  err : GoError
  lookups : List String
deriving DecidableEq, Repr

/-- Go `cli.Validate(cfg)`. -/
def Validate (net : NetLib) (cfg : Config) : ValidateResult :=
  if cfg.Host.utf8ByteSize < 1 ∨ cfg.Port.utf8ByteSize < 1 then
    { cfg := cfg, err := some "host or port is required", lookups := [] }
  else if ValidPort cfg.Port = false then
    { cfg := cfg, err := some ("invalid port `" ++ cfg.Port ++ "`"), lookups := [] }
  else if cfg.Timeout < 1 then
    { cfg := cfg, err := some "timeout must be greater than 0", lookups := [] }
  else if cfg.Delay < 1 then
    { cfg := cfg, err := some "delay must be greater than 0", lookups := [] }
  else if cfg.Count < 0 then
    { cfg := cfg, err := some "count must be greater than or equal to 0", lookups := [] }
  else if cfg.IsUDP = true ∧ cfg.UDPPayloadHex = "" ∧ cfg.UDPPayload.length = 0 then
    { cfg := cfg, err := some "UDP payload is required for UDP ping", lookups := [] }
  else
    match (GetAddrs net cfg).err with
    | some e => { cfg := cfg, err := some e, lookups := (GetAddrs net cfg).lookups }
    | none =>
      { cfg := SortIPs { cfg with IPs := (GetAddrs net cfg).ips }, err := none,
        lookups := (GetAddrs net cfg).lookups }

/-- Lines 59 to 61 of `parseWith`: TCP when no protocol is chosen. -/
def defaultProto (cfg : Config) : Config :=
  if cfg.Proto ≠ UDP ∧ cfg.Proto ≠ TCP then { cfg with Proto := TCP } else cfg

/-- Lines 63 to 69 of `parseWith`: under UDP a payload text that is not empty is decoded
into the payload; nil when `hex.DecodeString` returns an error. -/
def decodePayload (cfg : Config) : Option Config :=
  if cfg.Proto = UDP ∧ cfg.UDPPayloadHex ≠ "" then
    match hexDecodeString cfg.UDPPayloadHex with
    | none => none
    | some b => some { cfg with UDPPayload := b }
  else some cfg

/-- Lines 71 to 74 of `parseWith`: without UDP there is no payload. -/
def clearPayload (cfg : Config) : Config :=
  if cfg.Proto ≠ UDP then { cfg with UDPPayloadHex := "", UDPPayload := [] } else cfg

/-- Lines 76 to 78 of `parseWith`: the durations, as 64-bit products, and the nonstop
flag. -/
def setDurations (cfg : Config) : Config :=
  { cfg with TimeoutDur := wrapInt64 (wrapInt64 cfg.Timeout * 1000000),
             DelayDur := wrapInt64 (wrapInt64 cfg.Delay * 1000000),
             Nonstop := decide (cfg.Count = 0) }

/-- The end of `parseWith`, after `parseArgs` (lines 59 to 82): the default protocol, the
decoding of the payload, the durations, the nonstop flag and the validation. The first
component is the config returned (nil when decoding fails), the second the error. -/
def finishParse (net : NetLib) (cfg : Config) : Option Config × GoError :=
  match decodePayload (defaultProto cfg) with
  | none => (none, some "invalid UDP payload, should be hex string")
  | some cfg =>
    (some (Validate net (setDurations (clearPayload cfg))).cfg,
     (Validate net (setDurations (clearPayload cfg))).err)

/-- The config of `parseWith` when `parseArgs` is called: the values bound to the flags
by `initFlags` and `fs.Parse`, then the protocol chosen by `-udp` or `-tcp` and the
address families chosen by `-4` and `-6`. -/
def flagsConfig (fl : Flags) : Config :=
  let cfg := { zeroConfig with NoColor := fl.nocolor, Timeout := fl.t, Delay := fl.d,
                               Count := fl.c, Preset := fl.preset,
                               UDPPayloadHex := fl.payload }
  let cfg := if fl.udp then { cfg with Proto := UDP }
             else if fl.tcp then { cfg with Proto := TCP } else cfg
  if fl.v4 || fl.v6 then { cfg with AllowIPv4 := fl.v4, AllowIPv6 := fl.v6 }
  else { cfg with AllowIPv4 := true }

/-- Go `cli.parseWith(fs, args)`, from the result of `fs.Parse(args)` on: the message of
the parse error, or the values of the flags. -/
def parseWith (net : NetLib) (parsed : Except String Flags) : Option Config × GoError :=
  match parsed with
  | Except.error e => (none, some e)
  | Except.ok fl =>
    if fl.udp && fl.tcp then (none, some "both -udp and -tcp are set")
    else
      match parseArgs fl (flagsConfig fl) with
      | Except.error e => (none, some e)
      | Except.ok cfg => finishParse net cfg

/-- Two configs have the same timeout, delay, count and allowed address families. -/
def SameSettings (a b : Config) : Prop :=
  a.Timeout = b.Timeout ∧ a.Delay = b.Delay ∧ a.Count = b.Count
  ∧ a.AllowIPv4 = b.AllowIPv4 ∧ a.AllowIPv6 = b.AllowIPv6

/-! ## Reading a trace -/

/-- The addresses of the probes of a trace, in order. -/
def probesOf (trace : List Event) : List String :=
  trace.filterMap (fun ev => match ev with
    | Event.probe opts => some opts.Address
    | _ => none)

/-- The options of the probes of a trace, in order. -/
def probeOptsOf (trace : List Event) : List PingOptions :=
  trace.filterMap (fun ev => match ev with
    | Event.probe opts => some opts
    | _ => none)

/-- The per-attempt reports of a trace, in order: round number, sub-index, address,
duration and error. -/
def reportsOf (trace : List Event) : List (Int × Int × String × Int × GoError) :=
  trace.filterMap (fun ev => match ev with
    | Event.current cnt subcnt ip _ duration err => some (cnt, subcnt, ip, duration, err)
    | _ => none)

/-- The round number and the address of each per-attempt report of a trace, in order. -/
def reportKeys (trace : List Event) : List (Int × String) :=
  (reportsOf trace).map (fun r => (r.1, r.2.2.1))

/-- The calls of `Update` that the reports of a trace stand for, for one address. -/
def callsFor (k : String) (trace : List Event) : List (Int × GoError) :=
  trace.filterMap (fun ev => match ev with
    | Event.current _ _ ip _ duration err => if ip = k then some (duration, err) else none
    | _ => none)

/-- The number of times the title line of the statistics section is printed. -/
def statsTitleCount (trace : List Event) : Nat :=
  trace.countP (fun ev => match ev with
    | Event.statsTitle _ _ _ => true
    | _ => false)

/-- The records of the per-address rows of the statistics section of a trace, in order. -/
def rowsOf (trace : List Event) : List Stats :=
  trace.filterMap (fun ev => match ev with
    | Event.statsRow _ st => some st
    | _ => none)

/-- What a trace shows of the schedule of a run: a per-attempt report, with its round
number and address, or a wait between two rounds, with its length. -/
inductive Mark where
  | report (round : Int) (ip : String)
  | wait (d : Int)
deriving DecidableEq, Repr

/-- The reports and the waits of a trace, in order. -/
def marksOf (trace : List Event) : List Mark :=
  trace.filterMap (fun ev => match ev with
    | Event.current cnt _ ip _ _ _ => some (Mark.report cnt ip)
    | Event.wait d => some (Mark.wait d)
    | _ => none)

/-- The wait that the scheduler is to make after round `r`, in the words of the
specification: when another round remains and the time `e` elapsed since the round
started is below the delay, one wait of the delay less `e`; otherwise no wait. -/
def expectedWait (env : Env) (cfg : Config) (r : Nat) : List Mark :=
  if (cfg.Nonstop = true ∨ (r : Int) < cfg.Count) ∧ env.since r < cfg.DelayDur then
    [Mark.wait (cfg.DelayDur - env.since r)]
  else []

/-- The schedule of round `r`: one report per address in the order of `cfg.IPs`, then the
wait after the round. -/
def expectedRoundMarks (env : Env) (cfg : Config) (r : Nat) : List Mark :=
  cfg.IPs.map (fun ip => Mark.report (r : Int) ip.IP) ++ expectedWait env cfg r

/-! ## Concrete inputs -/

/-- A TCP configuration for port 80 of `localhost` with a timeout and a delay of one
second, for the given addresses, count and nonstop flag. -/
def exampleCfg (ips : List IP) (count : Int) (nonstop : Bool) : Config :=
  { Proto := TCP, Host := "localhost", Port := "80", Timeout := 1000,
    TimeoutDur := 1000000000, Delay := 1000, DelayDur := 1000000000, Count := count,
    Nonstop := nonstop, AllowIPv4 := true, AllowIPv6 := true, NoColor := true, IPs := ips,
    Preset := "", UDPPayloadHex := "", UDPPayload := [] }

/-- A world without cancellation in which every connection is refused, the clock moves by
1 ms from one reading of a probe to the next, and a round takes 2 ms. -/
def refusingEnv : Env :=
  { done := fun _ => false
    waitDone := fun _ => false
    since := fun _ => 2000000
    clock := fun _ k => 1000000 * (k : Int)
    sock := fun _ op =>
      match op with
      | SockOp.dial _ _ => some "connection refused"
      | _ => none }

/-- A world without cancellation in which a UDP socket opens and takes the payload and no
answer comes before the read deadline: the clock moves by 1 ms from one reading of a probe
to the next, and by one second more across the read. -/
def silentEnv : Env :=
  { done := fun _ => false
    waitDone := fun _ => false
    since := fun _ => 1004000000
    clock := fun _ k => if k < 3 then 1000000 * (k : Int) else 1000000 * (k : Int) + 1000000000
    sock := fun _ op =>
      match op with
      | SockOp.read => some "i/o timeout"
      | _ => none }

/-- A configuration with four addresses, for the statistics section. -/
def mixedCfg : Config :=
  exampleCfg [⟨"10.0.0.1", true⟩, ⟨"10.0.0.2", true⟩, ⟨"10.0.0.3", true⟩, ⟨"10.0.0.4", true⟩]
    2 false

/-- A statistics map for `mixedCfg`: a record with two attempts for the first address, a
record without attempts for the second, a nil record for the third and no entry for the
fourth. -/
def mixedStats : StatsMap :=
  [("10.0.0.1", some { IP := ⟨"10.0.0.1", true⟩, Attempts := 2, Connects := 1, Failures := 1,
                       Minimum := 10000000, Maximum := 10000000, Total := 10000000 }),
   ("10.0.0.2", some (zeroStats ⟨"10.0.0.2", true⟩)),
   ("10.0.0.3", none)]

/-- A world in which the context is cancelled before `Run` is called. -/
def cancelledEnv : Env :=
  { done := fun _ => true
    waitDone := fun _ => true
    since := fun _ => 2000000
    clock := fun _ k => 1000000 * (k : Int)
    sock := fun _ op =>
      match op with
      | SockOp.dial _ _ => some "operation was canceled"
      | _ => none }

/-- The dotted-decimal text of an address, which is what Go prints for a 4-byte address. -/
def dottedDecimal (ip : NetIP) : String :=
  String.intercalate "." (ip.map (fun b => toString b))

/-- A library in which the host is no literal address and the lookup gives the stated
result; addresses print in dotted decimal. -/
def lookupNet (result : Except String (List NetIP)) : NetLib :=
  { ParseIP := fun _ => none
    LookupIP := fun _ => result
    ipString := dottedDecimal }

/-- A library in which the host is a literal of the stated address; addresses print in
dotted decimal. -/
def literalNet (addr : NetIP) : NetLib :=
  { ParseIP := fun _ => some addr
    LookupIP := fun _ => Except.error "no such host"
    ipString := dottedDecimal }

/-- The values of the flags after `portping -udp -c 2 <args>` with nothing else set. -/
def udpFlags (args : List String) : Flags :=
  { nocolor := true, t := 1000, d := 1000, c := 2, v4 := false, v6 := false, preset := "",
    payload := "", udp := true, tcp := false, shortcut := fun _ => false, args := args }

/-- The config that `parseWith` returns for `portping -udp -c 2 127.0.0.1 53 0001` when
the host is a literal of the address 127.0.0.1. -/
def parsedUdpCfg : Config :=
  { Proto := UDP, Host := "127.0.0.1", Port := "53", Timeout := 1000,
    TimeoutDur := 1000000000, Delay := 1000, DelayDur := 1000000000, Count := 2,
    Nonstop := false, AllowIPv4 := true, AllowIPv6 := false, NoColor := true,
    IPs := [⟨"127.0.0.1", true⟩], Preset := "", UDPPayloadHex := "0001", UDPPayload := [0, 1] }

/-- The config that `parseArgs` leaves for `portping -udp -c 2 example.com:53 payload`. -/
def unparsedUdpCfg : Config :=
  { Proto := UDP, Host := "example.com", Port := "53", Timeout := 1000, TimeoutDur := 0,
    Delay := 1000, DelayDur := 0, Count := 2, Nonstop := false, AllowIPv4 := true,
    AllowIPv6 := false, NoColor := true, IPs := [], Preset := "", UDPPayloadHex := "payload",
    UDPPayload := [] }

/-- What `Run` gives in `cancelledEnv` for the single address `127.0.0.1` in nonstop mode:
the banner, then the statistics title and column line, and an untouched record. -/
def cancelledOutcome : RunOutcome :=
  { result := RunResult.returned none,
    stats := [("127.0.0.1", some (zeroStats ⟨"127.0.0.1", true⟩))],
    trace := [Event.bannerHead "localhost" "tcp" "80" 1 "IP",
              Event.bannerIP "IPv4" "127.0.0.1",
              Event.statsTitle "localhost" "tcp" "80",
              Event.statsColumns "% 10s% 12s% 11s % 15s% 10s %10s  %10s\n"] }

/-- The values of the flags after `portping <args>` with no option set, on a system
other than Windows. -/
def plainFlags (args : List String) : Flags :=
  { nocolor := false, t := 1000, d := 1000, c := 0, v4 := false, v6 := false, preset := "",
    payload := "", udp := false, tcp := false, shortcut := fun _ => false, args := args }

/-- The config that `parseWith` returns for `portping 127.0.0.1 80` when the host is a
literal of the address 127.0.0.1. -/
def parsedPlainCfg : Config :=
  { Proto := TCP, Host := "127.0.0.1", Port := "80", Timeout := 1000,
    TimeoutDur := 1000000000, Delay := 1000, DelayDur := 1000000000, Count := 0,
    Nonstop := true, AllowIPv4 := true, AllowIPv6 := false, NoColor := false,
    IPs := [⟨"127.0.0.1", true⟩], Preset := "", UDPPayloadHex := "", UDPPayload := [] }

/-- The values of the flags after `portping -dns <args>` with nothing else set: the
shortcut of the preset `dns` is the only one set. -/
def dnsFlags (args : List String) : Flags :=
  { plainFlags args with shortcut := fun name => name == "dns" }

/-- The values of the flags after `portping -preset dns <args>` with nothing else set. -/
def presetDnsFlags (args : List String) : Flags :=
  { plainFlags args with preset := "dns" }

/-- The values of the flags after `portping -https <args>` with nothing else set: the
shortcut of the preset `https` is the only one set. -/
def httpsFlags (args : List String) : Flags :=
  { plainFlags args with shortcut := fun name => name == "https" }

/-! ## Invariants of the probing loop -/

/-- Every address of the list has a non-nil record in the map. -/
def AllPresent (m : StatsMap) (l : List IP) : Prop :=
  ∀ ip ∈ l, ∃ record, statsAt m ip.IP = some record

/-- The state `st2` is reached from `st1` by probing: the trace grows by events that hold
no statistics title, every record is the old record after the `Update` calls that the new
reports stand for, the keys of the map are the same, each new probe has its report, the
poll in front of each new probe found the context not cancelled, and each new report
carries the duration and error returned by a call of `a.Ping`. -/
def Extends (env : Env) (cfg : Config) (st1 st2 : RunState) : Prop :=
  ∃ news : List Event,
    st2.trace = st1.trace ++ news
    ∧ statsTitleCount news = 0
    ∧ (∀ k record, statsAt st1.stats k = some record →
        statsAt st2.stats k = some (UpdateAll record (callsFor k news)))
    ∧ st2.stats.map Prod.fst = st1.stats.map Prod.fst
    ∧ st2.pings = st1.pings + (probesOf news).length
    ∧ (reportsOf news).length = (probesOf news).length
    ∧ (∀ m, st1.pings ≤ m → m < st2.pings → env.done m = false)
    ∧ (∀ r ∈ reportsOf news, ∃ n opts, App.Ping env n cfg opts = (r.2.2.2.1, r.2.2.2.2))

/-! ## Theorems: the statistics accumulator -/

theorem Update_of_error (s : Stats) (d : Int) (msg : String) :
    Update s d (some msg)
      = { s with Attempts := s.Attempts + 1, Failures := s.Failures + 1 } := by
  simp [Update]

theorem Update_Attempts (s : Stats) (d : Int) (e : GoError) :
    (Update s d e).Attempts = s.Attempts + 1 := by
  unfold Update
  simp only []
  split_ifs <;> rfl

theorem Update_Connects_of_ok (s : Stats) (d : Int) :
    (Update s d none).Connects = s.Connects + 1 := by
  unfold Update
  simp only []
  split_ifs <;> first | rfl | simp_all

theorem Update_Failures_of_ok (s : Stats) (d : Int) :
    (Update s d none).Failures = s.Failures := by
  unfold Update
  simp only []
  split_ifs <;> first | rfl | simp_all

theorem Update_Total_of_ok (s : Stats) (d : Int) :
    (Update s d none).Total = s.Total + d := by
  unfold Update
  simp only []
  split_ifs <;> first | rfl | simp_all

theorem Update_Maximum_of_ok (s : Stats) (d : Int) :
    (Update s d none).Maximum = max s.Maximum d := by
  unfold Update
  simp only []
  split_ifs with h1 h2 h3 h4
  all_goals first
    | (exfalso; simp at h1; done)
    | (simp only []; rw [max_eq_right]; simp only [] at *; omega)
    | (simp only []; rw [max_eq_left]; simp only [] at *; omega)

theorem Update_Minimum_of_ok (s : Stats) (d : Int) :
    (Update s d none).Minimum = if s.Minimum = 0 ∨ s.Minimum > d then d else s.Minimum := by
  unfold Update
  simp only []
  split_ifs <;> simp_all

theorem UpdateAll_nil (s : Stats) : UpdateAll s [] = s := rfl

theorem UpdateAll_cons (s : Stats) (c : Int × GoError) (cs : List (Int × GoError)) :
    UpdateAll s (c :: cs) = UpdateAll (Update s c.1 c.2) cs := rfl

theorem UpdateAll_append (s : Stats) (cs ds : List (Int × GoError)) :
    UpdateAll s (cs ++ ds) = UpdateAll (UpdateAll s cs) ds := by
  simp [UpdateAll, List.foldl_append]

theorem Update_of_isSome (s : Stats) (d : Int) (e : GoError) (he : e.isSome = true) :
    Update s d e = { s with Attempts := s.Attempts + 1, Failures := s.Failures + 1 } := by
  cases e with
  | none => simp at he
  | some msg => exact Update_of_error s d msg

theorem successDurations_cons_ok (d : Int) (cs : List (Int × GoError)) :
    successDurations ((d, none) :: cs) = d :: successDurations cs := by
  simp [successDurations]

theorem successDurations_cons_error (d : Int) (msg : String) (cs : List (Int × GoError)) :
    successDurations ((d, some msg) :: cs) = successDurations cs := by
  simp [successDurations]

theorem successDurations_filter (cs : List (Int × GoError)) :
    successDurations (cs.filter (fun c => c.2.isNone)) = successDurations cs := by
  simp [successDurations, List.filter_filter]

/-- The counters and the total after a sequence of calls, from any record. -/
theorem UpdateAll_counters (s : Stats) (calls : List (Int × GoError)) :
    (UpdateAll s calls).Attempts = s.Attempts + calls.length
    ∧ (UpdateAll s calls).Connects = s.Connects + (successDurations calls).length
    ∧ (UpdateAll s calls).Failures
        = s.Failures + (calls.length - (successDurations calls).length : Int)
    ∧ (UpdateAll s calls).Total = s.Total + (successDurations calls).sum
    ∧ (UpdateAll s calls).IP = s.IP := by
  induction calls generalizing s with
  | nil => simp [UpdateAll, successDurations]
  | cons c cs ih =>
    obtain ⟨d, e⟩ := c
    rw [UpdateAll_cons]
    obtain ⟨h1, h2, h3, h4, h5⟩ := ih (Update s d e)
    cases e with
    | none =>
      have a1 := Update_Attempts s d none
      have a2 := Update_Connects_of_ok s d
      have a3 := Update_Failures_of_ok s d
      have a4 := Update_Total_of_ok s d
      have a5 : (Update s d none).IP = s.IP := by
        unfold Update
        simp only []
        split_ifs <;> rfl
      rw [successDurations_cons_ok]
      simp only [List.length_cons, List.sum_cons, Nat.cast_add, Nat.cast_one]
      refine ⟨by omega, by omega, by omega, by omega, ?_⟩
      rw [h5, a5]
    | some msg =>
      have a := Update_of_error s d msg
      have a1 : (Update s d (some msg)).Attempts = s.Attempts + 1 := by rw [a]
      have a2 : (Update s d (some msg)).Connects = s.Connects := by rw [a]
      have a3 : (Update s d (some msg)).Failures = s.Failures + 1 := by rw [a]
      have a4 : (Update s d (some msg)).Total = s.Total := by rw [a]
      have a5 : (Update s d (some msg)).IP = s.IP := by rw [a]
      rw [successDurations_cons_error]
      simp only [List.length_cons, Nat.cast_add, Nat.cast_one]
      refine ⟨by omega, by omega, by omega, by omega, ?_⟩
      rw [h5, a5]

/-- The maximum after a sequence of calls is the running maximum of the successful durations. -/
theorem UpdateAll_Maximum (s : Stats) (calls : List (Int × GoError)) :
    (UpdateAll s calls).Maximum = (successDurations calls).foldl max s.Maximum := by
  induction calls generalizing s with
  | nil => simp [UpdateAll, successDurations]
  | cons c cs ih =>
    obtain ⟨d, e⟩ := c
    rw [UpdateAll_cons, ih]
    cases e with
    | none => rw [successDurations_cons_ok, List.foldl_cons, Update_Maximum_of_ok]
    | some msg => rw [successDurations_cons_error, Update_of_error]

/-- The minimum after a sequence of calls, as a fold of the test made by `Update`. -/
theorem UpdateAll_Minimum (s : Stats) (calls : List (Int × GoError)) :
    (UpdateAll s calls).Minimum
      = (successDurations calls).foldl (fun m d => if m = 0 ∨ m > d then d else m) s.Minimum := by
  induction calls generalizing s with
  | nil => simp [UpdateAll, successDurations]
  | cons c cs ih =>
    obtain ⟨d, e⟩ := c
    rw [UpdateAll_cons, ih]
    cases e with
    | none => rw [successDurations_cons_ok, List.foldl_cons, Update_Minimum_of_ok]
    | some msg => rw [successDurations_cons_error, Update_of_error]

theorem foldl_max_ge_init (l : List Int) (m : Int) : m ≤ l.foldl max m := by
  induction l generalizing m with
  | nil => simp
  | cons x xs ih => exact le_trans (le_max_left m x) (ih (max m x))

theorem foldl_max_ge_mem (l : List Int) (m : Int) : ∀ d ∈ l, d ≤ l.foldl max m := by
  induction l generalizing m with
  | nil => simp
  | cons x xs ih =>
    intro d hd
    rcases List.mem_cons.mp hd with rfl | hd
    · exact le_trans (le_max_right m d) (foldl_max_ge_init xs (max m d))
    · exact ih (max m x) d hd

theorem foldl_max_init_or_mem (l : List Int) (m : Int) :
    l.foldl max m = m ∨ l.foldl max m ∈ l := by
  induction l generalizing m with
  | nil => simp
  | cons x xs ih =>
    rw [List.foldl_cons]
    rcases ih (max m x) with h | h
    · rcases max_choice m x with hm | hm
      · left; rw [h, hm]
      · right; rw [h, hm]; exact List.mem_cons_self x xs
    · right; exact List.mem_cons_of_mem x h

/-- The fold made by `Update` on the minimum, started at a positive value, over positive
durations: the result is positive, below the start and below every duration, and is the
start or one of the durations. -/
theorem foldl_min_of_pos (l : List Int) (m : Int) (hm : 0 < m) (hl : ∀ d ∈ l, 0 < d) :
    let r := l.foldl (fun m d => if m = 0 ∨ m > d then d else m) m
    0 < r ∧ r ≤ m ∧ (∀ d ∈ l, r ≤ d) ∧ (r = m ∨ r ∈ l) := by
  induction l generalizing m with
  | nil => simp [hm]
  | cons x xs ih =>
    have hx : 0 < x := hl x (List.mem_cons_self x xs)
    have hxs : ∀ d ∈ xs, 0 < d := fun d hd => hl d (List.mem_cons_of_mem x hd)
    simp only [List.foldl_cons]
    by_cases hc : m = 0 ∨ m > x
    · rw [if_pos hc]
      obtain ⟨h1, h2, h3, h4⟩ := ih x hx hxs
      have hmx : x < m := by omega
      refine ⟨h1, by omega, ?_, ?_⟩
      · intro d hd
        rcases List.mem_cons.mp hd with rfl | hd
        · exact h2
        · exact h3 d hd
      · rcases h4 with h4 | h4
        · right; rw [h4]; exact List.mem_cons_self x xs
        · right; exact List.mem_cons_of_mem x h4
    · rw [if_neg hc]
      obtain ⟨h1, h2, h3, h4⟩ := ih m hm hxs
      refine ⟨h1, h2, ?_, ?_⟩
      · intro d hd
        rcases List.mem_cons.mp hd with rfl | hd
        · omega
        · exact h3 d hd
      · rcases h4 with h4 | h4
        · left; exact h4
        · right; exact List.mem_cons_of_mem x h4

theorem Update_Minimum_le_Maximum (s : Stats) (d : Int) (e : GoError)
    (h : s.Minimum ≤ s.Maximum) : (Update s d e).Minimum ≤ (Update s d e).Maximum := by
  cases e with
  | some msg => rw [Update_of_error]; exact h
  | none =>
    rw [Update_Minimum_of_ok, Update_Maximum_of_ok]
    split_ifs with hc
    · exact le_max_right _ _
    · exact le_trans h (le_max_left _ _)

theorem UpdateAll_Minimum_le_Maximum (s : Stats) (calls : List (Int × GoError))
    (h : s.Minimum ≤ s.Maximum) :
    (UpdateAll s calls).Minimum ≤ (UpdateAll s calls).Maximum := by
  induction calls generalizing s with
  | nil => exact h
  | cons c cs ih =>
    rw [UpdateAll_cons]
    exact ih _ (Update_Minimum_le_Maximum s c.1 c.2 h)

/-- With strictly positive durations and at least one success, the minimum after a sequence
of calls on a zero record is the smallest successful duration. -/
theorem UpdateAll_Minimum_of_pos (ip : IP) (calls : List (Int × GoError))
    (hpos : ∀ d ∈ successDurations calls, 0 < d) (hne : successDurations calls ≠ []) :
    (UpdateAll (zeroStats ip) calls).Minimum ∈ successDurations calls
    ∧ ∀ d ∈ successDurations calls, (UpdateAll (zeroStats ip) calls).Minimum ≤ d := by
  rw [UpdateAll_Minimum]
  cases hsd : successDurations calls with
  | nil => exact absurd hsd hne
  | cons x xs =>
    rw [hsd] at hpos
    have hx : 0 < x := hpos x (List.mem_cons_self x xs)
    have hxs : ∀ d ∈ xs, 0 < d := fun d hd => hpos d (List.mem_cons_of_mem x hd)
    obtain ⟨_, h2, h3, h4⟩ := foldl_min_of_pos xs x hx hxs
    have h0 : (zeroStats ip).Minimum = 0 := rfl
    simp only [List.foldl_cons, h0, true_or, if_true]
    refine ⟨?_, ?_⟩
    · rcases h4 with h4 | h4
      · rw [h4]; exact List.mem_cons_self x xs
      · exact List.mem_cons_of_mem x h4
    · intro d hd
      rcases List.mem_cons.mp hd with rfl | hd
      · exact h2
      · exact h3 d hd

/-- With the arithmetic of the integers: after any finite sequence of calls on a zero
record, `Total` is the sum of the durations of the successful calls and `Connects` is
their number; the failed calls add nothing to either. -/
theorem UpdateAll_Total_Connects (ip : IP) (calls : List (Int × GoError)) :
    (UpdateAll (zeroStats ip) calls).Total = (successDurations calls).sum
    ∧ (UpdateAll (zeroStats ip) calls).Connects = (successDurations calls).length
    ∧ (UpdateAll (zeroStats ip) calls).Total
        = (UpdateAll (zeroStats ip) (calls.filter (fun c => c.2.isNone))).Total := by
  obtain ⟨_, h2, _, h4, _⟩ := UpdateAll_counters (zeroStats ip) calls
  obtain ⟨_, _, _, k4, _⟩ :=
    UpdateAll_counters (zeroStats ip) (calls.filter (fun c => c.2.isNone))
  have hT : (zeroStats ip).Total = 0 := rfl
  have hC : (zeroStats ip).Connects = 0 := rfl
  rw [successDurations_filter] at k4
  refine ⟨by rw [h4, hT, zero_add], by rw [h2, hC, zero_add], by rw [h4, k4]⟩

/-- With the arithmetic of the integers: a failed call raises `Attempts` and `Failures`
by 1 and leaves the other fields as they were. -/
theorem Update_of_error_fields (s : Stats) (d : Int) (msg : String) :
    (Update s d (some msg)).Attempts = s.Attempts + 1
    ∧ (Update s d (some msg)).Failures = s.Failures + 1
    ∧ (Update s d (some msg)).Connects = s.Connects
    ∧ (Update s d (some msg)).Total = s.Total
    ∧ (Update s d (some msg)).Minimum = s.Minimum
    ∧ (Update s d (some msg)).Maximum = s.Maximum
    ∧ (Update s d (some msg)).IP = s.IP := by
  rw [Update_of_error]
  exact ⟨rfl, rfl, rfl, rfl, rfl, rfl, rfl⟩

/-! ## Theorems: the accumulator with 64-bit arithmetic -/

theorem wrapInt64_of_range (x : Int) (h1 : -9223372036854775808 ≤ x)
    (h2 : x ≤ 9223372036854775807) : wrapInt64 x = x := by
  unfold wrapInt64
  omega

theorem wrapInt64_range (x : Int) :
    -9223372036854775808 ≤ wrapInt64 x ∧ wrapInt64 x ≤ 9223372036854775807 := by
  unfold wrapInt64
  omega

theorem wrapInt64_add_left (x d : Int) : wrapInt64 (wrapInt64 x + d) = wrapInt64 (x + d) := by
  unfold wrapInt64
  omega

theorem Update64_of_error (s : Stats) (d : Int) (msg : String) :
    Update64 s d (some msg)
      = { s with Attempts := wrapInt64 (s.Attempts + 1),
                 Failures := wrapInt64 (s.Failures + 1) } := by
  simp [Update64]

theorem Update64_counters_of_ok (s : Stats) (d : Int) :
    (Update64 s d none).Attempts = wrapInt64 (s.Attempts + 1)
    ∧ (Update64 s d none).Connects = wrapInt64 (s.Connects + 1)
    ∧ (Update64 s d none).Failures = s.Failures
    ∧ (Update64 s d none).Total = wrapInt64 (s.Total + d)
    ∧ (Update64 s d none).IP = s.IP := by
  unfold Update64
  simp only [Option.isSome_none, Bool.false_eq_true, if_false]
  split_ifs <;> exact ⟨rfl, rfl, rfl, rfl, rfl⟩

theorem UpdateAll64_cons (s : Stats) (c : Int × GoError) (cs : List (Int × GoError)) :
    UpdateAll64 s (c :: cs) = UpdateAll64 (Update64 s c.1 c.2) cs := rfl

/-- The machine version and the integer version of `Update` agree on a call that leaves
the counters and the total it touches within 64 bits. -/
theorem Update64_eq_Update (s : Stats) (d : Int) (e : GoError)
    (hA : -9223372036854775808 ≤ s.Attempts + 1 ∧ s.Attempts + 1 ≤ 9223372036854775807)
    (hF : e.isSome = true →
      -9223372036854775808 ≤ s.Failures + 1 ∧ s.Failures + 1 ≤ 9223372036854775807)
    (hC : e = none →
      -9223372036854775808 ≤ s.Connects + 1 ∧ s.Connects + 1 ≤ 9223372036854775807)
    (hT : e = none →
      -9223372036854775808 ≤ s.Total + d ∧ s.Total + d ≤ 9223372036854775807) :
    Update64 s d e = Update s d e := by
  have wA := wrapInt64_of_range _ hA.1 hA.2
  cases e with
  | none =>
    have wC := wrapInt64_of_range _ (hC rfl).1 (hC rfl).2
    have wT := wrapInt64_of_range _ (hT rfl).1 (hT rfl).2
    simp only [Update64, Update, wA, wC, wT, Option.isSome_none, Bool.false_eq_true, if_false]
  | some msg =>
    have wF := wrapInt64_of_range _ (hF rfl).1 (hF rfl).2
    rw [Update64_of_error, Update_of_error, wA, wF]

/-- The counters and the total after a sequence of machine calls, from any record: each
is the integer value modulo 2^64. -/
theorem UpdateAll64_counters (s : Stats) (calls : List (Int × GoError)) :
    wrapInt64 (UpdateAll64 s calls).Attempts = wrapInt64 (s.Attempts + calls.length)
    ∧ wrapInt64 (UpdateAll64 s calls).Connects
        = wrapInt64 (s.Connects + (successDurations calls).length)
    ∧ wrapInt64 (UpdateAll64 s calls).Failures
        = wrapInt64 (s.Failures + (calls.length - (successDurations calls).length : Int))
    ∧ wrapInt64 (UpdateAll64 s calls).Total = wrapInt64 (s.Total + (successDurations calls).sum)
    ∧ (UpdateAll64 s calls).IP = s.IP := by
  induction calls generalizing s with
  | nil => simp [UpdateAll64, successDurations]
  | cons c cs ih =>
    obtain ⟨d, e⟩ := c
    rw [UpdateAll64_cons]
    obtain ⟨h1, h2, h3, h4, h5⟩ := ih (Update64 s d e)
    cases e with
    | none =>
      obtain ⟨k1, k2, k3, k4, k5⟩ := Update64_counters_of_ok s d
      rw [k1] at h1
      rw [k2] at h2
      rw [k3] at h3
      rw [k4] at h4
      rw [k5] at h5
      rw [successDurations_cons_ok]
      simp only [List.length_cons, List.sum_cons, Nat.cast_add, Nat.cast_one]
      refine ⟨?_, ?_, ?_, ?_, h5⟩
      · rw [h1, wrapInt64_add_left]; congr 1; omega
      · rw [h2, wrapInt64_add_left]; congr 1; omega
      · rw [h3]; congr 1; omega
      · rw [h4, wrapInt64_add_left]; congr 1; omega
    | some msg =>
      rw [Update64_of_error] at h1 h2 h3 h4 h5
      simp only [] at h1 h2 h3 h4 h5
      rw [Update64_of_error, successDurations_cons_error]
      simp only [List.length_cons, Nat.cast_add, Nat.cast_one]
      refine ⟨?_, h2, ?_, h4, h5⟩
      · rw [h1, wrapInt64_add_left]; congr 1; omega
      · rw [h3, wrapInt64_add_left]; congr 1; omega

/-- A record whose counters and total are 64-bit values. -/
theorem Update64_range (s : Stats) (d : Int) (e : GoError)
    (h : wrapInt64 s.Attempts = s.Attempts ∧ wrapInt64 s.Connects = s.Connects
      ∧ wrapInt64 s.Failures = s.Failures ∧ wrapInt64 s.Total = s.Total) :
    wrapInt64 (Update64 s d e).Attempts = (Update64 s d e).Attempts
    ∧ wrapInt64 (Update64 s d e).Connects = (Update64 s d e).Connects
    ∧ wrapInt64 (Update64 s d e).Failures = (Update64 s d e).Failures
    ∧ wrapInt64 (Update64 s d e).Total = (Update64 s d e).Total := by
  have idem : ∀ x : Int, wrapInt64 (wrapInt64 x) = wrapInt64 x := by
    intro x; unfold wrapInt64; omega
  cases e with
  | none =>
    obtain ⟨k1, k2, k3, k4, _⟩ := Update64_counters_of_ok s d
    rw [k1, k2, k3, k4]
    exact ⟨idem _, idem _, h.2.2.1, idem _⟩
  | some msg =>
    rw [Update64_of_error]
    exact ⟨idem _, h.2.1, idem _, h.2.2.2⟩

theorem UpdateAll64_range (s : Stats) (calls : List (Int × GoError))
    (h : wrapInt64 s.Attempts = s.Attempts ∧ wrapInt64 s.Connects = s.Connects
      ∧ wrapInt64 s.Failures = s.Failures ∧ wrapInt64 s.Total = s.Total) :
    wrapInt64 (UpdateAll64 s calls).Attempts = (UpdateAll64 s calls).Attempts
    ∧ wrapInt64 (UpdateAll64 s calls).Connects = (UpdateAll64 s calls).Connects
    ∧ wrapInt64 (UpdateAll64 s calls).Failures = (UpdateAll64 s calls).Failures
    ∧ wrapInt64 (UpdateAll64 s calls).Total = (UpdateAll64 s calls).Total := by
  induction calls generalizing s with
  | nil => exact h
  | cons c cs ih =>
    rw [UpdateAll64_cons]
    exact ih _ (Update64_range s c.1 c.2 h)

/-- After a sequence of machine calls on a zero record, each counter is the number it
counts modulo 2^64, and the total is the sum of the successful durations modulo 2^64. -/
theorem UpdateAll64_zero (ip : IP) (calls : List (Int × GoError)) :
    (UpdateAll64 (zeroStats ip) calls).Attempts = wrapInt64 calls.length
    ∧ (UpdateAll64 (zeroStats ip) calls).Connects = wrapInt64 (successDurations calls).length
    ∧ (UpdateAll64 (zeroStats ip) calls).Failures
        = wrapInt64 (calls.length - (successDurations calls).length : Int)
    ∧ (UpdateAll64 (zeroStats ip) calls).Total = wrapInt64 (successDurations calls).sum := by
  have h0 : wrapInt64 (zeroStats ip).Attempts = (zeroStats ip).Attempts
      ∧ wrapInt64 (zeroStats ip).Connects = (zeroStats ip).Connects
      ∧ wrapInt64 (zeroStats ip).Failures = (zeroStats ip).Failures
      ∧ wrapInt64 (zeroStats ip).Total = (zeroStats ip).Total := by
    refine ⟨?_, ?_, ?_, ?_⟩ <;> (unfold wrapInt64 zeroStats; simp only []; omega)
  obtain ⟨r1, r2, r3, r4⟩ := UpdateAll64_range (zeroStats ip) calls h0
  obtain ⟨c1, c2, c3, c4, _⟩ := UpdateAll64_counters (zeroStats ip) calls
  have z1 : (zeroStats ip).Attempts = 0 := rfl
  have z2 : (zeroStats ip).Connects = 0 := rfl
  have z3 : (zeroStats ip).Failures = 0 := rfl
  have z4 : (zeroStats ip).Total = 0 := rfl
  rw [z1, zero_add] at c1
  rw [z2, zero_add] at c2
  rw [z3, zero_add] at c3
  rw [z4, zero_add] at c4
  exact ⟨r1.symm.trans c1, r2.symm.trans c2, r3.symm.trans c3, r4.symm.trans c4⟩

/-- The machine version and the integer version agree on every sequence of calls that
starts from a zero record, has fewer than 2^63 calls and whose successful durations are
non-negative with a sum below 2^63: no counter leaves the 64-bit range on the way. -/
theorem UpdateAll64_eq_UpdateAll (s : Stats) (calls : List (Int × GoError))
    (hA : 0 ≤ s.Attempts) (hC : 0 ≤ s.Connects) (hF : 0 ≤ s.Failures) (hT : 0 ≤ s.Total)
    (hd : ∀ d ∈ successDurations calls, 0 ≤ d)
    (hAn : s.Attempts + calls.length ≤ 9223372036854775807)
    (hCn : s.Connects + calls.length ≤ 9223372036854775807)
    (hFn : s.Failures + calls.length ≤ 9223372036854775807)
    (hTn : s.Total + (successDurations calls).sum ≤ 9223372036854775807) :
    UpdateAll64 s calls = UpdateAll s calls := by
  induction calls generalizing s with
  | nil => rfl
  | cons c cs ih =>
    obtain ⟨d, e⟩ := c
    rw [UpdateAll64_cons, UpdateAll_cons]
    simp only [List.length_cons, Nat.cast_add, Nat.cast_one] at hAn hCn hFn
    have hsum : ∀ l : List Int, (∀ x ∈ l, 0 ≤ x) → 0 ≤ l.sum := by
      intro l hl
      induction l with
      | nil => simp
      | cons x xs ihx =>
        rw [List.sum_cons]
        have := hl x (List.mem_cons_self _ _)
        have := ihx (fun y hy => hl y (List.mem_cons_of_mem _ hy))
        omega
    cases e with
    | none =>
      rw [successDurations_cons_ok] at hd hTn
      rw [List.sum_cons] at hTn
      have hd0 : 0 ≤ d := hd d (List.mem_cons_self _ _)
      have hds : ∀ x ∈ successDurations cs, 0 ≤ x :=
        fun x hx => hd x (List.mem_cons_of_mem _ hx)
      have hs0 := hsum _ hds
      have heq : Update64 s d none = Update s d none :=
        Update64_eq_Update s d none (by omega) (by simp) (fun _ => by omega) (fun _ => by omega)
      rw [heq]
      have k1 := Update_Attempts s d none
      have k2 := Update_Connects_of_ok s d
      have k3 := Update_Failures_of_ok s d
      have k4 := Update_Total_of_ok s d
      exact ih (Update s d none) (by omega) (by omega) (by omega) (by omega) hds
        (by omega) (by omega) (by omega) (by omega)
    | some msg =>
      rw [successDurations_cons_error] at hd hTn
      have hs0 := hsum _ hd
      have heq : Update64 s d (some msg) = Update s d (some msg) :=
        Update64_eq_Update s d (some msg) (by omega) (fun _ => by omega) (by simp) (by simp)
      rw [heq, Update_of_error]
      exact ih _ (by simp only []; omega) hC (by simp only []; omega) hT hd
        (by simp only []; omega) (by simp only []; omega) (by simp only []; omega)
        (by simp only []; omega)

/-- The minimum and the maximum do not depend on the arithmetic of the counters: a machine
call and an integer call on records with the same `Minimum` and `Maximum` leave the same
`Minimum` and `Maximum`. -/
theorem Update64_Minimum_Maximum (s t : Stats) (d : Int) (e : GoError)
    (hmin : s.Minimum = t.Minimum) (hmax : s.Maximum = t.Maximum) :
    (Update64 s d e).Minimum = (Update t d e).Minimum
    ∧ (Update64 s d e).Maximum = (Update t d e).Maximum := by
  cases e with
  | some msg =>
    rw [Update64_of_error, Update_of_error]
    exact ⟨hmin, hmax⟩
  | none =>
    unfold Update64 Update
    simp only [Option.isSome_none, Bool.false_eq_true, if_false, hmin, hmax]
    split_ifs <;> exact ⟨rfl, rfl⟩

/-- After any sequence of calls the machine version and the integer version have the same
`Minimum` and `Maximum`, so what holds of them for `UpdateAll` holds for `UpdateAll64`. -/
theorem UpdateAll64_Minimum_Maximum (s t : Stats) (calls : List (Int × GoError))
    (hmin : s.Minimum = t.Minimum) (hmax : s.Maximum = t.Maximum) :
    (UpdateAll64 s calls).Minimum = (UpdateAll t calls).Minimum
    ∧ (UpdateAll64 s calls).Maximum = (UpdateAll t calls).Maximum := by
  induction calls generalizing s t with
  | nil => exact ⟨hmin, hmax⟩
  | cons c cs ih =>
    rw [UpdateAll64_cons, UpdateAll_cons]
    obtain ⟨h1, h2⟩ := Update64_Minimum_Maximum s t c.1 c.2 hmin hmax
    exact ih _ _ h1 h2

/-- The balance of the counters with the arithmetic of the machine: from a record with
`Attempts = Connects + Failures` modulo 2^64, every sequence of machine calls leaves a
record with `Attempts = Connects + Failures` modulo 2^64. -/
theorem UpdateAll64_balance (s : Stats) (calls : List (Int × GoError))
    (h : wrapInt64 s.Attempts = wrapInt64 (s.Connects + s.Failures)) :
    wrapInt64 (UpdateAll64 s calls).Attempts
      = wrapInt64 ((UpdateAll64 s calls).Connects + (UpdateAll64 s calls).Failures) := by
  obtain ⟨c1, c2, c3, _, _⟩ := UpdateAll64_counters s calls
  generalize (UpdateAll64 s calls).Attempts = A at c1 ⊢
  generalize (UpdateAll64 s calls).Connects = C at c2 ⊢
  generalize (UpdateAll64 s calls).Failures = F at c3 ⊢
  generalize ((successDurations calls).length : Int) = k at c2 c3
  generalize (calls.length : Int) = n at c1 c3
  unfold wrapInt64 at *
  omega

/-! ## Claims C1 to C6 -/

/-- C1: for every record with `Attempts = Connects + Failures`, every duration and every
error-or-nil, the record after `Update` still satisfies the equation, and so does the
record after any finite sequence of further calls; in particular the equation holds after
every finite sequence of calls that starts from a zero record. -/
theorem Update_preserves_attempts_balance (s : Stats) (d : Int) (e : GoError)
    (h : s.Attempts = s.Connects + s.Failures) :
    (Update s d e).Attempts = (Update s d e).Connects + (Update s d e).Failures
    ∧ (∀ calls : List (Int × GoError),
        (UpdateAll s calls).Attempts = (UpdateAll s calls).Connects + (UpdateAll s calls).Failures)
    ∧ (∀ (ip : IP) (calls : List (Int × GoError)),
        (UpdateAll (zeroStats ip) calls).Attempts
          = (UpdateAll (zeroStats ip) calls).Connects
            + (UpdateAll (zeroStats ip) calls).Failures) := by
  have step : ∀ (t : Stats) (d : Int) (e : GoError), t.Attempts = t.Connects + t.Failures →
      (Update t d e).Attempts = (Update t d e).Connects + (Update t d e).Failures := by
    intro t d e ht
    cases e with
    | none =>
      rw [Update_Attempts, Update_Connects_of_ok, Update_Failures_of_ok]
      omega
    | some msg =>
      rw [Update_of_error]
      simp only []
      omega
  have all : ∀ (calls : List (Int × GoError)) (t : Stats),
      t.Attempts = t.Connects + t.Failures →
      (UpdateAll t calls).Attempts
        = (UpdateAll t calls).Connects + (UpdateAll t calls).Failures := by
    intro calls
    induction calls with
    | nil => intro t ht; exact ht
    | cons c cs ih =>
      intro t ht
      rw [UpdateAll_cons]
      exact ih _ (step t c.1 c.2 ht)
  exact ⟨step s d e h, fun calls => all calls s h, fun ip calls => all calls (zeroStats ip) rfl⟩

theorem Update_preserves_attempts_balance_witness :
    (zeroStats ⟨"127.0.0.1", true⟩).Attempts
        = (zeroStats ⟨"127.0.0.1", true⟩).Connects + (zeroStats ⟨"127.0.0.1", true⟩).Failures
    ∧ (Update (zeroStats ⟨"127.0.0.1", true⟩) 10000000 none).Attempts
        = (Update (zeroStats ⟨"127.0.0.1", true⟩) 10000000 none).Connects
          + (Update (zeroStats ⟨"127.0.0.1", true⟩) 10000000 none).Failures :=
  ⟨rfl, (Update_preserves_attempts_balance (zeroStats ⟨"127.0.0.1", true⟩) 10000000 none rfl).1⟩

/-- C2 (the code at the failing input): a successful call of duration 0 followed by a
successful call of duration 5 leaves `Minimum = 5`, although the smallest successful
duration is 0: the second call finds `Minimum == 0`, takes the record for one without a
success yet, and raises the minimum. -/
theorem Update_Minimum_lost_after_zero_duration :
    successDurations [(0, none), (5, none)] = [0, 5]
    ∧ (UpdateAll (zeroStats ⟨"127.0.0.1", true⟩) [(0, none)]).Minimum = 0
    ∧ (UpdateAll (zeroStats ⟨"127.0.0.1", true⟩) [(0, none), (5, none)]).Minimum = 5
    ∧ (UpdateAll (zeroStats ⟨"127.0.0.1", true⟩) [(0, none), (5, none)]).Connects = 2 := by
  decide

/-- C3: after any finite sequence of calls on a zero record in which the successful
durations are non-negative and there is at least one success, `Maximum` is one of the
successful durations and no successful duration exceeds it; and any two sequences with
the same successful durations give the same `Maximum`, whatever their failed calls are. -/
theorem UpdateAll_Maximum_is_largest_success (ip : IP) (calls : List (Int × GoError))
    (hnn : ∀ d ∈ successDurations calls, 0 ≤ d) (hne : successDurations calls ≠ []) :
    (UpdateAll (zeroStats ip) calls).Maximum ∈ successDurations calls
    ∧ (∀ d ∈ successDurations calls, d ≤ (UpdateAll (zeroStats ip) calls).Maximum)
    ∧ (∀ calls2 : List (Int × GoError), successDurations calls2 = successDurations calls →
        (UpdateAll (zeroStats ip) calls2).Maximum = (UpdateAll (zeroStats ip) calls).Maximum) := by
  have h0 : (zeroStats ip).Maximum = 0 := rfl
  refine ⟨?_, ?_, ?_⟩
  · rw [UpdateAll_Maximum, h0]
    rcases foldl_max_init_or_mem (successDurations calls) 0 with h | h
    · obtain ⟨x, hx⟩ := List.exists_mem_of_ne_nil _ hne
      have h1 : x ≤ 0 := by
        have := foldl_max_ge_mem (successDurations calls) 0 x hx
        omega
      have h2 : 0 ≤ x := hnn x hx
      have h3 : x = 0 := by omega
      rw [h, ← h3]
      exact hx
    · exact h
  · intro d hd
    rw [UpdateAll_Maximum]
    exact foldl_max_ge_mem _ _ d hd
  · intro calls2 h2
    rw [UpdateAll_Maximum, UpdateAll_Maximum, h2]

theorem UpdateAll_Maximum_is_largest_success_witness :
    (UpdateAll (zeroStats ⟨"127.0.0.1", true⟩)
        [(10000000, none), (100000000, some "timeout"), (20000000, none), (5000000, none)]).Maximum
      ∈ successDurations
        [(10000000, none), (100000000, some "timeout"), (20000000, none), (5000000, none)]
    ∧ (UpdateAll (zeroStats ⟨"127.0.0.1", true⟩)
        [(10000000, none), (100000000, some "timeout"), (20000000, none), (5000000, none)]).Maximum
      = 20000000 :=
  ⟨(UpdateAll_Maximum_is_largest_success ⟨"127.0.0.1", true⟩
      [(10000000, none), (100000000, some "timeout"), (20000000, none), (5000000, none)]
      (by decide) (by decide)).1, by decide⟩

/-- C4 (counterexample): two successful calls of 2^62 ns each on a zero record. The sum
of the successful durations is 2^63, which no `time.Duration` holds: `Total` is -2^63
after the second call. -/
theorem UpdateAll64_Total_wraps :
    successDurations [(4611686018427387904, none), (4611686018427387904, none)]
        = [4611686018427387904, 4611686018427387904]
    ∧ (successDurations [(4611686018427387904, none), (4611686018427387904, none)]).sum
        = 9223372036854775808
    ∧ (UpdateAll64 (zeroStats ⟨"127.0.0.1", true⟩)
          [(4611686018427387904, none), (4611686018427387904, none)]).Total
        = -9223372036854775808
    ∧ (UpdateAll64 (zeroStats ⟨"127.0.0.1", true⟩)
          [(4611686018427387904, none), (4611686018427387904, none)]).Connects = 2 := by
  decide

/-- C4 (amended): after any finite sequence of `Update` calls on a zero record, `Total`
is the sum of the durations of the successful calls modulo 2^64, hence the exact sum
whenever that sum is a 64-bit value; `Connects` is the number of successful calls modulo
2^64, hence exactly their number when there are fewer than 2^63; and the failed calls
contribute nothing to `Total`: the sequence without them gives the same `Total`. -/
theorem UpdateAll64_Total_is_sum_of_successes (ip : IP) (calls : List (Int × GoError)) :
    (UpdateAll64 (zeroStats ip) calls).Total = wrapInt64 (successDurations calls).sum
    ∧ (UpdateAll64 (zeroStats ip) calls).Connects
        = wrapInt64 (successDurations calls).length
    ∧ (-9223372036854775808 ≤ (successDurations calls).sum →
        (successDurations calls).sum ≤ 9223372036854775807 →
        (UpdateAll64 (zeroStats ip) calls).Total = (successDurations calls).sum)
    ∧ (((successDurations calls).length : Int) ≤ 9223372036854775807 →
        (UpdateAll64 (zeroStats ip) calls).Connects = (successDurations calls).length)
    ∧ (UpdateAll64 (zeroStats ip) calls).Total
        = (UpdateAll64 (zeroStats ip) (calls.filter (fun c => c.2.isNone))).Total := by
  obtain ⟨_, h2, _, h4⟩ := UpdateAll64_zero ip calls
  obtain ⟨_, _, _, k4⟩ := UpdateAll64_zero ip (calls.filter (fun c => c.2.isNone))
  rw [successDurations_filter] at k4
  refine ⟨h4, h2, ?_, ?_, by rw [h4, k4]⟩
  · intro lo hi
    rw [h4]
    exact wrapInt64_of_range _ lo hi
  · intro hi
    rw [h2]
    exact wrapInt64_of_range _ (by omega) hi

theorem UpdateAll64_Total_is_sum_of_successes_witness :
    (UpdateAll64 (zeroStats ⟨"127.0.0.1", true⟩)
        [(10000000, none), (100000000, some "timeout"), (20000000, none)]).Total = 30000000
    ∧ (UpdateAll64 (zeroStats ⟨"127.0.0.1", true⟩)
        [(10000000, none), (100000000, some "timeout"), (20000000, none)]).Connects = 2 :=
  ⟨((UpdateAll64_Total_is_sum_of_successes ⟨"127.0.0.1", true⟩
      [(10000000, none), (100000000, some "timeout"), (20000000, none)]).2.2.1
      (by decide) (by decide)).trans (by decide),
   ((UpdateAll64_Total_is_sum_of_successes ⟨"127.0.0.1", true⟩
      [(10000000, none), (100000000, some "timeout"), (20000000, none)]).2.2.2.1
      (by decide)).trans (by decide)⟩

/-- C5: after any finite sequence of calls on a zero record, if `Connects > 0` then
`Minimum ≤ Maximum`. -/
theorem UpdateAll_Minimum_le_Maximum_of_Connects (ip : IP) (calls : List (Int × GoError))
    (_h : 0 < (UpdateAll (zeroStats ip) calls).Connects) :
    (UpdateAll (zeroStats ip) calls).Minimum ≤ (UpdateAll (zeroStats ip) calls).Maximum :=
  UpdateAll_Minimum_le_Maximum (zeroStats ip) calls (le_refl _)

theorem UpdateAll_Minimum_le_Maximum_of_Connects_witness :
    0 < (UpdateAll (zeroStats ⟨"::1", false⟩)
          [(10000000, none), (20000000, none), (5000000, none)]).Connects
    ∧ (UpdateAll (zeroStats ⟨"::1", false⟩)
          [(10000000, none), (20000000, none), (5000000, none)]).Minimum
      ≤ (UpdateAll (zeroStats ⟨"::1", false⟩)
          [(10000000, none), (20000000, none), (5000000, none)]).Maximum :=
  ⟨by decide, UpdateAll_Minimum_le_Maximum_of_Connects ⟨"::1", false⟩
      [(10000000, none), (20000000, none), (5000000, none)] (by decide)⟩

/-- C6 (counterexample): a failed call on a record with `Attempts` and `Failures` at the
largest `int`, 2^63 - 1: both counters become -2^63 and not 2^63. -/
theorem Update64_failure_wraps :
    (Update64 { zeroStats ⟨"127.0.0.1", true⟩ with
        Attempts := 9223372036854775807, Failures := 9223372036854775807 }
      1000000 (some "timeout")).Attempts = -9223372036854775808
    ∧ (Update64 { zeroStats ⟨"127.0.0.1", true⟩ with
        Attempts := 9223372036854775807, Failures := 9223372036854775807 }
      1000000 (some "timeout")).Failures = -9223372036854775808
    ∧ (Update64 { zeroStats ⟨"127.0.0.1", true⟩ with
        Attempts := 9223372036854775807, Failures := 9223372036854775807 }
      1000000 (some "timeout")).Attempts
        ≠ ({ zeroStats ⟨"127.0.0.1", true⟩ with
            Attempts := 9223372036854775807, Failures := 9223372036854775807 } : Stats).Attempts
          + 1 := by
  decide

/-- C6 (amended): for every record, every duration and every non-nil error, `Update`
raises `Attempts` by 1 and `Failures` by 1 modulo 2^64, hence by exactly 1 for a counter
that is a 64-bit value below 2^63 - 1, and leaves `Connects`, `Total`, `Minimum`,
`Maximum` and `IP` as they were. -/
theorem Update64_failure_frame (s : Stats) (d : Int) (msg : String) :
    (Update64 s d (some msg)).Attempts = wrapInt64 (s.Attempts + 1)
    ∧ (Update64 s d (some msg)).Failures = wrapInt64 (s.Failures + 1)
    ∧ (-9223372036854775808 ≤ s.Attempts → s.Attempts < 9223372036854775807 →
        (Update64 s d (some msg)).Attempts = s.Attempts + 1)
    ∧ (-9223372036854775808 ≤ s.Failures → s.Failures < 9223372036854775807 →
        (Update64 s d (some msg)).Failures = s.Failures + 1)
    ∧ (Update64 s d (some msg)).Connects = s.Connects
    ∧ (Update64 s d (some msg)).Total = s.Total
    ∧ (Update64 s d (some msg)).Minimum = s.Minimum
    ∧ (Update64 s d (some msg)).Maximum = s.Maximum
    ∧ (Update64 s d (some msg)).IP = s.IP := by
  rw [Update64_of_error]
  refine ⟨rfl, rfl, ?_, ?_, rfl, rfl, rfl, rfl, rfl⟩
  · intro lo hi
    exact wrapInt64_of_range _ (by omega) (by omega)
  · intro lo hi
    exact wrapInt64_of_range _ (by omega) (by omega)

theorem Update64_failure_frame_witness :
    (Update64 (Update64 (zeroStats ⟨"127.0.0.1", true⟩) 10000000 none)
        100000000 (some "timeout")).Attempts = 2
    ∧ (Update64 (Update64 (zeroStats ⟨"127.0.0.1", true⟩) 10000000 none)
        100000000 (some "timeout")).Failures = 1
    ∧ (Update64 (Update64 (zeroStats ⟨"127.0.0.1", true⟩) 10000000 none)
        100000000 (some "timeout")).Total = 10000000 :=
  ⟨((Update64_failure_frame (Update64 (zeroStats ⟨"127.0.0.1", true⟩) 10000000 none)
      100000000 "timeout").2.2.1 (by decide) (by decide)).trans (by decide),
   ((Update64_failure_frame (Update64 (zeroStats ⟨"127.0.0.1", true⟩) 10000000 none)
      100000000 "timeout").2.2.2.1 (by decide) (by decide)).trans (by decide),
   ((Update64_failure_frame (Update64 (zeroStats ⟨"127.0.0.1", true⟩) 10000000 none)
      100000000 "timeout").2.2.2.2.2.1).trans (by decide)⟩

/-! ## Theorems: maps -/

theorem mapGet_mapSet_same {V : Type} (m : GoMap V) (k : String) (v : V) :
    mapGet (mapSet m k v) k = some v := by
  induction m with
  | nil => simp [mapSet, mapGet]
  | cons kv rest ih =>
    obtain ⟨k1, v1⟩ := kv
    by_cases h : k1 = k
    · simp [mapSet, mapGet, h]
    · simp [mapSet, mapGet, h, ih]

theorem mapGet_mapSet_other {V : Type} (m : GoMap V) (k k2 : String) (v : V) (h : k2 ≠ k) :
    mapGet (mapSet m k v) k2 = mapGet m k2 := by
  induction m with
  | nil =>
    have h2 : ¬ k = k2 := fun e => h e.symm
    simp [mapSet, mapGet, h2]
  | cons kv rest ih =>
    obtain ⟨k1, v1⟩ := kv
    by_cases h1 : k1 = k
    · have h2 : ¬ k = k2 := fun e => h e.symm
      have h3 : ¬ k1 = k2 := fun e => h (e.symm.trans h1)
      simp [mapSet, mapGet, h1, h2]
    · by_cases h3 : k1 = k2
      · subst h3
        simp [mapSet, mapGet, h1]
      · simp [mapSet, mapGet, h1, h3, ih]

theorem mapSet_keys_of_present {V : Type} (m : GoMap V) (k : String) (v v0 : V)
    (h : mapGet m k = some v0) : (mapSet m k v).map Prod.fst = m.map Prod.fst := by
  induction m with
  | nil => simp [mapGet] at h
  | cons kv rest ih =>
    obtain ⟨k1, v1⟩ := kv
    by_cases h1 : k1 = k
    · simp [mapSet, h1]
    · simp only [mapGet, h1, if_false] at h
      simp [mapSet, h1, ih h]

theorem mapLen_mapSet_pos {V : Type} (m : GoMap V) (k : String) (v : V) :
    0 < mapLen (mapSet m k v) := by
  cases m with
  | nil => simp [mapSet, mapLen]
  | cons kv rest =>
    obtain ⟨k1, v1⟩ := kv
    by_cases h1 : k1 = k <;> simp [mapSet, mapLen, h1]

theorem statsAt_mapSet_same (m : StatsMap) (k : String) (v : Option Stats) :
    statsAt (mapSet m k v) k = v := by
  simp [statsAt, mapGet_mapSet_same]

theorem statsAt_mapSet_other (m : StatsMap) (k k2 : String) (v : Option Stats) (h : k2 ≠ k) :
    statsAt (mapSet m k v) k2 = statsAt m k2 := by
  simp [statsAt, mapGet_mapSet_other m k k2 v h]

theorem mapGet_of_statsAt (m : StatsMap) (k : String) (record : Stats)
    (h : statsAt m k = some record) : mapGet m k = some (some record) := by
  unfold statsAt at h
  cases hg : mapGet m k with
  | none => rw [hg] at h; simp at h
  | some v =>
    rw [hg] at h
    cases v with
    | none => simp at h
    | some r => simp at h; rw [h]

/-! ## Theorems: reading a trace -/

theorem probesOf_append (t1 t2 : List Event) : probesOf (t1 ++ t2) = probesOf t1 ++ probesOf t2 := by
  simp [probesOf, List.filterMap_append]

theorem reportsOf_append (t1 t2 : List Event) :
    reportsOf (t1 ++ t2) = reportsOf t1 ++ reportsOf t2 := by
  simp [reportsOf, List.filterMap_append]

theorem callsFor_append (k : String) (t1 t2 : List Event) :
    callsFor k (t1 ++ t2) = callsFor k t1 ++ callsFor k t2 := by
  simp [callsFor, List.filterMap_append]

theorem statsTitleCount_append (t1 t2 : List Event) :
    statsTitleCount (t1 ++ t2) = statsTitleCount t1 + statsTitleCount t2 := by
  simp [statsTitleCount, List.countP_append]

/-! ## Theorems: the probing loop -/

theorem Extends_refl (env : Env) (cfg : Config) (st : RunState) : Extends env cfg st st := by
  refine ⟨[], by simp, rfl, ?_, rfl, rfl, rfl, ?_, ?_⟩
  · intro k record h
    simpa [callsFor, UpdateAll] using h
  · intro m h1 h2
    omega
  · intro r hr
    simp [reportsOf] at hr

theorem Extends_trans (env : Env) (cfg : Config) (st1 st2 st3 : RunState)
    (h12 : Extends env cfg st1 st2) (h23 : Extends env cfg st2 st3) :
    Extends env cfg st1 st3 := by
  obtain ⟨n1, a1, a2, a3, a4, a5, a6, a7, a8⟩ := h12
  obtain ⟨n2, b1, b2, b3, b4, b5, b6, b7, b8⟩ := h23
  refine ⟨n1 ++ n2, ?_, ?_, ?_, ?_, ?_, ?_, ?_, ?_⟩
  · rw [b1, a1, List.append_assoc]
  · rw [statsTitleCount_append, a2, b2]
  · intro k record h
    rw [callsFor_append, UpdateAll_append]
    exact b3 k _ (a3 k record h)
  · rw [b4, a4]
  · rw [b5, a5, probesOf_append, List.length_append]
    omega
  · rw [reportsOf_append, probesOf_append, List.length_append, List.length_append, a6, b6]
  · intro m h1 h2
    by_cases hm : m < st2.pings
    · exact a7 m h1 hm
    · exact b7 m (by omega) h2
  · intro r hr
    rw [reportsOf_append] at hr
    rcases List.mem_append.mp hr with h | h
    · exact a8 r h
    · exact b8 r h

theorem AllPresent_of_Extends (env : Env) (cfg : Config) (st1 st2 : RunState) (l : List IP)
    (h : Extends env cfg st1 st2) (hp : AllPresent st1.stats l) : AllPresent st2.stats l := by
  obtain ⟨news, _, _, a3, _⟩ := h
  intro ip hip
  obtain ⟨record, hr⟩ := hp ip hip
  exact ⟨_, a3 ip.IP record hr⟩

theorem runRound_nil (env : Env) (cfg : Config) (pingOpts : GoMap PingOptions)
    (singleIP : Bool) (maxIPLen : Int) (attempt idx : Nat) (st : RunState) :
    runRound env cfg pingOpts singleIP maxIPLen attempt idx [] st = (RoundEnd.completed, st) := by
  simp [runRound]

theorem runRound_cons_cancel (env : Env) (cfg : Config) (pingOpts : GoMap PingOptions)
    (singleIP : Bool) (maxIPLen : Int) (attempt idx : Nat) (ip : IP) (rest : List IP)
    (st : RunState) (h : env.done st.pings = true) :
    runRound env cfg pingOpts singleIP maxIPLen attempt idx (ip :: rest) st
      = (RoundEnd.cancelled, st) := by
  simp [runRound, h]

theorem runRound_cons_probe (env : Env) (cfg : Config) (pingOpts : GoMap PingOptions)
    (singleIP : Bool) (maxIPLen : Int) (attempt idx : Nat) (ip : IP) (rest : List IP)
    (st : RunState) (record : Stats) (h : env.done st.pings = false)
    (hr : statsAt st.stats ip.IP = some record) :
    runRound env cfg pingOpts singleIP maxIPLen attempt idx (ip :: rest) st
      = runRound env cfg pingOpts singleIP maxIPLen attempt (idx + 1) rest
          { stats := mapSet st.stats ip.IP
              (some (Update record
                (App.Ping env st.pings cfg ((mapGet pingOpts ip.IP).getD default)).1
                (App.Ping env st.pings cfg ((mapGet pingOpts ip.IP).getD default)).2)),
            trace := st.trace ++ [Event.probe ((mapGet pingOpts ip.IP).getD default)]
              ++ ShowCurrent cfg attempt (if singleIP then 0 else (idx : Int) + 1) ip.IP maxIPLen
                  (App.Ping env st.pings cfg ((mapGet pingOpts ip.IP).getD default)).1
                  (App.Ping env st.pings cfg ((mapGet pingOpts ip.IP).getD default)).2,
            pings := st.pings + 1 } := by
  rw [runRound]
  simp only [h, Bool.false_eq_true, if_false, hr]

/-- One probe of an address with a record: the step extends the state. -/
theorem probe_step_extends (env : Env) (cfg : Config) (opts : PingOptions) (cnt sub : Int)
    (k : String) (maxIPLen : Int) (d : Int) (e : GoError) (st : RunState) (record : Stats)
    (h : env.done st.pings = false) (hr : statsAt st.stats k = some record)
    (hde : App.Ping env st.pings cfg opts = (d, e)) :
    Extends env cfg st
      { stats := mapSet st.stats k (some (Update record d e)),
        trace := st.trace ++ [Event.probe opts] ++ ShowCurrent cfg cnt sub k maxIPLen d e,
        pings := st.pings + 1 } := by
  refine ⟨[Event.probe opts] ++ ShowCurrent cfg cnt sub k maxIPLen d e,
    ?_, ?_, ?_, ?_, ?_, ?_, ?_, ?_⟩
  · simp [List.append_assoc]
  · simp [statsTitleCount, ShowCurrent]
  · intro k2 record2 h2
    by_cases hk : k2 = k
    · subst hk
      rw [hr] at h2
      injection h2 with h2
      subst h2
      simp [statsAt_mapSet_same, callsFor, ShowCurrent, UpdateAll]
    · have hk2 : ¬ k = k2 := fun e => hk e.symm
      simp only []
      rw [statsAt_mapSet_other _ _ _ _ hk]
      simp [callsFor, ShowCurrent, UpdateAll, hk2, h2]
  · exact mapSet_keys_of_present _ _ _ _ (mapGet_of_statsAt _ _ _ hr)
  · simp [probesOf, ShowCurrent]
  · simp [probesOf, reportsOf, ShowCurrent]
  · intro m h1 h2
    simp only [] at h2
    have : m = st.pings := by omega
    rw [this]
    exact h
  · intro r hr
    simp [reportsOf, ShowCurrent] at hr
    subst hr
    exact ⟨st.pings, opts, hde⟩

/-- The inner loop never meets a nil record when every address has one, and it extends
the state; it ends cancelled only at a poll that found the context cancelled, and
completed only after one probe per address. -/
theorem runRound_extends (env : Env) (cfg : Config) (pingOpts : GoMap PingOptions)
    (singleIP : Bool) (maxIPLen : Int) (attempt : Nat) (l : List IP) :
    ∀ (idx : Nat) (st : RunState), AllPresent st.stats l →
      (runRound env cfg pingOpts singleIP maxIPLen attempt idx l st).1 ≠ RoundEnd.nilStats
      ∧ Extends env cfg st (runRound env cfg pingOpts singleIP maxIPLen attempt idx l st).2
      ∧ ((runRound env cfg pingOpts singleIP maxIPLen attempt idx l st).1 = RoundEnd.cancelled →
          env.done (runRound env cfg pingOpts singleIP maxIPLen attempt idx l st).2.pings = true)
      ∧ ((runRound env cfg pingOpts singleIP maxIPLen attempt idx l st).1 = RoundEnd.completed →
          (runRound env cfg pingOpts singleIP maxIPLen attempt idx l st).2.pings
            = st.pings + l.length) := by
  induction l with
  | nil =>
    intro idx st _
    rw [runRound_nil]
    exact ⟨by simp, Extends_refl env cfg st, by simp, by simp⟩
  | cons ip rest ih =>
    intro idx st hp
    cases hd : env.done st.pings with
    | true =>
      rw [runRound_cons_cancel _ _ _ _ _ _ _ _ _ _ hd]
      exact ⟨by simp, Extends_refl env cfg st, fun _ => hd, by simp⟩
    | false =>
      obtain ⟨record, hr⟩ := hp ip (List.mem_cons_self ip rest)
      rw [runRound_cons_probe _ _ _ _ _ _ _ _ _ _ record hd hr]
      have hstep := probe_step_extends env cfg ((mapGet pingOpts ip.IP).getD default) attempt
        (if singleIP then 0 else (idx : Int) + 1) ip.IP maxIPLen
        (App.Ping env st.pings cfg ((mapGet pingOpts ip.IP).getD default)).1
        (App.Ping env st.pings cfg ((mapGet pingOpts ip.IP).getD default)).2 st record hd hr rfl
      have hp2 := AllPresent_of_Extends env cfg _ _ rest hstep
        (fun ip2 h2 => hp ip2 (List.mem_cons_of_mem ip h2))
      obtain ⟨i1, i2, i3, i4⟩ := ih (idx + 1) _ hp2
      refine ⟨i1, Extends_trans env cfg _ _ _ hstep i2, i3, ?_⟩
      intro hc
      rw [i4 hc]
      simp only [List.length_cons]
      omega

theorem reportKeys_append (t1 t2 : List Event) :
    reportKeys (t1 ++ t2) = reportKeys t1 ++ reportKeys t2 := by
  simp [reportKeys, reportsOf_append]

/-- Without cancellation the inner loop completes, with one probe and one report per
address, in list order, all carrying the number of the round. -/
theorem runRound_noCancel (env : Env) (cfg : Config) (pingOpts : GoMap PingOptions)
    (singleIP : Bool) (maxIPLen : Int) (attempt : Nat) (hd : ∀ m, env.done m = false)
    (l : List IP) :
    ∀ (idx : Nat) (st : RunState), AllPresent st.stats l →
      (runRound env cfg pingOpts singleIP maxIPLen attempt idx l st).1 = RoundEnd.completed
      ∧ reportKeys (runRound env cfg pingOpts singleIP maxIPLen attempt idx l st).2.trace
          = reportKeys st.trace ++ l.map (fun ip => ((attempt : Int), ip.IP))
      ∧ probesOf (runRound env cfg pingOpts singleIP maxIPLen attempt idx l st).2.trace
          = probesOf st.trace
            ++ l.map (fun ip => ((mapGet pingOpts ip.IP).getD default).Address) := by
  induction l with
  | nil =>
    intro idx st _
    rw [runRound_nil]
    simp
  | cons ip rest ih =>
    intro idx st hp
    obtain ⟨record, hr⟩ := hp ip (List.mem_cons_self ip rest)
    rw [runRound_cons_probe _ _ _ _ _ _ _ _ _ _ record (hd st.pings) hr]
    have hstep := probe_step_extends env cfg ((mapGet pingOpts ip.IP).getD default) attempt
      (if singleIP then 0 else (idx : Int) + 1) ip.IP maxIPLen
      (App.Ping env st.pings cfg ((mapGet pingOpts ip.IP).getD default)).1
      (App.Ping env st.pings cfg ((mapGet pingOpts ip.IP).getD default)).2 st record
      (hd st.pings) hr rfl
    have hp2 := AllPresent_of_Extends env cfg _ _ rest hstep
      (fun ip2 h2 => hp ip2 (List.mem_cons_of_mem ip h2))
    obtain ⟨i1, i2, i3⟩ := ih (idx + 1) _ hp2
    refine ⟨i1, ?_, ?_⟩
    · rw [i2]
      simp [reportKeys, reportsOf, ShowCurrent, List.filterMap_append]
    · rw [i3]
      simp [probesOf, ShowCurrent, List.filterMap_append]

theorem runLoop_zero (env : Env) (cfg : Config) (pingOpts : GoMap PingOptions)
    (singleIP : Bool) (maxIPLen : Int) (attempt : Nat) (st : RunState) :
    runLoop env cfg pingOpts singleIP maxIPLen 0 attempt st = none := by
  simp [runLoop]

/-- The loop stops at its head when the run is counted and the count is reached. -/
theorem runLoop_break (env : Env) (cfg : Config) (pingOpts : GoMap PingOptions)
    (singleIP : Bool) (maxIPLen : Int) (fuel attempt : Nat) (st : RunState)
    (h : (!cfg.Nonstop && decide ((attempt : Int) ≥ cfg.Count)) = true) :
    runLoop env cfg pingOpts singleIP maxIPLen (fuel + 1) attempt st
      = some (RunResult.returned none, st) := by
  rw [runLoop]
  simp only [h, if_true]

/-- One iteration of the loop that does not stop at its head. -/
theorem runLoop_round (env : Env) (cfg : Config) (pingOpts : GoMap PingOptions)
    (singleIP : Bool) (maxIPLen : Int) (fuel attempt : Nat) (st : RunState)
    (h : (!cfg.Nonstop && decide ((attempt : Int) ≥ cfg.Count)) = false) :
    runLoop env cfg pingOpts singleIP maxIPLen (fuel + 1) attempt st
      = match runRound env cfg pingOpts singleIP maxIPLen (attempt + 1) 0 cfg.IPs st with
        | (RoundEnd.cancelled, st1) => some (RunResult.returned none, st1)
        | (RoundEnd.nilStats, st1) => some (RunResult.panicked, st1)
        | (RoundEnd.completed, st1) =>
          if cfg.Nonstop || decide (((attempt + 1 : Nat) : Int) < cfg.Count) then
            if env.since (attempt + 1) < cfg.DelayDur then
              if env.waitDone (attempt + 1) then
                some (RunResult.returned none,
                  { st1 with trace := st1.trace
                      ++ [Event.wait (cfg.DelayDur - env.since (attempt + 1))] })
              else runLoop env cfg pingOpts singleIP maxIPLen fuel (attempt + 1)
                  { st1 with trace := st1.trace
                      ++ [Event.wait (cfg.DelayDur - env.since (attempt + 1))] }
            else runLoop env cfg pingOpts singleIP maxIPLen fuel (attempt + 1) st1
          else runLoop env cfg pingOpts singleIP maxIPLen fuel (attempt + 1) st1 := by
  rw [runLoop]
  simp only [h, Bool.false_eq_true, if_false]

theorem wait_step_extends (env : Env) (cfg : Config) (st : RunState) (w : Int) :
    Extends env cfg st { st with trace := st.trace ++ [Event.wait w] } := by
  refine ⟨[Event.wait w], rfl, ?_, ?_, rfl, ?_, ?_, ?_, ?_⟩
  · simp [statsTitleCount]
  · intro k record h
    simpa [callsFor, UpdateAll] using h
  · simp [probesOf]
  · simp [probesOf, reportsOf]
  · intro m h1 h2
    simp only [] at h2
    omega
  · intro r hr
    simp [reportsOf] at hr

/-- Whenever the loop ends, it ends by `return nil` (never on a nil record) and it has
extended the state it was entered with. -/
theorem runLoop_extends (env : Env) (cfg : Config) (pingOpts : GoMap PingOptions)
    (singleIP : Bool) (maxIPLen : Int) :
    ∀ (fuel attempt : Nat) (st : RunState) (res : RunResult) (st2 : RunState),
      AllPresent st.stats cfg.IPs →
      runLoop env cfg pingOpts singleIP maxIPLen fuel attempt st = some (res, st2) →
      res = RunResult.returned none ∧ Extends env cfg st st2 := by
  intro fuel
  induction fuel with
  | zero =>
    intro attempt st res st2 _ h
    rw [runLoop_zero] at h
    exact absurd h (by simp)
  | succ fuel ih =>
    intro attempt st res st2 hp h
    cases hb : (!cfg.Nonstop && decide ((attempt : Int) ≥ cfg.Count)) with
    | true =>
      rw [runLoop_break _ _ _ _ _ _ _ _ hb] at h
      injection h with h
      injection h with h1 h2
      subst h1 h2
      exact ⟨rfl, Extends_refl env cfg st⟩
    | false =>
      rw [runLoop_round _ _ _ _ _ _ _ _ hb] at h
      obtain ⟨r1, r2, _, _⟩ :=
        runRound_extends env cfg pingOpts singleIP maxIPLen (attempt + 1) cfg.IPs 0 st hp
      cases hrr : runRound env cfg pingOpts singleIP maxIPLen (attempt + 1) 0 cfg.IPs st with
      | mk e st1 =>
        rw [hrr] at h r1 r2
        simp only [] at r1 r2
        have hp1 := AllPresent_of_Extends env cfg st st1 cfg.IPs r2 hp
        cases e with
        | nilStats => exact absurd rfl r1
        | cancelled =>
          simp only [] at h
          injection h with h
          injection h with h1 h2
          subst h1 h2
          exact ⟨rfl, r2⟩
        | completed =>
          simp only [] at h
          split_ifs at h with c1 c2 c3
          · injection h with h
            injection h with h1 h2
            subst h1 h2
            exact ⟨rfl, Extends_trans env cfg _ _ _ r2 (wait_step_extends env cfg st1 _)⟩
          · have hw := wait_step_extends env cfg st1 (cfg.DelayDur - env.since (attempt + 1))
            obtain ⟨j1, j2⟩ := ih (attempt + 1) _ res st2
              (AllPresent_of_Extends env cfg _ _ cfg.IPs hw hp1) h
            exact ⟨j1, Extends_trans env cfg _ _ _ r2 (Extends_trans env cfg _ _ _ hw j2)⟩
          · obtain ⟨j1, j2⟩ := ih (attempt + 1) _ res st2 hp1 h
            exact ⟨j1, Extends_trans env cfg _ _ _ r2 j2⟩
          · obtain ⟨j1, j2⟩ := ih (attempt + 1) _ res st2 hp1 h
            exact ⟨j1, Extends_trans env cfg _ _ _ r2 j2⟩

/-! ## Theorems: the first loop of Run and the printed sections -/

/-- What the first loop of `Run` leaves in its maps: every address has the options of its
probe and a zero record (the record made for the last entry with the same address
string); the statistics map is non-empty as soon as there is an address. -/
theorem setup_foldl_spec (cfg : Config) (l : List IP) (s0 : Setup) :
    (∀ ip ∈ l, ∃ ip2 ∈ l, ip2.IP = ip.IP
        ∧ statsAt (l.foldl (setupStep cfg) s0).stats ip.IP = some (zeroStats ip2))
    ∧ (∀ ip ∈ l, mapGet (l.foldl (setupStep cfg) s0).pingOpts ip.IP
        = some { Config := cfg, Address := JoinHostPort ip.IP cfg.Port,
                 Payload := cfg.UDPPayload })
    ∧ (l ≠ [] → 0 < mapLen (l.foldl (setupStep cfg) s0).stats) := by
  induction l using List.reverseRecOn with
  | nil => simp
  | append_singleton l x ih =>
    obtain ⟨ih1, ih2, _⟩ := ih
    rw [List.foldl_append]
    simp only [List.foldl_cons, List.foldl_nil]
    refine ⟨?_, ?_, ?_⟩
    · intro ip hip
      by_cases hk : ip.IP = x.IP
      · refine ⟨x, by simp, hk.symm, ?_⟩
        rw [hk]
        simp [setupStep, statsAt_mapSet_same]
      · have hl : ip ∈ l := by
          rcases List.mem_append.mp hip with h | h
          · exact h
          · simp at h
            rw [h] at hk
            exact absurd rfl hk
        obtain ⟨ip2, h2, h3, h4⟩ := ih1 ip hl
        refine ⟨ip2, List.mem_append_left _ h2, h3, ?_⟩
        simp only [setupStep]
        rw [statsAt_mapSet_other _ _ _ _ hk]
        exact h4
    · intro ip hip
      by_cases hk : ip.IP = x.IP
      · rw [hk]
        simp [setupStep, mapGet_mapSet_same]
      · have hl : ip ∈ l := by
          rcases List.mem_append.mp hip with h | h
          · exact h
          · simp at h
            rw [h] at hk
            exact absurd rfl hk
        simp only [setupStep]
        rw [mapGet_mapSet_other _ _ _ _ hk]
        exact ih2 ip hl
    · intro _
      simp only [setupStep]
      exact mapLen_mapSet_pos _ _ _

theorem ShowBanner_reads (cfg : Config) :
    probesOf (ShowBanner cfg) = [] ∧ reportsOf (ShowBanner cfg) = []
    ∧ statsTitleCount (ShowBanner cfg) = 0 ∧ ∀ k, callsFor k (ShowBanner cfg) = [] := by
  have hmem : ∀ ev ∈ ShowBanner cfg,
      (∃ a b c d e, ev = Event.bannerHead a b c d e) ∨ (∃ a b, ev = Event.bannerIP a b)
      ∨ (∃ a, ev = Event.bannerPayload a) := by
    intro ev hev
    simp only [ShowBanner, List.mem_append, List.mem_singleton, List.mem_map] at hev
    rcases hev with (h | ⟨ip, _, h⟩) | h
    · exact Or.inl ⟨_, _, _, _, _, h⟩
    · exact Or.inr (Or.inl ⟨_, _, h.symm⟩)
    · split_ifs at h
      · simp at h
        exact Or.inr (Or.inr ⟨_, h⟩)
      · simp at h
  refine ⟨?_, ?_, ?_, ?_⟩
  · rw [probesOf, List.filterMap_eq_nil_iff]
    intro ev hev
    rcases hmem ev hev with ⟨a, b, c, d, e, h⟩ | ⟨a, b, h⟩ | ⟨a, h⟩ <;> rw [h]
  · rw [reportsOf, List.filterMap_eq_nil_iff]
    intro ev hev
    rcases hmem ev hev with ⟨a, b, c, d, e, h⟩ | ⟨a, b, h⟩ | ⟨a, h⟩ <;> rw [h]
  · rw [statsTitleCount, List.countP_eq_zero]
    intro ev hev
    rcases hmem ev hev with ⟨a, b, c, d, e, h⟩ | ⟨a, b, h⟩ | ⟨a, h⟩ <;> rw [h] <;> simp
  · intro k
    rw [callsFor, List.filterMap_eq_nil_iff]
    intro ev hev
    rcases hmem ev hev with ⟨a, b, c, d, e, h⟩ | ⟨a, b, h⟩ | ⟨a, h⟩ <;> rw [h]

/-- The rows of the statistics section: one per entry of `cfg.IPs` whose record is
non-nil with `Attempts` not zero, in the order of `cfg.IPs`. -/
theorem ShowStats_of_nonempty (cfg : Config) (m : StatsMap) (h : mapLen m ≠ 0) :
    ShowStats cfg m
      = Event.statsTitle cfg.Host cfg.Proto cfg.Port
        :: Event.statsColumns (statsFormat cfg (maxKeyLen m))
        :: cfg.IPs.filterMap (fun ip =>
            match statsAt m ip.IP with
            | none => none
            | some st =>
              if st.Attempts = 0 then none
              else some (Event.statsRow (statsFormat cfg (maxKeyLen m)) st)) := by
  simp [ShowStats, h]

theorem ShowStats_of_empty (cfg : Config) (m : StatsMap) (h : mapLen m = 0) :
    ShowStats cfg m = [] := by
  simp [ShowStats, h]

theorem ShowStats_reads (cfg : Config) (m : StatsMap) :
    probesOf (ShowStats cfg m) = [] ∧ reportsOf (ShowStats cfg m) = []
    ∧ statsTitleCount (ShowStats cfg m) = (if mapLen m = 0 then 0 else 1) := by
  by_cases h : mapLen m = 0
  · rw [ShowStats_of_empty cfg m h]
    simp [probesOf, reportsOf, statsTitleCount, h]
  · rw [ShowStats_of_nonempty cfg m h]
    have hrows : ∀ ev ∈ cfg.IPs.filterMap (fun ip =>
            match statsAt m ip.IP with
            | none => none
            | some st =>
              if st.Attempts = 0 then none
              else some (Event.statsRow (statsFormat cfg (maxKeyLen m)) st)),
        ∃ f st, ev = Event.statsRow f st := by
      intro ev hev
      obtain ⟨ip, _, hip⟩ := List.mem_filterMap.mp hev
      cases hs : statsAt m ip.IP with
      | none => rw [hs] at hip; simp at hip
      | some st =>
        rw [hs] at hip
        simp only [] at hip
        split_ifs at hip
        injection hip with hip
        exact ⟨_, _, hip.symm⟩
    refine ⟨?_, ?_, ?_⟩
    · rw [probesOf, List.filterMap_cons, List.filterMap_cons]
      simp only []
      rw [List.filterMap_eq_nil_iff]
      intro ev hev
      obtain ⟨f, st, hh⟩ := hrows ev hev
      rw [hh]
    · rw [reportsOf, List.filterMap_cons, List.filterMap_cons]
      simp only []
      rw [List.filterMap_eq_nil_iff]
      intro ev hev
      obtain ⟨f, st, hh⟩ := hrows ev hev
      rw [hh]
    · rw [if_neg h, statsTitleCount, List.countP_cons, List.countP_cons]
      have : List.countP (fun ev => match ev with
          | Event.statsTitle _ _ _ => true
          | _ => false) (cfg.IPs.filterMap (fun ip =>
            match statsAt m ip.IP with
            | none => none
            | some st =>
              if st.Attempts = 0 then none
              else some (Event.statsRow (statsFormat cfg (maxKeyLen m)) st))) = 0 := by
        rw [List.countP_eq_zero]
        intro ev hev
        obtain ⟨f, st, hh⟩ := hrows ev hev
        rw [hh]
        simp
      rw [this]
      simp

/-! ## Theorems: counted runs and cancelled runs -/

theorem reportKeys_wait (t : List Event) (w : Int) :
    reportKeys (t ++ [Event.wait w]) = reportKeys t := by
  simp [reportKeys, reportsOf, List.filterMap_append]

theorem probesOf_wait (t : List Event) (w : Int) :
    probesOf (t ++ [Event.wait w]) = probesOf t := by
  simp [probesOf, List.filterMap_append]

/-- A counted run without cancellation, entered with `attempt` rounds done and `rounds`
rounds to go: with more fuel than rounds to go the loop returns nil, after the reports and
probes of the rounds `attempt + 1`, ..., `attempt + rounds`, in that order. -/
theorem runLoop_counted (env : Env) (cfg : Config) (pingOpts : GoMap PingOptions)
    (singleIP : Bool) (maxIPLen : Int) (N : Nat) (hNon : cfg.Nonstop = false)
    (hC : cfg.Count = N) (hd : ∀ m, env.done m = false) (hw : ∀ r, env.waitDone r = false) :
    ∀ (rounds attempt fuel : Nat) (st : RunState),
      attempt + rounds = N → rounds < fuel → AllPresent st.stats cfg.IPs →
      ∃ st2, runLoop env cfg pingOpts singleIP maxIPLen fuel attempt st
          = some (RunResult.returned none, st2)
        ∧ reportKeys st2.trace = reportKeys st.trace
            ++ (List.range' (attempt + 1) rounds).flatMap
                (fun r => cfg.IPs.map (fun ip => ((r : Int), ip.IP)))
        ∧ probesOf st2.trace = probesOf st.trace
            ++ (List.range' (attempt + 1) rounds).flatMap
                (fun _ => cfg.IPs.map
                  (fun ip => ((mapGet pingOpts ip.IP).getD default).Address)) := by
  intro rounds
  induction rounds with
  | zero =>
    intro attempt fuel st ha hf _
    obtain ⟨f, rfl⟩ : ∃ f, fuel = f + 1 := ⟨fuel - 1, by omega⟩
    have hb : (!cfg.Nonstop && decide ((attempt : Int) ≥ cfg.Count)) = true := by
      rw [hNon, hC]
      simp only [Nat.add_zero] at ha
      simp [ha]
    refine ⟨st, runLoop_break _ _ _ _ _ _ _ _ hb, ?_, ?_⟩ <;> simp
  | succ rounds ih =>
    intro attempt fuel st ha hf hp
    obtain ⟨f, rfl⟩ : ∃ f, fuel = f + 1 := ⟨fuel - 1, by omega⟩
    have hb : (!cfg.Nonstop && decide ((attempt : Int) ≥ cfg.Count)) = false := by
      rw [hNon, hC]
      have : ¬ ((N : Int) ≤ (attempt : Int)) := by omega
      simp [this]
    rw [runLoop_round _ _ _ _ _ _ _ _ hb]
    obtain ⟨q1, q2, q3⟩ :=
      runRound_noCancel env cfg pingOpts singleIP maxIPLen (attempt + 1) hd cfg.IPs 0 st hp
    obtain ⟨_, r2, _, _⟩ :=
      runRound_extends env cfg pingOpts singleIP maxIPLen (attempt + 1) cfg.IPs 0 st hp
    cases hrr : runRound env cfg pingOpts singleIP maxIPLen (attempt + 1) 0 cfg.IPs st with
    | mk e st1 =>
      rw [hrr] at q1 q2 q3 r2
      simp only [] at q1 q2 q3 r2
      subst q1
      simp only []
      have hp1 := AllPresent_of_Extends env cfg st st1 cfg.IPs r2 hp
      have hexp1 : reportKeys st.trace
            ++ (List.range' (attempt + 1) (rounds + 1)).flatMap
                (fun r => cfg.IPs.map (fun ip => ((r : Int), ip.IP)))
          = reportKeys st1.trace
            ++ (List.range' (attempt + 1 + 1) rounds).flatMap
                (fun r => cfg.IPs.map (fun ip => ((r : Int), ip.IP))) := by
        rw [q2, List.range'_succ, List.flatMap_cons, List.append_assoc]
      have hexp2 : probesOf st.trace
            ++ (List.range' (attempt + 1) (rounds + 1)).flatMap
                (fun _ => cfg.IPs.map
                  (fun ip => ((mapGet pingOpts ip.IP).getD default).Address))
          = probesOf st1.trace
            ++ (List.range' (attempt + 1 + 1) rounds).flatMap
                (fun _ => cfg.IPs.map
                  (fun ip => ((mapGet pingOpts ip.IP).getD default).Address)) := by
        rw [q3, List.range'_succ, List.flatMap_cons, List.append_assoc]
      rw [hexp1, hexp2]
      split_ifs with c1 c2 c3
      · rw [hw] at c3
        exact absurd c3 (by simp)
      · have hwe := wait_step_extends env cfg st1 (cfg.DelayDur - env.since (attempt + 1))
        obtain ⟨st2, j1, j2, j3⟩ := ih (attempt + 1) f _ (by omega) (by omega)
          (AllPresent_of_Extends env cfg _ _ cfg.IPs hwe hp1)
        refine ⟨st2, j1, ?_, ?_⟩
        · rw [j2, reportKeys_wait]
        · rw [j3, probesOf_wait]
      · exact ih (attempt + 1) f st1 (by omega) (by omega) hp1
      · exact ih (attempt + 1) f st1 (by omega) (by omega) hp1

/-- If some poll finds the context cancelled and there is at least one address, the loop
ends: a round that completes passes at least one poll, so the cancelled poll is reached
after finitely many rounds. -/
theorem runLoop_ends_of_done (env : Env) (cfg : Config) (pingOpts : GoMap PingOptions)
    (singleIP : Bool) (maxIPLen : Int) (hne : cfg.IPs ≠ []) (j : Nat)
    (hj : env.done j = true) :
    ∀ (fuel attempt : Nat) (st : RunState),
      AllPresent st.stats cfg.IPs → st.pings ≤ j → j - st.pings < fuel →
      (runLoop env cfg pingOpts singleIP maxIPLen fuel attempt st).isSome = true := by
  intro fuel
  induction fuel with
  | zero =>
    intro attempt st _ _ hf
    omega
  | succ fuel ih =>
    intro attempt st hp hle hf
    cases hb : (!cfg.Nonstop && decide ((attempt : Int) ≥ cfg.Count)) with
    | true =>
      rw [runLoop_break _ _ _ _ _ _ _ _ hb]
      rfl
    | false =>
      rw [runLoop_round _ _ _ _ _ _ _ _ hb]
      obtain ⟨r1, r2, _, r4⟩ :=
        runRound_extends env cfg pingOpts singleIP maxIPLen (attempt + 1) cfg.IPs 0 st hp
      cases hrr : runRound env cfg pingOpts singleIP maxIPLen (attempt + 1) 0 cfg.IPs st with
      | mk e st1 =>
        rw [hrr] at r1 r2 r4
        simp only [] at r1 r2 r4
        have hp1 := AllPresent_of_Extends env cfg st st1 cfg.IPs r2 hp
        cases e with
        | nilStats => exact absurd rfl r1
        | cancelled => rfl
        | completed =>
          have hlen : 0 < cfg.IPs.length := List.length_pos.mpr hne
          have hpg : st1.pings = st.pings + cfg.IPs.length := r4 rfl
          obtain ⟨_, _, _, _, _, _, _, a7, _⟩ := r2
          have hj1 : st1.pings ≤ j := by
            by_contra hcon
            have hfalse := a7 j hle (by omega)
            rw [hj] at hfalse
            exact absurd hfalse (by simp)
          simp only []
          split_ifs with c1 c2 c3
          · rfl
          · exact ih (attempt + 1) _ (AllPresent_of_Extends env cfg _ _ cfg.IPs
              (wait_step_extends env cfg st1 _) hp1) hj1 (by simp only []; omega)
          · exact ih (attempt + 1) st1 hp1 hj1 (by omega)
          · exact ih (attempt + 1) st1 hp1 hj1 (by omega)

/-! ## Theorems: a whole run -/

theorem callsFor_eq_reports (k : String) (t : List Event) :
    callsFor k t = (reportsOf t).filterMap
      (fun r => if r.2.2.1 = k then some (r.2.2.2.1, r.2.2.2.2) else none) := by
  induction t with
  | nil => simp [callsFor, reportsOf]
  | cons ev rest ih =>
    have hc : callsFor k (ev :: rest) = callsFor k [ev] ++ callsFor k rest :=
      callsFor_append k [ev] rest
    have hr : reportsOf (ev :: rest) = reportsOf [ev] ++ reportsOf rest :=
      reportsOf_append [ev] rest
    rw [hc, hr, List.filterMap_append, ih]
    congr 1
    cases ev with
    | current cnt sub ip mx d e =>
      by_cases hk : ip = k <;> simp [callsFor, reportsOf, hk]
    | _ => simp [callsFor, reportsOf]

theorem callsFor_length (k : String) (t : List Event) :
    (callsFor k t).length = (reportKeys t).countP (fun p => decide (p.2 = k)) := by
  rw [callsFor_eq_reports, reportKeys]
  induction reportsOf t with
  | nil => simp
  | cons r rest ih =>
    rw [List.filterMap_cons, List.map_cons, List.countP_cons]
    by_cases hk : r.2.2.1 = k
    · simp only [hk, if_true, List.length_cons, ih, decide_True]
    · simp only [hk, if_false, ih, decide_False]
      simp

theorem mem_callsFor (k : String) (t : List Event) (c : Int × GoError) (h : c ∈ callsFor k t) :
    ∃ r ∈ reportsOf t, c = (r.2.2.2.1, r.2.2.2.2) := by
  rw [callsFor_eq_reports] at h
  obtain ⟨r, hr, hc⟩ := List.mem_filterMap.mp h
  refine ⟨r, hr, ?_⟩
  split_ifs at hc
  injection hc with hc
  exact hc.symm

theorem ShowStats_callsFor (cfg : Config) (m : StatsMap) (k : String) :
    callsFor k (ShowStats cfg m) = [] := by
  rw [callsFor_eq_reports, (ShowStats_reads cfg m).2.1]
  rfl

theorem length_flatMap_range' {β : Type} (g : Nat → List β) (k : Nat)
    (hg : ∀ r, (g r).length = k) :
    ∀ (n s : Nat), ((List.range' s n).flatMap g).length = n * k := by
  intro n
  induction n with
  | zero => intro s; simp
  | succ n ih =>
    intro s
    rw [List.range'_succ, List.flatMap_cons, List.length_append, ih, hg]
    ring

theorem countP_flatMap_range' {β : Type} (p : β → Bool) (g : Nat → List β) (k : Nat)
    (hg : ∀ r, (g r).countP p = k) :
    ∀ (n s : Nat), ((List.range' s n).flatMap g).countP p = n * k := by
  intro n
  induction n with
  | zero => intro s; simp
  | succ n ih =>
    intro s
    rw [List.range'_succ, List.flatMap_cons, List.countP_append, ih, hg]
    ring

theorem Run_eq (env : Env) (cfg : Config) (fuel : Nat) :
    App.Run env (NewApp cfg) fuel
      = match runLoop env cfg (cfg.IPs.foldl (setupStep cfg) ⟨[], [], 0⟩).pingOpts
          (decide (cfg.IPs.length = 1)) (cfg.IPs.foldl (setupStep cfg) ⟨[], [], 0⟩).maxIPLen
          fuel 0
          { stats := (cfg.IPs.foldl (setupStep cfg) ⟨[], [], 0⟩).stats,
            trace := ShowBanner cfg, pings := 0 } with
        | none => none
        | some (res, st) =>
          some { result := res, stats := st.stats,
                 trace := st.trace ++ ShowStats cfg st.stats } := rfl

theorem setup_AllPresent (cfg : Config) :
    AllPresent (cfg.IPs.foldl (setupStep cfg) ⟨[], [], 0⟩).stats cfg.IPs := by
  intro ip hip
  obtain ⟨ip2, _, _, h⟩ := (setup_foldl_spec cfg cfg.IPs ⟨[], [], 0⟩).1 ip hip
  exact ⟨_, h⟩

/-- Whenever `Run` ends, on an application made by `NewApp`: it returns nil; the
statistics section is printed last and nowhere before; every probe has its report; the
poll in front of every probe issued found the context not cancelled; every report carries
what `a.Ping` returned; and the record of every address is a zero record after exactly the
`Update` calls that the reports of that address stand for. -/
theorem Run_spec (env : Env) (cfg : Config) (fuel : Nat) (o : RunOutcome)
    (h : App.Run env (NewApp cfg) fuel = some o) :
    o.result = RunResult.returned none
    ∧ (∃ pre, o.trace = pre ++ ShowStats cfg o.stats ∧ statsTitleCount pre = 0)
    ∧ (reportsOf o.trace).length = (probesOf o.trace).length
    ∧ (∀ m, m < (probesOf o.trace).length → env.done m = false)
    ∧ (∀ r ∈ reportsOf o.trace, ∃ n opts, App.Ping env n cfg opts = (r.2.2.2.1, r.2.2.2.2))
    ∧ (∀ ip ∈ cfg.IPs, ∃ ip2 ∈ cfg.IPs, ip2.IP = ip.IP
        ∧ statsAt o.stats ip.IP = some (UpdateAll (zeroStats ip2) (callsFor ip.IP o.trace)))
    ∧ (cfg.IPs ≠ [] → mapLen o.stats ≠ 0)
    ∧ (cfg.IPs = [] → mapLen o.stats = 0) := by
  rw [Run_eq] at h
  obtain ⟨s1, _, s3⟩ := setup_foldl_spec cfg cfg.IPs ⟨[], [], 0⟩
  have hp := setup_AllPresent cfg
  cases hl : runLoop env cfg (cfg.IPs.foldl (setupStep cfg) ⟨[], [], 0⟩).pingOpts
      (decide (cfg.IPs.length = 1)) (cfg.IPs.foldl (setupStep cfg) ⟨[], [], 0⟩).maxIPLen
      fuel 0
      { stats := (cfg.IPs.foldl (setupStep cfg) ⟨[], [], 0⟩).stats,
        trace := ShowBanner cfg, pings := 0 } with
  | none => rw [hl] at h; simp at h
  | some pr =>
    obtain ⟨res, st⟩ := pr
    rw [hl] at h
    simp only [] at h
    injection h with h
    subst h
    obtain ⟨e1, news, a1, a2, a3, a4, a5, a6, a7, a8⟩ :=
      runLoop_extends env cfg _ _ _ fuel 0 _ res st hp hl
    simp only [] at a1 a3 a4 a5 a7
    obtain ⟨b1, b2, b3, b4⟩ := ShowBanner_reads cfg
    obtain ⟨c1, c2, _⟩ := ShowStats_reads cfg st.stats
    have hlen : mapLen st.stats
        = mapLen (cfg.IPs.foldl (setupStep cfg) ⟨[], [], 0⟩).stats := by
      have := congrArg List.length a4
      simpa [mapLen] using this
    have hprobes : probesOf (st.trace ++ ShowStats cfg st.stats) = probesOf news := by
      rw [a1, probesOf_append, probesOf_append, b1, c1]
      simp
    have hreports : reportsOf (st.trace ++ ShowStats cfg st.stats) = reportsOf news := by
      rw [a1, reportsOf_append, reportsOf_append, b2, c2]
      simp
    have hcalls : ∀ k, callsFor k (st.trace ++ ShowStats cfg st.stats) = callsFor k news := by
      intro k
      rw [a1, callsFor_append, callsFor_append, b4, ShowStats_callsFor]
      simp
    refine ⟨e1, ⟨st.trace, rfl, ?_⟩, ?_, ?_, ?_, ?_, ?_, ?_⟩
    · rw [a1, statsTitleCount_append, b3, a2]
    · simp only []
      rw [hprobes, hreports, a6]
    · intro m hm
      simp only [] at hm
      rw [hprobes] at hm
      exact a7 m (Nat.zero_le m) (by omega)
    · intro r hr
      simp only [] at hr
      rw [hreports] at hr
      exact a8 r hr
    · intro ip hip
      obtain ⟨ip2, h2, h3, h4⟩ := s1 ip hip
      refine ⟨ip2, h2, h3, ?_⟩
      simp only []
      rw [hcalls]
      exact a3 ip.IP _ h4
    · intro hne
      simp only []
      rw [hlen]
      exact Nat.pos_iff_ne_zero.mp (s3 hne)
    · intro he
      simp only []
      rw [hlen, he]
      rfl

/-- A counted run without cancellation, with more fuel than rounds: `Run` ends, and the
reports and the probes of its trace are those of the rounds 1 to `N`, each round going
through `cfg.IPs` in order. -/
theorem Run_counted_spec (env : Env) (cfg : Config) (N fuel : Nat)
    (hNon : cfg.Nonstop = false) (hC : cfg.Count = N) (hd : ∀ m, env.done m = false)
    (hw : ∀ r, env.waitDone r = false) (hf : N < fuel) :
    ∃ o, App.Run env (NewApp cfg) fuel = some o
      ∧ reportKeys o.trace
          = (List.range' 1 N).flatMap (fun r => cfg.IPs.map (fun ip => ((r : Int), ip.IP)))
      ∧ probesOf o.trace
          = (List.range' 1 N).flatMap
              (fun _ => cfg.IPs.map (fun ip => JoinHostPort ip.IP cfg.Port)) := by
  obtain ⟨_, s2, _⟩ := setup_foldl_spec cfg cfg.IPs ⟨[], [], 0⟩
  obtain ⟨st2, j1, j2, j3⟩ := runLoop_counted env cfg
    (cfg.IPs.foldl (setupStep cfg) ⟨[], [], 0⟩).pingOpts (decide (cfg.IPs.length = 1))
    (cfg.IPs.foldl (setupStep cfg) ⟨[], [], 0⟩).maxIPLen N hNon hC hd hw N 0 fuel
    { stats := (cfg.IPs.foldl (setupStep cfg) ⟨[], [], 0⟩).stats,
      trace := ShowBanner cfg, pings := 0 }
    (by omega) hf (setup_AllPresent cfg)
  obtain ⟨b1, b2, _, _⟩ := ShowBanner_reads cfg
  obtain ⟨c1, c2, _⟩ := ShowStats_reads cfg st2.stats
  refine ⟨{ result := RunResult.returned none, stats := st2.stats,
            trace := st2.trace ++ ShowStats cfg st2.stats }, ?_, ?_, ?_⟩
  · rw [Run_eq, j1]
  · simp only []
    rw [reportKeys_append, j2]
    simp only [reportKeys, b2, c2, List.map_nil, List.nil_append, List.append_nil, Nat.zero_add]
  · simp only []
    rw [probesOf_append, j3, b1, c1]
    simp only [List.nil_append, List.append_nil, Nat.zero_add]
    have hmap : cfg.IPs.map (fun ip =>
          ((mapGet (cfg.IPs.foldl (setupStep cfg) ⟨[], [], 0⟩).pingOpts ip.IP).getD
            default).Address)
        = cfg.IPs.map (fun ip => JoinHostPort ip.IP cfg.Port) := by
      apply List.map_congr_left
      intro ip hip
      rw [s2 ip hip]
      rfl
    rw [hmap]

theorem successDurations_nil_of_errors (calls : List (Int × GoError))
    (h : ∀ c ∈ calls, c.2.isSome = true) : successDurations calls = [] := by
  unfold successDurations
  rw [List.map_eq_nil_iff, List.filter_eq_nil_iff]
  intro c hc
  have := h c hc
  cases hc2 : c.2 with
  | none => rw [hc2] at this; simp at this
  | some msg => simp

/-- After a counted run (`Nonstop = false`, `Count = N`, no cancellation), the record of
an address of `cfg.IPs` has been updated once per report for that address, which is `N`
times the number of entries of `cfg.IPs` with that address string: `Attempts = N` when
the address strings of `cfg.IPs` are pairwise distinct. If every report of the run
carries an error (every probe of the run failed), the record has `Connects = 0` and
`Failures = Attempts`. -/
theorem Run_counted_records (env : Env) (cfg : Config) (N fuel : Nat)
    (hNon : cfg.Nonstop = false) (hC : cfg.Count = N) (hd : ∀ m, env.done m = false)
    (hw : ∀ r, env.waitDone r = false) (hf : N < fuel) :
    ∃ o, App.Run env (NewApp cfg) fuel = some o
      ∧ ∀ ip ∈ cfg.IPs, ∃ st, statsAt o.stats ip.IP = some st
          ∧ st.Attempts = N * cfg.IPs.countP (fun ip2 => decide (ip2.IP = ip.IP))
          ∧ st.Attempts = (callsFor ip.IP o.trace).length
          ∧ ((cfg.IPs.map (fun ip2 => ip2.IP)).Nodup → st.Attempts = N)
          ∧ ((∀ r ∈ reportsOf o.trace, r.2.2.2.2.isSome = true) →
              st.Connects = 0 ∧ st.Failures = st.Attempts) := by
  obtain ⟨o, h1, h2, _⟩ := Run_counted_spec env cfg N fuel hNon hC hd hw hf
  obtain ⟨_, _, _, _, _, r6, _, _⟩ := Run_spec env cfg fuel o h1
  refine ⟨o, h1, ?_⟩
  intro ip hip
  obtain ⟨ip2, _, _, hst⟩ := r6 ip hip
  obtain ⟨u1, u2, u3, _, _⟩ := UpdateAll_counters (zeroStats ip2) (callsFor ip.IP o.trace)
  have z1 : (zeroStats ip2).Attempts = 0 := rfl
  have z2 : (zeroStats ip2).Connects = 0 := rfl
  have z3 : (zeroStats ip2).Failures = 0 := rfl
  rw [z1, zero_add] at u1
  rw [z2, zero_add] at u2
  rw [z3, zero_add] at u3
  have hcount : (callsFor ip.IP o.trace).length
      = N * cfg.IPs.countP (fun ip2 => decide (ip2.IP = ip.IP)) := by
    rw [callsFor_length, h2]
    apply countP_flatMap_range'
    intro r
    rw [List.countP_map]
    rfl
  refine ⟨_, hst, ?_, u1, ?_, ?_⟩
  · rw [u1, hcount]
    push_cast
    rfl
  · intro hnd
    have hone : cfg.IPs.countP (fun ip2 => decide (ip2.IP = ip.IP)) = 1 := by
      have hc := List.count_eq_one_of_mem hnd (List.mem_map_of_mem (fun ip2 => ip2.IP) hip)
      rw [List.count_eq_countP, List.countP_map] at hc
      rw [← hc]
      apply List.countP_congr
      intro x _
      simp [Function.comp]
    rw [u1, hcount, hone]
    simp
  · intro hfail
    have herr : ∀ c ∈ callsFor ip.IP o.trace, c.2.isSome = true := by
      intro c hc
      obtain ⟨r, hr, hcr⟩ := mem_callsFor ip.IP o.trace c hc
      rw [hcr]
      exact hfail r hr
    have hsd := successDurations_nil_of_errors _ herr
    rw [hsd] at u2 u3
    simp only [List.length_nil, Nat.cast_zero, sub_zero] at u2 u3
    exact ⟨u2, by rw [u3, u1]⟩

/-! ## Claims C7 to C10 -/

/-- C7: for every config with `Nonstop = false` and `Count = N`, every address list, every
sequence of probe outcomes and no cancellation, `Run` (given more fuel than `N`) ends and
returns nil; it issues exactly `N * k` probes and emits exactly `N * k` per-attempt
reports, where `k` is the number of addresses; the reports carry the round numbers
1, ..., `N` in increasing order and, within each round, the addresses in the order of
`cfg.IPs`; the probes go to the same addresses in the same order. -/
theorem Run_counted_probes_and_reports (env : Env) (cfg : Config) (N fuel : Nat)
    (hNon : cfg.Nonstop = false) (hC : cfg.Count = N) (hd : ∀ m, env.done m = false)
    (hw : ∀ r, env.waitDone r = false) (hf : N < fuel) :
    ∃ o, App.Run env (NewApp cfg) fuel = some o
      ∧ o.result = RunResult.returned none
      ∧ reportKeys o.trace
          = (List.range' 1 N).flatMap (fun r => cfg.IPs.map (fun ip => ((r : Int), ip.IP)))
      ∧ probesOf o.trace
          = (List.range' 1 N).flatMap
              (fun _ => cfg.IPs.map (fun ip => JoinHostPort ip.IP cfg.Port))
      ∧ (reportsOf o.trace).length = N * cfg.IPs.length
      ∧ (probesOf o.trace).length = N * cfg.IPs.length := by
  obtain ⟨o, h1, h2, h3⟩ := Run_counted_spec env cfg N fuel hNon hC hd hw hf
  obtain ⟨r1, _⟩ := Run_spec env cfg fuel o h1
  refine ⟨o, h1, r1, h2, h3, ?_, ?_⟩
  · have : (reportKeys o.trace).length = N * cfg.IPs.length := by
      rw [h2]
      exact length_flatMap_range' _ _ (fun r => by simp) N 1
    simpa [reportKeys] using this
  · rw [h3]
    exact length_flatMap_range' _ _ (fun r => by simp) N 1

theorem Run_counted_probes_and_reports_witness :
    ∃ o, App.Run refusingEnv
          (NewApp (exampleCfg [⟨"192.168.1.1", true⟩, ⟨"::1", false⟩] 2 false)) 3 = some o
      ∧ o.result = RunResult.returned none
      ∧ reportKeys o.trace
          = (List.range' 1 2).flatMap (fun r =>
              (exampleCfg [⟨"192.168.1.1", true⟩, ⟨"::1", false⟩] 2 false).IPs.map
                (fun ip => ((r : Int), ip.IP)))
      ∧ probesOf o.trace
          = (List.range' 1 2).flatMap (fun _ =>
              (exampleCfg [⟨"192.168.1.1", true⟩, ⟨"::1", false⟩] 2 false).IPs.map
                (fun ip => JoinHostPort ip.IP
                  (exampleCfg [⟨"192.168.1.1", true⟩, ⟨"::1", false⟩] 2 false).Port))
      ∧ (reportsOf o.trace).length
          = 2 * (exampleCfg [⟨"192.168.1.1", true⟩, ⟨"::1", false⟩] 2 false).IPs.length
      ∧ (probesOf o.trace).length
          = 2 * (exampleCfg [⟨"192.168.1.1", true⟩, ⟨"::1", false⟩] 2 false).IPs.length :=
  Run_counted_probes_and_reports refusingEnv
    (exampleCfg [⟨"192.168.1.1", true⟩, ⟨"::1", false⟩] 2 false) 2 3 rfl rfl
    (fun _ => rfl) (fun _ => rfl) (by decide)

/-- C8 (the code at the failing input): a host whose lookup gives the address 1.1.1.1
twice passes `Validate` with two entries in `cfg.IPs`; in the counted run with
`Count = 1` that follows, without cancellation, the two entries share one record, which
is updated by both probes of the round: the record of 1.1.1.1 has `Attempts = 2`, not
`N = 1`, and with every probe failing it is `{Attempts: 2, Connects: 0, Failures: 2}`. -/
theorem Run_repeated_address_attempts :
    Validate (lookupNet (Except.ok [[1, 1, 1, 1], [1, 1, 1, 1]])) (exampleCfg [] 1 false)
      = { cfg := exampleCfg [⟨"1.1.1.1", true⟩, ⟨"1.1.1.1", true⟩] 1 false, err := none,
          lookups := ["localhost"] }
    ∧ (App.Run refusingEnv
        (NewApp (exampleCfg [⟨"1.1.1.1", true⟩, ⟨"1.1.1.1", true⟩] 1 false)) 2).map
      (fun o => (o.result,
        (statsAt o.stats "1.1.1.1").map (fun st => (st.Attempts, st.Connects, st.Failures))))
    = some (RunResult.returned none, some (2, 0, 2)) := by
  decide

/-- C9: if the poll in front of probe number `j` (counted from 0) finds the context
cancelled, then whenever `Run` ends it returns nil having issued at most `j` probes and
emitted at most `j` reports (nothing is probed or reported from that poll on), and no
record has more than `j` attempts; with at least one address `Run` does end, for every
fuel above `j`. In particular, when the context is cancelled before `Run` is called
(`j = 0`) and the address list is non-empty, whatever `Nonstop` and `Count` are, `Run`
returns nil with no probe, no report and `Attempts = 0` in every record. -/
theorem Run_cancelled_issues_no_probe (env : Env) (cfg : Config) (j : Nat)
    (hj : env.done j = true) :
    (∀ fuel o, App.Run env (NewApp cfg) fuel = some o →
        o.result = RunResult.returned none
        ∧ (probesOf o.trace).length ≤ j
        ∧ (reportsOf o.trace).length ≤ j
        ∧ ∀ ip ∈ cfg.IPs, ∃ st, statsAt o.stats ip.IP = some st ∧ st.Attempts ≤ j)
    ∧ (cfg.IPs ≠ [] → ∀ fuel, j < fuel → ∃ o, App.Run env (NewApp cfg) fuel = some o)
    ∧ (j = 0 → cfg.IPs ≠ [] → ∀ fuel, 0 < fuel →
        ∃ o, App.Run env (NewApp cfg) fuel = some o
          ∧ o.result = RunResult.returned none
          ∧ probesOf o.trace = [] ∧ reportsOf o.trace = []
          ∧ ∀ ip ∈ cfg.IPs, ∃ st, statsAt o.stats ip.IP = some st
              ∧ st.Attempts = 0 ∧ st.Connects = 0 ∧ st.Failures = 0) := by
  have part1 : ∀ fuel o, App.Run env (NewApp cfg) fuel = some o →
      o.result = RunResult.returned none
      ∧ (probesOf o.trace).length ≤ j
      ∧ (reportsOf o.trace).length ≤ j
      ∧ ∀ ip ∈ cfg.IPs, ∃ ip2, statsAt o.stats ip.IP
            = some (UpdateAll (zeroStats ip2) (callsFor ip.IP o.trace))
          ∧ (callsFor ip.IP o.trace).length ≤ j := by
    intro fuel o h
    obtain ⟨r1, _, r3, r4, _, r6, _, _⟩ := Run_spec env cfg fuel o h
    have hle : (probesOf o.trace).length ≤ j := by
      by_contra hcon
      have := r4 j (by omega)
      rw [hj] at this
      exact absurd this (by simp)
    refine ⟨r1, hle, by omega, ?_⟩
    intro ip hip
    obtain ⟨ip2, _, _, hst⟩ := r6 ip hip
    refine ⟨ip2, hst, ?_⟩
    rw [callsFor_eq_reports]
    exact le_trans (List.length_filterMap_le _ _) (by omega)
  have part2 : cfg.IPs ≠ [] → ∀ fuel, j < fuel →
      ∃ o, App.Run env (NewApp cfg) fuel = some o := by
    intro hne fuel hf
    have hsome := runLoop_ends_of_done env cfg
      (cfg.IPs.foldl (setupStep cfg) ⟨[], [], 0⟩).pingOpts (decide (cfg.IPs.length = 1))
      (cfg.IPs.foldl (setupStep cfg) ⟨[], [], 0⟩).maxIPLen hne j hj fuel 0
      { stats := (cfg.IPs.foldl (setupStep cfg) ⟨[], [], 0⟩).stats,
        trace := ShowBanner cfg, pings := 0 }
      (setup_AllPresent cfg) (Nat.zero_le j) (by simp only []; omega)
    rw [Run_eq]
    cases hl : runLoop env cfg (cfg.IPs.foldl (setupStep cfg) ⟨[], [], 0⟩).pingOpts
        (decide (cfg.IPs.length = 1)) (cfg.IPs.foldl (setupStep cfg) ⟨[], [], 0⟩).maxIPLen
        fuel 0
        { stats := (cfg.IPs.foldl (setupStep cfg) ⟨[], [], 0⟩).stats,
          trace := ShowBanner cfg, pings := 0 } with
    | none => rw [hl] at hsome; simp at hsome
    | some pr => exact ⟨_, rfl⟩
  refine ⟨?_, part2, ?_⟩
  · intro fuel o h
    obtain ⟨q1, q2, q3, q4⟩ := part1 fuel o h
    refine ⟨q1, q2, q3, ?_⟩
    intro ip hip
    obtain ⟨ip2, hst, hlen⟩ := q4 ip hip
    refine ⟨_, hst, ?_⟩
    rw [(UpdateAll_counters (zeroStats ip2) (callsFor ip.IP o.trace)).1]
    have z1 : (zeroStats ip2).Attempts = 0 := rfl
    rw [z1, zero_add]
    exact_mod_cast hlen
  · intro hj0 hne fuel hf
    obtain ⟨o, h⟩ := part2 hne fuel (by omega)
    obtain ⟨q1, q2, q3, q4⟩ := part1 fuel o h
    refine ⟨o, h, q1, List.eq_nil_of_length_eq_zero (by omega),
      List.eq_nil_of_length_eq_zero (by omega), ?_⟩
    intro ip hip
    obtain ⟨ip2, hst, hlen⟩ := q4 ip hip
    have hnil : callsFor ip.IP o.trace = [] := List.eq_nil_of_length_eq_zero (by omega)
    rw [hnil] at hst
    exact ⟨_, hst, rfl, rfl, rfl⟩

theorem Run_cancelled_issues_no_probe_witness :
    cancelledEnv.done 0 = true
    ∧ ∃ o, App.Run cancelledEnv (NewApp (exampleCfg [⟨"127.0.0.1", true⟩] 0 true)) 1 = some o
        ∧ o.result = RunResult.returned none
        ∧ probesOf o.trace = [] ∧ reportsOf o.trace = []
        ∧ ∀ ip ∈ (exampleCfg [⟨"127.0.0.1", true⟩] 0 true).IPs,
            ∃ st, statsAt o.stats ip.IP = some st
              ∧ st.Attempts = 0 ∧ st.Connects = 0 ∧ st.Failures = 0 :=
  ⟨rfl, (Run_cancelled_issues_no_probe cancelledEnv
      (exampleCfg [⟨"127.0.0.1", true⟩] 0 true) 0 rfl).2.2 rfl (by decide) 1 (by decide)⟩

/-- C10 (the claim fails for an empty address list): a counted run with `Count = 1` and no
address returns nil having printed the banner line and nothing else; `ShowStats` returns
at its test `len(statsMap) == 0` and no statistics section is printed. -/
theorem Run_without_address_prints_no_statistics :
    (App.Run refusingEnv (NewApp (exampleCfg [] 1 false)) 2).map
      (fun o => (o.result, o.trace, statsTitleCount o.trace))
    = some (RunResult.returned none, [Event.bannerHead "localhost" "tcp" "80" 0 "IP"], 0) := by
  decide

/-- C10 (amended): whenever `Run` ends, by whichever way out, what `ShowStats` prints is
the end of the trace and no statistics title comes before it, and `ShowStats` prints no
report; when the address list is non-empty the statistics title is printed exactly once,
followed by the column line and the rows, and when no address has an attempt there is no
row; when the address list is empty `ShowStats` prints nothing at all. -/
theorem Run_statistics_section (env : Env) (cfg : Config) (fuel : Nat) (o : RunOutcome)
    (h : App.Run env (NewApp cfg) fuel = some o) :
    (∃ pre, o.trace = pre ++ ShowStats cfg o.stats ∧ statsTitleCount pre = 0
        ∧ reportsOf pre = reportsOf o.trace ∧ probesOf pre = probesOf o.trace)
    ∧ (cfg.IPs ≠ [] →
        statsTitleCount o.trace = 1
        ∧ (∃ rows, ShowStats cfg o.stats
              = Event.statsTitle cfg.Host cfg.Proto cfg.Port
                :: Event.statsColumns (statsFormat cfg (maxKeyLen o.stats)) :: rows
            ∧ ∀ ev ∈ rows, ∃ st, ev = Event.statsRow (statsFormat cfg (maxKeyLen o.stats)) st
                ∧ st.Attempts ≠ 0)
        ∧ ((∀ ip ∈ cfg.IPs, ∀ st, statsAt o.stats ip.IP = some st → st.Attempts = 0) →
            ShowStats cfg o.stats
              = [Event.statsTitle cfg.Host cfg.Proto cfg.Port,
                 Event.statsColumns (statsFormat cfg (maxKeyLen o.stats))]))
    ∧ (cfg.IPs = [] → ShowStats cfg o.stats = [] ∧ statsTitleCount o.trace = 0) := by
  obtain ⟨_, ⟨pre, p1, p2⟩, _, _, _, _, r7, r8⟩ := Run_spec env cfg fuel o h
  obtain ⟨c1, c2, c3⟩ := ShowStats_reads cfg o.stats
  refine ⟨⟨pre, p1, p2, ?_, ?_⟩, ?_, ?_⟩
  · rw [p1, reportsOf_append, c2, List.append_nil]
  · rw [p1, probesOf_append, c1, List.append_nil]
  · intro hne
    have hlen := r7 hne
    refine ⟨?_, ?_, ?_⟩
    · rw [p1, statsTitleCount_append, p2, c3, if_neg hlen]
    · refine ⟨_, ShowStats_of_nonempty cfg o.stats hlen, ?_⟩
      intro ev hev
      obtain ⟨ip, _, hip⟩ := List.mem_filterMap.mp hev
      cases hs : statsAt o.stats ip.IP with
      | none => rw [hs] at hip; simp at hip
      | some st =>
        rw [hs] at hip
        simp only [] at hip
        split_ifs at hip with h0
        injection hip with hip
        exact ⟨st, hip.symm, h0⟩
    · intro hzero
      rw [ShowStats_of_nonempty cfg o.stats hlen]
      congr 2
      rw [List.filterMap_eq_nil_iff]
      intro ip hip
      cases hs : statsAt o.stats ip.IP with
      | none => rfl
      | some st => simp [hzero ip hip st hs]
  · intro he
    have hlen := r8 he
    refine ⟨ShowStats_of_empty cfg o.stats hlen, ?_⟩
    rw [p1, statsTitleCount_append, p2, c3, if_pos hlen]

theorem Run_statistics_section_witness :
    App.Run cancelledEnv (NewApp (exampleCfg [⟨"127.0.0.1", true⟩] 0 true)) 1
      = some cancelledOutcome
    ∧ statsTitleCount cancelledOutcome.trace = 1
    ∧ ShowStats (exampleCfg [⟨"127.0.0.1", true⟩] 0 true) cancelledOutcome.stats
        = [Event.statsTitle "localhost" "tcp" "80",
           Event.statsColumns "% 10s% 12s% 11s % 15s% 10s %10s  %10s\n"] :=
  ⟨by decide,
   ((Run_statistics_section cancelledEnv (exampleCfg [⟨"127.0.0.1", true⟩] 0 true) 1
      cancelledOutcome (by decide)).2.1 (by decide)).1,
   by decide⟩

/-! ## Theorems: the waits between rounds -/

theorem marksOf_append (t1 t2 : List Event) : marksOf (t1 ++ t2) = marksOf t1 ++ marksOf t2 := by
  simp [marksOf, List.filterMap_append]

/-- Without cancellation the inner loop adds to the schedule one report per address, with
the number of the round. -/
theorem runRound_marks (env : Env) (cfg : Config) (pingOpts : GoMap PingOptions)
    (singleIP : Bool) (maxIPLen : Int) (attempt : Nat) (hd : ∀ m, env.done m = false)
    (l : List IP) :
    ∀ (idx : Nat) (st : RunState), AllPresent st.stats l →
      marksOf (runRound env cfg pingOpts singleIP maxIPLen attempt idx l st).2.trace
        = marksOf st.trace ++ l.map (fun ip => Mark.report (attempt : Int) ip.IP) := by
  induction l with
  | nil =>
    intro idx st _
    rw [runRound_nil]
    simp
  | cons ip rest ih =>
    intro idx st hp
    obtain ⟨record, hr⟩ := hp ip (List.mem_cons_self ip rest)
    rw [runRound_cons_probe _ _ _ _ _ _ _ _ _ _ record (hd st.pings) hr]
    have hstep := probe_step_extends env cfg ((mapGet pingOpts ip.IP).getD default) attempt
      (if singleIP then 0 else (idx : Int) + 1) ip.IP maxIPLen
      (App.Ping env st.pings cfg ((mapGet pingOpts ip.IP).getD default)).1
      (App.Ping env st.pings cfg ((mapGet pingOpts ip.IP).getD default)).2 st record
      (hd st.pings) hr rfl
    have hp2 := AllPresent_of_Extends env cfg _ _ rest hstep
      (fun ip2 h2 => hp ip2 (List.mem_cons_of_mem ip h2))
    rw [ih (idx + 1) _ hp2]
    simp [marksOf, ShowCurrent, List.filterMap_append]

/-- One turn of the outer loop without cancellation in front of a probe, when the loop
does not stop at its head: the round adds its reports and then the expected wait to the
schedule; if that wait is made and the context is cancelled during it, the loop returns
nil there; otherwise the loop goes on with the next round. -/
theorem runLoop_one_round (env : Env) (cfg : Config) (pingOpts : GoMap PingOptions)
    (singleIP : Bool) (maxIPLen : Int) (hd : ∀ m, env.done m = false)
    (fuel attempt : Nat) (st : RunState) (hp : AllPresent st.stats cfg.IPs)
    (hb : (!cfg.Nonstop && decide ((attempt : Int) ≥ cfg.Count)) = false) :
    ∃ st1, AllPresent st1.stats cfg.IPs
      ∧ marksOf st1.trace = marksOf st.trace ++ expectedRoundMarks env cfg (attempt + 1)
      ∧ runLoop env cfg pingOpts singleIP maxIPLen (fuel + 1) attempt st
          = (if (cfg.Nonstop = true ∨ ((attempt + 1 : Nat) : Int) < cfg.Count)
                ∧ env.since (attempt + 1) < cfg.DelayDur
                ∧ env.waitDone (attempt + 1) = true
             then some (RunResult.returned none, st1)
             else runLoop env cfg pingOpts singleIP maxIPLen fuel (attempt + 1) st1) := by
  rw [runLoop_round _ _ _ _ _ _ _ _ hb]
  obtain ⟨q1, _, _⟩ :=
    runRound_noCancel env cfg pingOpts singleIP maxIPLen (attempt + 1) hd cfg.IPs 0 st hp
  have q2 := runRound_marks env cfg pingOpts singleIP maxIPLen (attempt + 1) hd cfg.IPs 0 st hp
  obtain ⟨_, r2, _, _⟩ :=
    runRound_extends env cfg pingOpts singleIP maxIPLen (attempt + 1) cfg.IPs 0 st hp
  cases hrr : runRound env cfg pingOpts singleIP maxIPLen (attempt + 1) 0 cfg.IPs st with
  | mk e st1 =>
    rw [hrr] at q1 q2 r2
    simp only [] at q1 q2 r2
    subst q1
    simp only []
    have hp1 := AllPresent_of_Extends env cfg st st1 cfg.IPs r2 hp
    by_cases c1 : cfg.Nonstop = true ∨ ((attempt + 1 : Nat) : Int) < cfg.Count
    · have c1b : (cfg.Nonstop || decide (((attempt + 1 : Nat) : Int) < cfg.Count)) = true := by
        rcases c1 with h | h
        · rw [h]
          rfl
        · rw [decide_eq_true h]
          exact Bool.or_true _
      rw [if_pos c1b]
      by_cases c2 : env.since (attempt + 1) < cfg.DelayDur
      · have hw := wait_step_extends env cfg st1 (cfg.DelayDur - env.since (attempt + 1))
        rw [if_pos c2]
        refine ⟨{ st1 with trace := st1.trace
            ++ [Event.wait (cfg.DelayDur - env.since (attempt + 1))] },
          AllPresent_of_Extends env cfg _ _ cfg.IPs hw hp1, ?_, ?_⟩
        · simp only []
          rw [marksOf_append, q2, expectedRoundMarks, expectedWait, if_pos ⟨c1, c2⟩,
            List.append_assoc]
          rfl
        · by_cases c3 : env.waitDone (attempt + 1) = true
          · rw [if_pos c3, if_pos ⟨c1, c2, c3⟩]
          · rw [if_neg c3, if_neg (fun h => c3 h.2.2)]
      · rw [if_neg c2]
        refine ⟨st1, hp1, ?_, ?_⟩
        · rw [q2, expectedRoundMarks, expectedWait, if_neg (fun h => c2 h.2), List.append_nil]
        · rw [if_neg (fun h => c2 h.2.1)]
    · have c1b : ¬ ((cfg.Nonstop || decide (((attempt + 1 : Nat) : Int) < cfg.Count)) = true) := by
        intro h
        rcases Bool.or_eq_true_iff.mp h with h1 | h1
        · exact c1 (Or.inl h1)
        · exact c1 (Or.inr (of_decide_eq_true h1))
      rw [if_neg c1b]
      refine ⟨st1, hp1, ?_, ?_⟩
      · rw [q2, expectedRoundMarks, expectedWait, if_neg (fun h => c1 h.1), List.append_nil]
      · rw [if_neg (fun h => c1 h.1)]

theorem ShowBanner_marks (cfg : Config) : marksOf (ShowBanner cfg) = [] := by
  rw [marksOf, List.filterMap_eq_nil_iff]
  intro ev hev
  simp only [ShowBanner, List.mem_append, List.mem_singleton, List.mem_map] at hev
  rcases hev with (h | ⟨ip, _, h⟩) | h
  · rw [h]
  · rw [← h]
  · split_ifs at h
    · simp at h
      rw [h]
    · simp at h

theorem ShowStats_marks (cfg : Config) (m : StatsMap) : marksOf (ShowStats cfg m) = [] := by
  by_cases h : mapLen m = 0
  · rw [ShowStats_of_empty cfg m h]
    rfl
  · rw [ShowStats_of_nonempty cfg m h, marksOf, List.filterMap_cons, List.filterMap_cons]
    simp only []
    rw [List.filterMap_eq_nil_iff]
    intro ev hev
    obtain ⟨ip, _, hip⟩ := List.mem_filterMap.mp hev
    cases hs : statsAt m ip.IP with
    | none => rw [hs] at hip; simp at hip
    | some st =>
      rw [hs] at hip
      simp only [] at hip
      split_ifs at hip
      injection hip with hip
      rw [← hip]

/-- A counted run without cancellation: the loop returns nil and the schedule it adds is
that of the rounds still to go, in order. -/
theorem runLoop_schedule_counted (env : Env) (cfg : Config) (pingOpts : GoMap PingOptions)
    (singleIP : Bool) (maxIPLen : Int) (N : Nat) (hNon : cfg.Nonstop = false)
    (hC : cfg.Count = N) (hd : ∀ m, env.done m = false) (hw : ∀ r, env.waitDone r = false) :
    ∀ (rounds attempt fuel : Nat) (st : RunState),
      attempt + rounds = N → rounds < fuel → AllPresent st.stats cfg.IPs →
      ∃ st2, runLoop env cfg pingOpts singleIP maxIPLen fuel attempt st
          = some (RunResult.returned none, st2)
        ∧ marksOf st2.trace = marksOf st.trace
            ++ (List.range' (attempt + 1) rounds).flatMap (expectedRoundMarks env cfg) := by
  intro rounds
  induction rounds with
  | zero =>
    intro attempt fuel st ha hf _
    obtain ⟨f, rfl⟩ : ∃ f, fuel = f + 1 := ⟨fuel - 1, by omega⟩
    have hb : (!cfg.Nonstop && decide ((attempt : Int) ≥ cfg.Count)) = true := by
      rw [hNon, hC]
      simp only [Nat.add_zero] at ha
      simp [ha]
    exact ⟨st, runLoop_break _ _ _ _ _ _ _ _ hb, by simp⟩
  | succ rounds ih =>
    intro attempt fuel st ha hf hp
    obtain ⟨f, rfl⟩ : ∃ f, fuel = f + 1 := ⟨fuel - 1, by omega⟩
    have hb : (!cfg.Nonstop && decide ((attempt : Int) ≥ cfg.Count)) = false := by
      rw [hNon, hC]
      have : ¬ ((N : Int) ≤ (attempt : Int)) := by omega
      simp [this]
    obtain ⟨st1, hp1, m1, e1⟩ :=
      runLoop_one_round env cfg pingOpts singleIP maxIPLen hd f attempt st hp hb
    rw [e1, if_neg (fun h => by rw [hw] at h; exact absurd h.2.2 (by simp))]
    obtain ⟨st2, j1, j2⟩ := ih (attempt + 1) f st1 (by omega) (by omega) hp1
    refine ⟨st2, j1, ?_⟩
    rw [j2, m1, List.range'_succ, List.flatMap_cons, List.append_assoc]

/-- A run in which the context is cancelled during the wait after round `R`, and not
before: the loop returns nil there, and the schedule it adds is that of the rounds up to
`R`, the last of them ending with its wait. -/
theorem runLoop_schedule_cancelled (env : Env) (cfg : Config) (pingOpts : GoMap PingOptions)
    (singleIP : Bool) (maxIPLen : Int) (R : Nat)
    (hcont : cfg.Nonstop = true ∨ (R : Int) < cfg.Count)
    (hsince : env.since R < cfg.DelayDur) (hwR : env.waitDone R = true)
    (hbefore : ∀ r, r < R → env.waitDone r = false) (hd : ∀ m, env.done m = false) :
    ∀ (rounds attempt fuel : Nat) (st : RunState),
      attempt + rounds + 1 = R → rounds < fuel → AllPresent st.stats cfg.IPs →
      ∃ st2, runLoop env cfg pingOpts singleIP maxIPLen fuel attempt st
          = some (RunResult.returned none, st2)
        ∧ marksOf st2.trace = marksOf st.trace
            ++ (List.range' (attempt + 1) (rounds + 1)).flatMap
                (expectedRoundMarks env cfg) := by
  intro rounds
  induction rounds with
  | zero =>
    intro attempt fuel st ha hf hp
    obtain ⟨f, rfl⟩ : ∃ f, fuel = f + 1 := ⟨fuel - 1, by omega⟩
    have hR : attempt + 1 = R := by omega
    have hb : (!cfg.Nonstop && decide ((attempt : Int) ≥ cfg.Count)) = false := by
      rcases hcont with h | h
      · rw [h]
        rfl
      · have : ¬ (cfg.Count ≤ (attempt : Int)) := by omega
        simp [this]
    obtain ⟨st1, _, m1, e1⟩ :=
      runLoop_one_round env cfg pingOpts singleIP maxIPLen hd f attempt st hp hb
    rw [hR] at e1 m1
    rw [if_pos ⟨hcont, hsince, hwR⟩] at e1
    refine ⟨st1, e1, ?_⟩
    rw [m1, hR]
    simp
  | succ rounds ih =>
    intro attempt fuel st ha hf hp
    obtain ⟨f, rfl⟩ : ∃ f, fuel = f + 1 := ⟨fuel - 1, by omega⟩
    have hb : (!cfg.Nonstop && decide ((attempt : Int) ≥ cfg.Count)) = false := by
      rcases hcont with h | h
      · rw [h]
        rfl
      · have : ¬ (cfg.Count ≤ (attempt : Int)) := by omega
        simp [this]
    obtain ⟨st1, hp1, m1, e1⟩ :=
      runLoop_one_round env cfg pingOpts singleIP maxIPLen hd f attempt st hp hb
    have hnw : env.waitDone (attempt + 1) = false := hbefore (attempt + 1) (by omega)
    rw [e1, if_neg (fun h => by rw [hnw] at h; exact absurd h.2.2 (by simp))]
    obtain ⟨st2, j1, j2⟩ := ih (attempt + 1) f st1 (by omega) (by omega) hp1
    refine ⟨st2, j1, ?_⟩
    rw [j2, m1, List.range'_succ (attempt + 1) (rounds + 1), List.flatMap_cons,
      List.append_assoc]

/-! ## Theorems: the keys of the statistics map -/

theorem mem_keys_mapSet {V : Type} (m : GoMap V) (k k2 : String) (v : V) :
    k2 ∈ (mapSet m k v).map Prod.fst ↔ k2 = k ∨ k2 ∈ m.map Prod.fst := by
  induction m with
  | nil => simp [mapSet]
  | cons kv rest ih =>
    obtain ⟨k1, v1⟩ := kv
    by_cases h1 : k1 = k
    · subst h1
      simp [mapSet]
    · simp only [mapSet, h1, if_false, List.map_cons, List.mem_cons, ih]
      tauto

theorem nodup_keys_mapSet {V : Type} (m : GoMap V) (k : String) (v : V)
    (h : (m.map Prod.fst).Nodup) : ((mapSet m k v).map Prod.fst).Nodup := by
  induction m with
  | nil => simp [mapSet]
  | cons kv rest ih =>
    obtain ⟨k1, v1⟩ := kv
    rw [List.map_cons, List.nodup_cons] at h
    by_cases h1 : k1 = k
    · subst h1
      simp only [mapSet, if_true, List.map_cons, List.nodup_cons]
      exact h
    · simp only [mapSet, h1, if_false, List.map_cons, List.nodup_cons]
      refine ⟨?_, ih h.2⟩
      rw [mem_keys_mapSet]
      rintro (e | e)
      · exact h1 e
      · exact h.1 e

/-- The keys that the first loop of `Run` leaves in the statistics map: the keys it found
there and the address strings of the list, each once. -/
theorem setup_keys (cfg : Config) (l : List IP) (s0 : Setup)
    (h0 : (s0.stats.map Prod.fst).Nodup) :
    ((l.foldl (setupStep cfg) s0).stats.map Prod.fst).Nodup
    ∧ ∀ k, k ∈ (l.foldl (setupStep cfg) s0).stats.map Prod.fst
        ↔ k ∈ s0.stats.map Prod.fst ∨ k ∈ l.map (fun ip => ip.IP) := by
  induction l using List.reverseRecOn with
  | nil => simp [h0]
  | append_singleton l x ih =>
    obtain ⟨ih1, ih2⟩ := ih
    rw [List.foldl_append]
    simp only [List.foldl_cons, List.foldl_nil, setupStep]
    refine ⟨nodup_keys_mapSet _ _ _ ih1, ?_⟩
    intro k
    rw [mem_keys_mapSet, ih2]
    simp only [List.map_append, List.map_cons, List.map_nil, List.mem_append,
      List.mem_singleton]
    tauto

/-- The loop of `Run` adds no key to the statistics map and removes none. -/
theorem Run_keys (env : Env) (cfg : Config) (fuel : Nat) (o : RunOutcome)
    (h : App.Run env (NewApp cfg) fuel = some o) :
    o.stats.map Prod.fst
      = (cfg.IPs.foldl (setupStep cfg) ⟨[], [], 0⟩).stats.map Prod.fst := by
  rw [Run_eq] at h
  cases hl : runLoop env cfg (cfg.IPs.foldl (setupStep cfg) ⟨[], [], 0⟩).pingOpts
      (decide (cfg.IPs.length = 1)) (cfg.IPs.foldl (setupStep cfg) ⟨[], [], 0⟩).maxIPLen
      fuel 0
      { stats := (cfg.IPs.foldl (setupStep cfg) ⟨[], [], 0⟩).stats,
        trace := ShowBanner cfg, pings := 0 } with
  | none => rw [hl] at h; simp at h
  | some pr =>
    obtain ⟨res, st⟩ := pr
    rw [hl] at h
    simp only [] at h
    injection h with h
    subst h
    obtain ⟨_, news, _, _, _, a4, _⟩ :=
      runLoop_extends env cfg _ _ _ fuel 0 _ res st (setup_AllPresent cfg) hl
    exact a4

theorem rowsOf_ShowStats (cfg : Config) (m : StatsMap) :
    rowsOf (ShowStats cfg m)
      = cfg.IPs.filterMap (fun ip =>
          match statsAt m ip.IP with
          | none => none
          | some st => if st.Attempts = 0 then none else some st) := by
  by_cases h : mapLen m = 0
  · rw [ShowStats_of_empty cfg m h]
    have hm : m = [] := List.eq_nil_of_length_eq_zero h
    subst hm
    have hr : rowsOf [] = [] := rfl
    rw [hr]
    symm
    rw [List.filterMap_eq_nil_iff]
    intro ip _
    rfl
  · rw [ShowStats_of_nonempty cfg m h, rowsOf, List.filterMap_cons, List.filterMap_cons]
    simp only []
    rw [List.filterMap_filterMap]
    apply List.filterMap_congr
    intro ip _
    cases hs : statsAt m ip.IP with
    | none => rfl
    | some st =>
      simp only [Option.bind]
      by_cases h0 : st.Attempts = 0
      · simp [h0]
      · simp [h0]

/-! ## Theorems: the order of SortIPs -/

theorem char_eq_of_toNat_eq (a b : Char) (h : a.toNat = b.toNat) : a = b := by
  apply Char.ext
  cases a with
  | mk va ha =>
    cases b with
    | mk vb hb =>
      simp only [Char.toNat] at h
      simp only
      exact UInt32.ext h

theorem lessChars_nil_right (a : List Char) : lessChars a [] = false := by
  cases a <;> rfl

theorem lessChars_cons (a b : Char) (as bs : List Char) :
    lessChars (a :: as) (b :: bs)
      = if a.toNat < b.toNat then true
        else if b.toNat < a.toNat then false
        else lessChars as bs := rfl

theorem lessChars_asymm : ∀ (a b : List Char), lessChars a b = true → lessChars b a = false := by
  intro a
  induction a with
  | nil =>
    intro b _
    exact lessChars_nil_right b
  | cons x xs ih =>
    intro b h
    cases b with
    | nil => rw [lessChars_nil_right] at h; exact absurd h (by simp)
    | cons y ys =>
      rw [lessChars_cons] at h ⊢
      by_cases h1 : x.toNat < y.toNat
      · rw [if_neg (by omega), if_pos h1]
      · rw [if_neg h1] at h
        by_cases h2 : y.toNat < x.toNat
        · rw [if_pos h2] at h
          exact absurd h (by simp)
        · rw [if_neg h2] at h
          rw [if_neg h2, if_neg h1]
          exact ih ys h

theorem lessChars_antisymm :
    ∀ (a b : List Char), lessChars a b = false → lessChars b a = false → a = b := by
  intro a
  induction a with
  | nil =>
    intro b h1 _
    cases b with
    | nil => rfl
    | cons y ys => exact absurd h1 (by simp [lessChars])
  | cons x xs ih =>
    intro b h1 h2
    cases b with
    | nil => exact absurd h2 (by simp [lessChars])
    | cons y ys =>
      rw [lessChars_cons] at h1 h2
      by_cases c1 : x.toNat < y.toNat
      · rw [if_pos c1] at h1
        exact absurd h1 (by simp)
      · by_cases c2 : y.toNat < x.toNat
        · rw [if_pos c2] at h2
          exact absurd h2 (by simp)
        · rw [if_neg c1, if_neg c2] at h1
          rw [if_neg c2, if_neg c1] at h2
          have hxy : x = y := char_eq_of_toNat_eq x y (by omega)
          rw [hxy, ih ys h1 h2]

/-- The order "not after" on texts is transitive. -/
theorem lessChars_not_trans :
    ∀ (a b c : List Char), lessChars b a = false → lessChars c b = false →
      lessChars c a = false := by
  intro a
  induction a with
  | nil =>
    intro b c _ _
    exact lessChars_nil_right c
  | cons x xs ih =>
    intro b c h1 h2
    cases b with
    | nil => exact absurd h1 (by simp [lessChars])
    | cons y ys =>
      cases c with
      | nil => exact absurd h2 (by simp [lessChars])
      | cons z zs =>
        rw [lessChars_cons] at h1 h2 ⊢
        by_cases a1 : y.toNat < x.toNat
        · rw [if_pos a1] at h1
          exact absurd h1 (by simp)
        · rw [if_neg a1] at h1
          by_cases a2 : z.toNat < y.toNat
          · rw [if_pos a2] at h2
            exact absurd h2 (by simp)
          · rw [if_neg a2] at h2
            by_cases b1 : x.toNat < y.toNat
            · rw [if_neg (by omega), if_pos (by omega)]
            · rw [if_neg b1] at h1
              by_cases b2 : y.toNat < z.toNat
              · rw [if_neg (by omega), if_pos (by omega)]
              · rw [if_neg b2] at h2
                rw [if_neg (by omega), if_neg (by omega)]
                exact ih ys zs h1 h2

theorem notAfter_total (a b : IP) : notAfter a b ∨ notAfter b a := by
  unfold notAfter lessIP
  cases ha : a.IsIPv4 <;> cases hb : b.IsIPv4 <;> simp
  all_goals
    cases h : lessString b.IP a.IP with
    | false => exact Or.inl rfl
    | true => exact Or.inr (lessChars_asymm _ _ h)

theorem notAfter_trans (a b c : IP) (h1 : notAfter a b) (h2 : notAfter b c) : notAfter a c := by
  unfold notAfter lessIP at *
  cases ha : a.IsIPv4 <;> cases hb : b.IsIPv4 <;> cases hc : c.IsIPv4 <;>
    simp [ha, hb, hc] at h1 h2 ⊢
  all_goals exact lessChars_not_trans _ _ _ h1 h2

theorem notAfter_antisymm (a b : IP) (h1 : notAfter a b) (h2 : notAfter b a) : a = b := by
  unfold notAfter lessIP at *
  obtain ⟨sa, fa⟩ := a
  obtain ⟨sb, fb⟩ := b
  cases fa <;> cases fb <;> simp at h1 h2 ⊢
  all_goals
    have := lessChars_antisymm sa.data sb.data h2 h1
    exact String.ext this

/-- What `notAfter` says of two entries: an IPv6 entry is not followed by an IPv4 entry,
and inside a family the second text is not below the first. -/
theorem notAfter_reads (a b : IP) (h : notAfter a b) :
    (a.IsIPv4 = false → b.IsIPv4 = false)
    ∧ (a.IsIPv4 = b.IsIPv4 → lessString b.IP a.IP = false) := by
  unfold notAfter lessIP at h
  cases ha : a.IsIPv4 <;> cases hb : b.IsIPv4 <;> simp [ha, hb] at h ⊢
  all_goals exact h

/-! ## Theorems: address resolution -/

theorem getIP_of_disallowed (net : NetLib) (cfg : Config) (addr : NetIP)
    (h4 : cfg.AllowIPv4 = false) (h6 : cfg.AllowIPv6 = false) :
    (getIP net cfg addr).2 = false := by
  simp [getIP, getIPv4, getIPv6, h4, h6]

/-- What a found address says of its source: it is marked IPv4 exactly when the source
has a 4-byte form; an IPv4 entry needs `AllowIPv4` and carries the text of the 4-byte
form; an IPv6 entry needs `AllowIPv6` and carries the text of the 16-byte form. -/
theorem getIP_found_reads (net : NetLib) (cfg : Config) (addr : NetIP)
    (h : (getIP net cfg addr).2 = true) :
    ((getIP net cfg addr).1.IsIPv4 = true ↔ (To4 addr).isSome = true)
    ∧ ((getIP net cfg addr).1.IsIPv4 = true →
        cfg.AllowIPv4 = true
        ∧ ∃ v4, To4 addr = some v4 ∧ (getIP net cfg addr).1.IP = net.ipString v4)
    ∧ ((getIP net cfg addr).1.IsIPv4 = false →
        cfg.AllowIPv6 = true
        ∧ ∃ v6, To16 addr = some v6 ∧ (getIP net cfg addr).1.IP = net.ipString v6) := by
  unfold getIP at h ⊢
  by_cases c4 : (getIPv4 net cfg addr).2 = true
  · rw [if_pos c4]
    have hv4 : cfg.AllowIPv4 = true ∧ ∃ v4, To4 addr = some v4
        ∧ (getIPv4 net cfg addr).1 = net.ipString v4 := by
      unfold getIPv4 at c4 ⊢
      cases ha : cfg.AllowIPv4 with
      | false => rw [ha] at c4; simp at c4
      | true =>
        cases ht : To4 addr with
        | none => rw [ha, ht] at c4; simp at c4
        | some v4 => exact ⟨rfl, v4, rfl, by simp⟩
    obtain ⟨a1, v4, a2, a3⟩ := hv4
    refine ⟨?_, ?_, ?_⟩
    · simp [a2]
    · intro _
      exact ⟨a1, v4, a2, a3⟩
    · intro hf
      simp at hf
  · rw [if_neg c4] at h ⊢
    by_cases c6 : (getIPv6 net cfg addr).2 = true
    · rw [if_pos c6]
      have hv6 : cfg.AllowIPv6 = true ∧ (To4 addr).isSome = false
          ∧ ∃ v6, To16 addr = some v6 ∧ (getIPv6 net cfg addr).1 = net.ipString v6 := by
        unfold getIPv6 at c6 ⊢
        cases ha : cfg.AllowIPv6 with
        | false => rw [ha] at c6; simp at c6
        | true =>
          cases ht : (To4 addr).isSome with
          | true => rw [ha, ht] at c6; simp at c6
          | false =>
            cases h16 : To16 addr with
            | none => rw [ha, ht, h16] at c6; simp at c6
            | some v6 => exact ⟨rfl, rfl, v6, rfl, by simp⟩
      obtain ⟨a1, a0, v6, a2, a3⟩ := hv6
      refine ⟨?_, ?_, ?_⟩
      · simp [a0]
      · intro hf
        simp at hf
      · intro _
        exact ⟨a1, v6, a2, a3⟩
    · rw [if_neg c6] at h
      simp at h

/-! ## Theorems: the payload of the probes of a run -/

theorem probeOptsOf_append (t1 t2 : List Event) :
    probeOptsOf (t1 ++ t2) = probeOptsOf t1 ++ probeOptsOf t2 := by
  simp [probeOptsOf, List.filterMap_append]

theorem probesOf_eq_map (t : List Event) :
    probesOf t = (probeOptsOf t).map (fun o => o.Address) := by
  induction t with
  | nil => rfl
  | cons ev t ih =>
    have h1 : probesOf (ev :: t) = probesOf [ev] ++ probesOf t := probesOf_append [ev] t
    have h2 : probeOptsOf (ev :: t) = probeOptsOf [ev] ++ probeOptsOf t :=
      probeOptsOf_append [ev] t
    rw [h1, h2, List.map_append, ih]
    cases ev <;> rfl

theorem probeOptsOf_nil_of_probesOf (t : List Event) (h : probesOf t = []) :
    probeOptsOf t = [] := by
  rw [probesOf_eq_map] at h
  exact List.map_eq_nil_iff.mp h

/-- The probes of the inner loop are made with the options kept for the addresses. -/
theorem runRound_probeOpts (env : Env) (cfg : Config) (pingOpts : GoMap PingOptions)
    (singleIP : Bool) (maxIPLen : Int) (attempt : Nat) (p : List Nat) (l : List IP)
    (hl : ∀ ip ∈ l, ((mapGet pingOpts ip.IP).getD default).Payload = p) :
    ∀ (idx : Nat) (st : RunState), (∀ o ∈ probeOptsOf st.trace, o.Payload = p) →
      ∀ o ∈ probeOptsOf (runRound env cfg pingOpts singleIP maxIPLen attempt idx l st).2.trace,
        o.Payload = p := by
  induction l with
  | nil =>
    intro idx st h
    rw [runRound_nil]
    exact h
  | cons ip rest ih =>
    intro idx st h
    have hip := hl ip (List.mem_cons_self ip rest)
    have ih2 := ih (fun ip2 h2 => hl ip2 (List.mem_cons_of_mem ip h2))
    have hprobe : ∀ (tl : List Event), probeOptsOf tl = [] →
        ∀ o ∈ probeOptsOf (st.trace ++ [Event.probe ((mapGet pingOpts ip.IP).getD default)]
          ++ tl), o.Payload = p := by
      intro tl htl o ho
      have h1 : probeOptsOf [Event.probe ((mapGet pingOpts ip.IP).getD default)]
          = [(mapGet pingOpts ip.IP).getD default] := rfl
      rw [probeOptsOf_append, probeOptsOf_append, h1, htl, List.append_nil] at ho
      rcases List.mem_append.mp ho with hm | hm
      · exact h o hm
      · rw [List.mem_singleton] at hm
        rw [hm]
        exact hip
    cases hd : env.done st.pings with
    | true =>
      rw [runRound_cons_cancel _ _ _ _ _ _ _ _ _ _ hd]
      exact h
    | false =>
      cases hr : statsAt st.stats ip.IP with
      | none =>
        rw [runRound]
        simp only [hd, Bool.false_eq_true, if_false, hr]
        have := hprobe [] rfl
        rw [List.append_nil] at this
        exact this
      | some record =>
        rw [runRound_cons_probe _ _ _ _ _ _ _ _ _ _ record hd hr]
        exact ih2 (idx + 1) _ (hprobe _ rfl)

/-- The probes of the outer loop are made with the options kept for the addresses. -/
theorem runLoop_probeOpts (env : Env) (cfg : Config) (pingOpts : GoMap PingOptions)
    (singleIP : Bool) (maxIPLen : Int) (p : List Nat)
    (hl : ∀ ip ∈ cfg.IPs, ((mapGet pingOpts ip.IP).getD default).Payload = p) :
    ∀ (fuel attempt : Nat) (st : RunState) (res : RunResult) (st2 : RunState),
      (∀ o ∈ probeOptsOf st.trace, o.Payload = p) →
      runLoop env cfg pingOpts singleIP maxIPLen fuel attempt st = some (res, st2) →
      ∀ o ∈ probeOptsOf st2.trace, o.Payload = p := by
  intro fuel
  induction fuel with
  | zero =>
    intro attempt st res st2 _ h
    rw [runLoop_zero] at h
    exact absurd h (by simp)
  | succ fuel ih =>
    intro attempt st res st2 hp h
    cases hb : (!cfg.Nonstop && decide ((attempt : Int) ≥ cfg.Count)) with
    | true =>
      rw [runLoop_break _ _ _ _ _ _ _ _ hb] at h
      injection h with h
      injection h with h1 h2
      subst h1 h2
      exact hp
    | false =>
      rw [runLoop_round _ _ _ _ _ _ _ _ hb] at h
      have r2 := runRound_probeOpts env cfg pingOpts singleIP maxIPLen (attempt + 1) p cfg.IPs
        hl 0 st hp
      cases hrr : runRound env cfg pingOpts singleIP maxIPLen (attempt + 1) 0 cfg.IPs st with
      | mk e st1 =>
        rw [hrr] at h r2
        simp only [] at r2
        have hw : ∀ w, ∀ o ∈ probeOptsOf (st1.trace ++ [Event.wait w]), o.Payload = p := by
          intro w o ho
          have h1 : probeOptsOf [Event.wait w] = [] := rfl
          rw [probeOptsOf_append, h1, List.append_nil] at ho
          exact r2 o ho
        cases e with
        | nilStats =>
          simp only [] at h
          injection h with h
          injection h with h1 h2
          subst h1 h2
          exact r2
        | cancelled =>
          simp only [] at h
          injection h with h
          injection h with h1 h2
          subst h1 h2
          exact r2
        | completed =>
          simp only [] at h
          split_ifs at h with c1 c2 c3
          · injection h with h
            injection h with h1 h2
            subst h1 h2
            exact hw _
          · exact ih (attempt + 1) _ res st2 (hw _) h
          · exact ih (attempt + 1) _ res st2 r2 h
          · exact ih (attempt + 1) _ res st2 r2 h

/-- Every probe of a run is made with the payload of the config. -/
theorem Run_probeOpts (env : Env) (cfg : Config) (fuel : Nat) (o : RunOutcome)
    (h : App.Run env (NewApp cfg) fuel = some o) :
    ∀ opts ∈ probeOptsOf o.trace, opts.Payload = cfg.UDPPayload := by
  rw [Run_eq] at h
  have hl : ∀ ip ∈ cfg.IPs,
      ((mapGet (cfg.IPs.foldl (setupStep cfg) ⟨[], [], 0⟩).pingOpts ip.IP).getD default).Payload
        = cfg.UDPPayload := by
    intro ip hip
    rw [(setup_foldl_spec cfg cfg.IPs ⟨[], [], 0⟩).2.1 ip hip]
    rfl
  have hb : ∀ o ∈ probeOptsOf (ShowBanner cfg), o.Payload = cfg.UDPPayload := by
    intro o ho
    rw [probeOptsOf_nil_of_probesOf _ (ShowBanner_reads cfg).1] at ho
    simp at ho
  cases hrl : runLoop env cfg (cfg.IPs.foldl (setupStep cfg) ⟨[], [], 0⟩).pingOpts
      (decide (cfg.IPs.length = 1)) (cfg.IPs.foldl (setupStep cfg) ⟨[], [], 0⟩).maxIPLen fuel 0
      { stats := (cfg.IPs.foldl (setupStep cfg) ⟨[], [], 0⟩).stats,
        trace := ShowBanner cfg, pings := 0 } with
  | none =>
    rw [hrl] at h
    simp at h
  | some rs =>
    obtain ⟨res, st⟩ := rs
    rw [hrl] at h
    simp only [Option.some.injEq] at h
    have hst := runLoop_probeOpts env cfg _ _ _ cfg.UDPPayload hl fuel 0 _ res st hb hrl
    intro opts ho
    rw [← h] at ho
    simp only [] at ho
    rw [probeOptsOf_append, probeOptsOf_nil_of_probesOf _ (ShowStats_reads cfg st.stats).1,
      List.append_nil] at ho
    exact hst opts ho

/-- With a non-empty payload `PingUDP` passes its payload test and dials. -/
theorem PingUDP_ops_of_payload (env : Env) (n : Nat) (opts : PingOptions)
    (h : opts.Payload ≠ []) : (PingUDP env n opts).ops ≠ [] := by
  have hlen : ¬ opts.Payload.length = 0 := fun e => h (List.length_eq_zero.mp e)
  unfold PingUDP
  rw [if_neg hlen]
  simp only []
  repeat' split
  all_goals simp

/-! ## Theorems: the command line -/

theorem decodePairs_ne_nil (cs : List Char) (b : List Nat) (h : decodePairs cs = some b)
    (hne : cs ≠ []) : b ≠ [] := by
  match cs, h, hne with
  | [], _, hne => exact absurd rfl hne
  | [_], h, _ => simp [decodePairs] at h
  | p :: q :: rest, h, _ =>
    rw [decodePairs] at h
    split at h
    · injection h with h
      rw [← h]
      simp
    · simp at h

/-- What `Validate` leaves of a config when it returns nil: the protocol and the payload
are untouched, and a UDP config has a payload text or a payload. -/
theorem Validate_ok (net : NetLib) (cfg : Config) (h : (Validate net cfg).err = none) :
    (Validate net cfg).cfg.Proto = cfg.Proto
    ∧ (Validate net cfg).cfg.UDPPayloadHex = cfg.UDPPayloadHex
    ∧ (Validate net cfg).cfg.UDPPayload = cfg.UDPPayload
    ∧ ¬ (cfg.IsUDP = true ∧ cfg.UDPPayloadHex = "" ∧ cfg.UDPPayload.length = 0) := by
  unfold Validate at h ⊢
  split_ifs at h ⊢ with c1 c2 c3 c4 c5 c6
  split at h
  · simp at h
  · exact ⟨rfl, rfl, rfl, c6⟩

theorem choosePreset_UDPPayload (fl : Flags) (cfg cfg2 : Config)
    (h : choosePreset fl cfg = Except.ok cfg2) : cfg2.UDPPayload = cfg.UDPPayload := by
  unfold choosePreset at h
  simp only [] at h
  split_ifs at h <;> injection h with h <;> rw [← h]

theorem applyPreset_UDPPayload (cfg cfg2 : Config) (port port2 : String)
    (h : applyPreset cfg port = Except.ok (port2, cfg2)) :
    cfg2.UDPPayload = cfg.UDPPayload := by
  unfold applyPreset at h
  by_cases hp : cfg.Preset ≠ ""
  · rw [if_pos hp] at h
    cases hg : GetPreset cfg.Preset with
    | none =>
      rw [hg] at h
      simp at h
    | some pr =>
      rw [hg] at h
      simp only [Except.ok.injEq, Prod.mk.injEq] at h
      rw [← h.2]
      split_ifs <;> rfl
  · rw [if_neg hp] at h
    simp only [Except.ok.injEq, Prod.mk.injEq] at h
    rw [← h.2]

theorem positionalPayload_UDPPayload (cfg : Config) (args : List String) (b : Bool) :
    (positionalPayload cfg args b).UDPPayload = cfg.UDPPayload := by
  unfold positionalPayload
  simp only []
  split_ifs <;> rfl

theorem parseArgs_UDPPayload (fl : Flags) (cfg cfg2 : Config)
    (h : parseArgs fl cfg = Except.ok cfg2) : cfg2.UDPPayload = cfg.UDPPayload := by
  unfold parseArgs at h
  split at h
  · injection h with h
    rw [h]
  · split at h
    · simp at h
    · rename_i cfg3 h3
      split at h
      · simp at h
      · rename_i port cfg4 h4
        injection h with h
        rw [← h]
        simp only []
        rw [positionalPayload_UDPPayload, applyPreset_UDPPayload _ _ _ _ h4,
          choosePreset_UDPPayload _ _ _ h3]

theorem flagsConfig_UDPPayload (fl : Flags) : (flagsConfig fl).UDPPayload = [] := by
  unfold flagsConfig
  simp only []
  split_ifs <;> rfl

/-- The end of `parseWith` on a config without payload bytes: when it returns a UDP config
and nil, the payload is the decoding of the payload text and is not empty. -/
theorem finishParse_UDP (net : NetLib) (cfg0 cfg : Config) (h0 : cfg0.UDPPayload = [])
    (h : finishParse net cfg0 = (some cfg, none)) (hu : cfg.Proto = UDP) :
    cfg.UDPPayload ≠ [] ∧ hexDecodeString cfg.UDPPayloadHex = some cfg.UDPPayload := by
  have htu : ¬ TCP = UDP := by decide
  unfold finishParse at h
  cases hdec : decodePayload (defaultProto cfg0) with
  | none =>
    rw [hdec] at h
    simp at h
  | some cfg1 =>
    rw [hdec] at h
    simp only [Prod.mk.injEq, Option.some.injEq] at h
    obtain ⟨hc, hv⟩ := h
    obtain ⟨v1, v2, v3, v4⟩ := Validate_ok net _ hv
    rw [hc] at v1 v2 v3
    have s1 : (setDurations (clearPayload cfg1)).Proto = (clearPayload cfg1).Proto := rfl
    have s2 : (setDurations (clearPayload cfg1)).UDPPayloadHex
        = (clearPayload cfg1).UDPPayloadHex := rfl
    have s3 : (setDurations (clearPayload cfg1)).UDPPayload
        = (clearPayload cfg1).UDPPayload := rfl
    have s4 : (setDurations (clearPayload cfg1)).IsUDP = (clearPayload cfg1).IsUDP := rfl
    rw [s1] at v1
    rw [s2] at v2
    rw [s3] at v3
    rw [s2, s3, s4] at v4
    have hp1 : cfg1.Proto = UDP := by
      by_cases hq : cfg1.Proto = UDP
      · exact hq
      · have hcl : (clearPayload cfg1).Proto = cfg1.Proto := by
          unfold clearPayload
          split_ifs <;> rfl
        rw [hcl, hu] at v1
        exact v1.symm
    have hcl : clearPayload cfg1 = cfg1 := by
      unfold clearPayload
      rw [if_neg (fun hn => hn hp1)]
    rw [hcl] at v2 v3 v4
    rw [v2, v3]
    have hd0 : (defaultProto cfg0).UDPPayload = [] := by
      unfold defaultProto
      split_ifs
      · exact h0
      · exact h0
    unfold decodePayload at hdec
    by_cases hx : (defaultProto cfg0).Proto = UDP ∧ (defaultProto cfg0).UDPPayloadHex ≠ ""
    · rw [if_pos hx] at hdec
      cases hh : hexDecodeString (defaultProto cfg0).UDPPayloadHex with
      | none =>
        rw [hh] at hdec
        simp at hdec
      | some b =>
        rw [hh] at hdec
        simp only [Option.some.injEq] at hdec
        rw [← hdec]
        simp only []
        refine ⟨?_, hh⟩
        apply decodePairs_ne_nil _ b hh
        intro hnil
        apply hx.2
        cases hs : (defaultProto cfg0).UDPPayloadHex with
        | mk data =>
          rw [hs] at hnil
          simp only [] at hnil
          rw [hnil]
    · rw [if_neg hx] at hdec
      simp only [Option.some.injEq] at hdec
      exfalso
      apply v4
      rw [← hdec] at hp1 ⊢
      refine ⟨by simp [Config.IsUDP, hp1], ?_, by rw [hd0]; rfl⟩
      by_contra hne
      exact hx ⟨hp1, hne⟩

/-- A payload text that is not valid hexadecimal, under UDP, ends `parseWith` with the
error of the decoding. -/
theorem finishParse_invalid (net : NetLib) (cfg0 : Config) (hp : cfg0.Proto = UDP)
    (hne : cfg0.UDPPayloadHex ≠ "") (hd : hexDecodeString cfg0.UDPPayloadHex = none) :
    finishParse net cfg0 = (none, some "invalid UDP payload, should be hex string") := by
  have h1 : defaultProto cfg0 = cfg0 := by
    unfold defaultProto
    rw [if_neg (fun hn => hn.1 hp)]
  unfold finishParse decodePayload
  rw [h1, if_pos ⟨hp, hne⟩, hd]

/-- What holds of the map for every address list: `NewApp` makes an empty map, and
whenever `Run` ends it has returned nil without meeting a nil record, and the map holds a
non-nil record for every address of `cfg.IPs`, under the address string; its keys are
exactly the address strings of `cfg.IPs`, each key once; so the number of records is the
number of configured addresses when their strings are pairwise distinct. -/
theorem Run_records_keys (env : Env) (cfg : Config) (fuel : Nat) (o : RunOutcome)
    (h : App.Run env (NewApp cfg) fuel = some o) :
    (NewApp cfg).stats = []
    ∧ o.result = RunResult.returned none
    ∧ (∀ ip ∈ cfg.IPs, ∃ st, statsAt o.stats ip.IP = some st)
    ∧ (∀ k, k ∈ o.stats.map Prod.fst ↔ k ∈ cfg.IPs.map (fun ip => ip.IP))
    ∧ (o.stats.map Prod.fst).Nodup
    ∧ mapLen o.stats = ((cfg.IPs.map (fun ip => ip.IP)).dedup).length
    ∧ ((cfg.IPs.map (fun ip => ip.IP)).Nodup → mapLen o.stats = cfg.IPs.length) := by
  obtain ⟨r1, _, _, _, _, r6, _, _⟩ := Run_spec env cfg fuel o h
  have hk := Run_keys env cfg fuel o h
  obtain ⟨k1, k2⟩ := setup_keys cfg cfg.IPs ⟨[], [], 0⟩ (by simp)
  have hmem : ∀ k, k ∈ o.stats.map Prod.fst ↔ k ∈ cfg.IPs.map (fun ip => ip.IP) := by
    intro k
    rw [hk, k2]
    simp
  have hnd : (o.stats.map Prod.fst).Nodup := by
    rw [hk]
    exact k1
  have hlen : mapLen o.stats = ((cfg.IPs.map (fun ip => ip.IP)).dedup).length := by
    have hperm : (o.stats.map Prod.fst).Perm ((cfg.IPs.map (fun ip => ip.IP)).dedup) :=
      (List.perm_ext_iff_of_nodup hnd (List.nodup_dedup _)).mpr
        (fun a => by rw [hmem, List.mem_dedup])
    have := hperm.length_eq
    simpa [mapLen] using this
  refine ⟨rfl, r1, ?_, hmem, hnd, hlen, ?_⟩
  · intro ip hip
    obtain ⟨ip2, _, _, hst⟩ := r6 ip hip
    exact ⟨_, hst⟩
  · intro hdist
    rw [hlen, hdist.dedup, List.length_map]

/-! ## Claims C11 to C20 -/

/-- C11: in a run without cancellation in front of a probe, the schedule (reports and
waits, in order) is that of the specification. After a round `r` with another round to
come and an elapsed time `e` below `DelayDur`, the scheduler waits exactly `DelayDur - e`;
it does not wait when `e ≥ DelayDur`, nor after the last round of a counted run. A counted
run without cancellation returns nil with the schedule of the rounds 1 to `N`. If the
context is cancelled during the wait after round `R` (and not before), `Run` returns nil
with the schedule of the rounds 1 to `R`, and that wait is the last thing in it: no
further round is started. -/
theorem Run_waits_between_rounds (env : Env) (cfg : Config) (hd : ∀ m, env.done m = false) :
    (∀ r : Nat, cfg.Nonstop = true ∨ (r : Int) < cfg.Count → env.since r < cfg.DelayDur →
        expectedWait env cfg r = [Mark.wait (cfg.DelayDur - env.since r)])
    ∧ (∀ r : Nat, cfg.DelayDur ≤ env.since r → expectedWait env cfg r = [])
    ∧ (∀ r : Nat, cfg.Nonstop = false → cfg.Count ≤ (r : Int) → expectedWait env cfg r = [])
    ∧ (∀ N fuel : Nat, cfg.Nonstop = false → cfg.Count = N →
        (∀ r, env.waitDone r = false) → N < fuel →
        ∃ o, App.Run env (NewApp cfg) fuel = some o
          ∧ o.result = RunResult.returned none
          ∧ marksOf o.trace = (List.range' 1 N).flatMap (expectedRoundMarks env cfg))
    ∧ (∀ R fuel : Nat, 0 < R → cfg.Nonstop = true ∨ (R : Int) < cfg.Count →
        env.since R < cfg.DelayDur → env.waitDone R = true →
        (∀ r, r < R → env.waitDone r = false) → R ≤ fuel →
        ∃ o, App.Run env (NewApp cfg) fuel = some o
          ∧ o.result = RunResult.returned none
          ∧ marksOf o.trace = (List.range' 1 R).flatMap (expectedRoundMarks env cfg)
          ∧ (marksOf o.trace).getLast? = some (Mark.wait (cfg.DelayDur - env.since R))) := by
  refine ⟨?_, ?_, ?_, ?_, ?_⟩
  · intro r h1 h2
    rw [expectedWait, if_pos ⟨h1, h2⟩]
  · intro r h
    rw [expectedWait, if_neg (fun hh => by omega)]
  · intro r h1 h2
    rw [expectedWait, if_neg]
    rintro ⟨h3 | h3, _⟩
    · rw [h1] at h3
      exact absurd h3 (by simp)
    · omega
  · intro N fuel hNon hC hw hf
    obtain ⟨st2, j1, j2⟩ := runLoop_schedule_counted env cfg
      (cfg.IPs.foldl (setupStep cfg) ⟨[], [], 0⟩).pingOpts (decide (cfg.IPs.length = 1))
      (cfg.IPs.foldl (setupStep cfg) ⟨[], [], 0⟩).maxIPLen N hNon hC hd hw N 0 fuel
      { stats := (cfg.IPs.foldl (setupStep cfg) ⟨[], [], 0⟩).stats,
        trace := ShowBanner cfg, pings := 0 }
      (by omega) hf (setup_AllPresent cfg)
    refine ⟨{ result := RunResult.returned none, stats := st2.stats,
              trace := st2.trace ++ ShowStats cfg st2.stats }, ?_, rfl, ?_⟩
    · rw [Run_eq, j1]
    · simp only []
      rw [marksOf_append, j2, ShowBanner_marks, ShowStats_marks]
      simp only [List.nil_append, List.append_nil, Nat.zero_add]
  · intro R fuel hR hcont hsince hwR hbefore hf
    obtain ⟨st2, j1, j2⟩ := runLoop_schedule_cancelled env cfg
      (cfg.IPs.foldl (setupStep cfg) ⟨[], [], 0⟩).pingOpts (decide (cfg.IPs.length = 1))
      (cfg.IPs.foldl (setupStep cfg) ⟨[], [], 0⟩).maxIPLen R hcont hsince hwR hbefore hd
      (R - 1) 0 fuel
      { stats := (cfg.IPs.foldl (setupStep cfg) ⟨[], [], 0⟩).stats,
        trace := ShowBanner cfg, pings := 0 }
      (by omega) (by omega) (setup_AllPresent cfg)
    have hR1 : R - 1 + 1 = R := by omega
    have hmarks : marksOf (st2.trace ++ ShowStats cfg st2.stats)
        = (List.range' 1 R).flatMap (expectedRoundMarks env cfg) := by
      rw [marksOf_append, j2, ShowBanner_marks, ShowStats_marks, hR1]
      simp only [List.nil_append, List.append_nil, Nat.zero_add]
    refine ⟨{ result := RunResult.returned none, stats := st2.stats,
              trace := st2.trace ++ ShowStats cfg st2.stats }, ?_, rfl, hmarks, ?_⟩
    · rw [Run_eq, j1]
    · simp only []
      rw [hmarks]
      have hsplit : List.range' 1 R = List.range' 1 (R - 1) ++ [R] := by
        have := @List.range'_concat 1 1 (R - 1)
        rw [hR1] at this
        rw [this]
        congr 2
        omega
      rw [hsplit, List.flatMap_append]
      simp only [List.flatMap_cons, List.flatMap_nil, List.append_nil]
      rw [expectedRoundMarks, expectedWait, if_pos ⟨hcont, hsince⟩, ← List.append_assoc]
      exact List.getLast?_concat _

theorem Run_waits_between_rounds_witness :
    (∀ m, refusingEnv.done m = false)
    ∧ (∃ o, App.Run refusingEnv (NewApp (exampleCfg [⟨"127.0.0.1", true⟩] 2 false)) 3 = some o
        ∧ o.result = RunResult.returned none
        ∧ marksOf o.trace = (List.range' 1 2).flatMap
            (expectedRoundMarks refusingEnv (exampleCfg [⟨"127.0.0.1", true⟩] 2 false)))
    ∧ (List.range' 1 2).flatMap
          (expectedRoundMarks refusingEnv (exampleCfg [⟨"127.0.0.1", true⟩] 2 false))
        = [Mark.report 1 "127.0.0.1", Mark.wait 998000000, Mark.report 2 "127.0.0.1"] :=
  ⟨fun _ => rfl,
   (Run_waits_between_rounds refusingEnv (exampleCfg [⟨"127.0.0.1", true⟩] 2 false)
      (fun _ => rfl)).2.2.2.1 2 3 rfl rfl (fun _ => rfl) (by decide),
   by decide⟩

/-- C12: for every options value whose payload is empty, whatever the address, the
context and the timeout are, `PingUDP` returns the duration 0 with the error
`udp payload required` and makes no network call. -/
theorem PingUDP_empty_payload (env : Env) (n : Nat) (opts : PingOptions)
    (h : opts.Payload.length = 0) :
    PingUDP env n opts = { duration := 0, err := some "udp payload required", ops := [] }
    ∧ (PingUDP env n opts).duration = 0
    ∧ (PingUDP env n opts).err.isSome = true
    ∧ (PingUDP env n opts).ops = [] := by
  have e : PingUDP env n opts
      = { duration := 0, err := some "udp payload required", ops := [] } := by
    rw [PingUDP, if_pos h]
  rw [e]
  exact ⟨rfl, rfl, rfl, rfl⟩

theorem PingUDP_empty_payload_witness :
    ({ Config := exampleCfg [] 0 true, Address := "127.0.0.1:53", Payload := [] }
        : PingOptions).Payload.length = 0
    ∧ PingUDP refusingEnv 0
        { Config := exampleCfg [] 0 true, Address := "127.0.0.1:53", Payload := [] }
      = { duration := 0, err := some "udp payload required", ops := [] } :=
  ⟨rfl, (PingUDP_empty_payload refusingEnv 0
      { Config := exampleCfg [] 0 true, Address := "127.0.0.1:53", Payload := [] } rfl).1⟩

/-- C13: whenever `parseWith` returns a config with protocol UDP and a nil error, the
payload of the config is not empty and is the hexadecimal decoding of its payload text;
every probe of a run started from that config is a `PingUDP` made with that payload, and it
passes the payload test (it goes on to dial). And whenever `parseArgs` leaves protocol
UDP with a payload text that is not empty and not valid hexadecimal, `parseWith` returns
no config and the error `invalid UDP payload, should be hex string`. -/
theorem parseWith_UDP_payload (net : NetLib) (parsed : Except String Flags) (cfg : Config)
    (h : parseWith net parsed = (some cfg, none)) (hu : cfg.Proto = UDP) :
    cfg.UDPPayload ≠ []
    ∧ hexDecodeString cfg.UDPPayloadHex = some cfg.UDPPayload
    ∧ (∀ (env : Env) (fuel : Nat) (o : RunOutcome), App.Run env (NewApp cfg) fuel = some o →
        ∀ opts ∈ probeOptsOf o.trace, opts.Payload = cfg.UDPPayload
          ∧ ∀ n, App.Ping env n cfg opts
                  = ((PingUDP env n opts).duration, (PingUDP env n opts).err)
              ∧ (PingUDP env n opts).ops ≠ [])
    ∧ (∀ (fl : Flags) (cfg1 : Config), (fl.udp && fl.tcp) = false →
        parseArgs fl (flagsConfig fl) = Except.ok cfg1 → cfg1.Proto = UDP →
        cfg1.UDPPayloadHex ≠ "" → hexDecodeString cfg1.UDPPayloadHex = none →
        parseWith net (Except.ok fl)
          = (none, some "invalid UDP payload, should be hex string")) := by
  have hmain : cfg.UDPPayload ≠ []
      ∧ hexDecodeString cfg.UDPPayloadHex = some cfg.UDPPayload := by
    unfold parseWith at h
    split at h
    · simp at h
    · rename_i fl
      split_ifs at h with hb
      · simp at h
      · split at h
        · simp at h
        · rename_i cfg1 h1
          have h0 : cfg1.UDPPayload = [] := by
            rw [parseArgs_UDPPayload fl _ cfg1 h1]
            exact flagsConfig_UDPPayload fl
          exact finishParse_UDP net cfg1 cfg h0 h hu
  refine ⟨hmain.1, hmain.2, ?_, ?_⟩
  · intro env fuel o ho opts hopts
    have hpay := Run_probeOpts env cfg fuel o ho opts hopts
    refine ⟨hpay, fun n => ⟨?_, ?_⟩⟩
    · have htcp : cfg.IsTCP = false := by
        rw [Config.IsTCP, hu]
        decide
      rw [App.Ping, htcp]
      simp
    · apply PingUDP_ops_of_payload
      rw [hpay]
      exact hmain.1
  · intro fl cfg1 hb h1 hp hne hd
    unfold parseWith
    simp only [hb, Bool.false_eq_true, if_false, h1]
    exact finishParse_invalid net cfg1 hp hne hd

theorem parseWith_UDP_payload_witness :
    parseWith (literalNet [127, 0, 0, 1]) (Except.ok (udpFlags ["127.0.0.1", "53", "0001"]))
      = (some parsedUdpCfg, none)
    ∧ parsedUdpCfg.Proto = UDP
    ∧ parsedUdpCfg.UDPPayload = [0, 1]
    ∧ hexDecodeString parsedUdpCfg.UDPPayloadHex = some parsedUdpCfg.UDPPayload
    ∧ parseWith (literalNet [127, 0, 0, 1])
        (Except.ok (udpFlags ["example.com:53", "payload"]))
      = (none, some "invalid UDP payload, should be hex string") :=
  ⟨by decide, rfl, rfl,
    (parseWith_UDP_payload (literalNet [127, 0, 0, 1])
      (Except.ok (udpFlags ["127.0.0.1", "53", "0001"])) parsedUdpCfg (by decide) rfl).2.1,
    (parseWith_UDP_payload (literalNet [127, 0, 0, 1])
      (Except.ok (udpFlags ["127.0.0.1", "53", "0001"])) parsedUdpCfg (by decide) rfl).2.2.2
      (udpFlags ["example.com:53", "payload"]) unparsedUdpCfg rfl rfl rfl (by decide)
      (by decide)⟩

/-- C20: when the readings of the clock made during a probe never go down, `PingTCP` and
`PingUDP` return a duration `≥ 0` on every path. `PingTCP` returns the error of the dial
with the reading made after the dial less the reading made at the start, on success and
on failure. `PingUDP` with an empty payload returns the constant 0 with its error and
makes no network call. With a non-empty payload it returns at the first call that fails,
with the error of that call and the time elapsed up to that point: the first reading
made after the failed call less the reading made at the start (reading 1 for the dial,
reading 2 for `SetWriteDeadline` and for `Write`, reading 3 for `SetReadDeadline`); when
none of the four fails it returns what `Read` returns (nil or, for instance, the read
timeout) with reading 3 less the start. So every duration returned with an error, the
empty-payload case apart, is positive as soon as the clock moves between readings. -/
theorem Ping_duration_nonneg (env : Env) (n : Nat) (opts : PingOptions)
    (hmono : ∀ k, env.clock n k ≤ env.clock n (k + 1)) :
    0 ≤ (PingTCP env n opts).duration
    ∧ 0 ≤ (PingUDP env n opts).duration
    ∧ (PingTCP env n opts).duration = env.clock n 1 - env.clock n 0
    ∧ (PingTCP env n opts).err = env.sock n (SockOp.dial TCP opts.Address)
    ∧ (opts.Payload.length = 0 →
        PingUDP env n opts = { duration := 0, err := some "udp payload required", ops := [] })
    ∧ (opts.Payload.length ≠ 0 →
        (∀ e, env.sock n (SockOp.dial UDP opts.Address) = some e →
          PingUDP env n opts
            = { duration := env.clock n 1 - env.clock n 0, err := some e,
                ops := [SockOp.dial UDP opts.Address] })
        ∧ (env.sock n (SockOp.dial UDP opts.Address) = none →
            (∀ e, env.sock n (SockOp.setWriteDeadline (env.clock n 1 + opts.Config.TimeoutDur))
                = some e →
              PingUDP env n opts
                = { duration := env.clock n 2 - env.clock n 0, err := some e,
                    ops := [SockOp.dial UDP opts.Address,
                      SockOp.setWriteDeadline (env.clock n 1 + opts.Config.TimeoutDur),
                      SockOp.close] })
            ∧ (env.sock n (SockOp.setWriteDeadline (env.clock n 1 + opts.Config.TimeoutDur))
                = none →
              (∀ e, env.sock n (SockOp.write opts.Payload) = some e →
                PingUDP env n opts
                  = { duration := env.clock n 2 - env.clock n 0, err := some e,
                      ops := [SockOp.dial UDP opts.Address,
                        SockOp.setWriteDeadline (env.clock n 1 + opts.Config.TimeoutDur),
                        SockOp.write opts.Payload, SockOp.close] })
              ∧ (env.sock n (SockOp.write opts.Payload) = none →
                (∀ e, env.sock n
                    (SockOp.setReadDeadline (env.clock n 2 + opts.Config.TimeoutDur)) = some e →
                  PingUDP env n opts
                    = { duration := env.clock n 3 - env.clock n 0, err := some e,
                        ops := [SockOp.dial UDP opts.Address,
                          SockOp.setWriteDeadline (env.clock n 1 + opts.Config.TimeoutDur),
                          SockOp.write opts.Payload,
                          SockOp.setReadDeadline (env.clock n 2 + opts.Config.TimeoutDur),
                          SockOp.close] })
                ∧ (env.sock n
                    (SockOp.setReadDeadline (env.clock n 2 + opts.Config.TimeoutDur)) = none →
                  PingUDP env n opts
                    = { duration := env.clock n 3 - env.clock n 0,
                        err := env.sock n SockOp.read,
                        ops := [SockOp.dial UDP opts.Address,
                          SockOp.setWriteDeadline (env.clock n 1 + opts.Config.TimeoutDur),
                          SockOp.write opts.Payload,
                          SockOp.setReadDeadline (env.clock n 2 + opts.Config.TimeoutDur),
                          SockOp.read, SockOp.close] })))))
    ∧ ((∀ k, env.clock n k < env.clock n (k + 1)) →
        0 < (PingTCP env n opts).duration
        ∧ (opts.Payload.length ≠ 0 → 0 < (PingUDP env n opts).duration)) := by
  have h01 : env.clock n 0 ≤ env.clock n 1 := hmono 0
  have h12 : env.clock n 1 ≤ env.clock n 2 := hmono 1
  have h23 : env.clock n 2 ≤ env.clock n 3 := hmono 2
  have htcp : (PingTCP env n opts).duration = env.clock n 1 - env.clock n 0 := by
    unfold PingTCP
    simp only []
    split <;> rfl
  have htcpe : (PingTCP env n opts).err = env.sock n (SockOp.dial TCP opts.Address) := by
    unfold PingTCP
    simp only []
    split
    · next e he => rw [he]
    · next he => rw [he]
  have hudp : opts.Payload.length ≠ 0 →
      ∃ k, 1 ≤ k ∧ k ≤ 3
        ∧ (PingUDP env n opts).duration = env.clock n k - env.clock n 0 := by
    intro hne
    unfold PingUDP
    rw [if_neg hne]
    simp only []
    split
    · exact ⟨1, by omega, by omega, rfl⟩
    · split
      · exact ⟨2, by omega, by omega, rfl⟩
      · split
        · exact ⟨2, by omega, by omega, rfl⟩
        · split
          · exact ⟨3, by omega, by omega, rfl⟩
          · exact ⟨3, by omega, by omega, rfl⟩
  have hzero : opts.Payload.length = 0 →
      PingUDP env n opts = { duration := 0, err := some "udp payload required", ops := [] } := by
    intro h0
    rw [PingUDP, if_pos h0]
  refine ⟨by rw [htcp]; omega, ?_, htcp, htcpe, hzero, ?_, ?_⟩
  · by_cases h0 : opts.Payload.length = 0
    · rw [hzero h0]
    · obtain ⟨k, k1, k3, hk⟩ := hudp h0
      rw [hk]
      have hk3 : k = 1 ∨ k = 2 ∨ k = 3 := by omega
      rcases hk3 with e | e | e <;> subst e <;> omega
  · intro hne
    refine ⟨?_, ?_⟩
    · intro e he
      unfold PingUDP
      rw [if_neg hne]
      simp only [he]
    · intro hd
      refine ⟨?_, ?_⟩
      · intro e he
        unfold PingUDP
        rw [if_neg hne]
        simp only [hd, he]
      · intro hw
        refine ⟨?_, ?_⟩
        · intro e he
          unfold PingUDP
          rw [if_neg hne]
          simp only [hd, hw, he]
        · intro hwr
          refine ⟨?_, ?_⟩
          · intro e he
            unfold PingUDP
            rw [if_neg hne]
            simp only [hd, hw, hwr, he]
          · intro hrd
            unfold PingUDP
            rw [if_neg hne]
            simp only [hd, hw, hwr, hrd]
  · intro hstrict
    have s01 : env.clock n 0 < env.clock n 1 := hstrict 0
    have s12 : env.clock n 1 < env.clock n 2 := hstrict 1
    have s23 : env.clock n 2 < env.clock n 3 := hstrict 2
    refine ⟨by rw [htcp]; omega, ?_⟩
    intro h0
    obtain ⟨k, k1, k3, hk⟩ := hudp h0
    rw [hk]
    have hk3 : k = 1 ∨ k = 2 ∨ k = 3 := by omega
    rcases hk3 with e | e | e <;> subst e <;> omega

theorem Ping_duration_nonneg_witness :
    (∀ k, silentEnv.clock 0 k ≤ silentEnv.clock 0 (k + 1))
    ∧ 0 ≤ (PingUDP silentEnv 0
        { Config := parsedUdpCfg, Address := "127.0.0.1:53", Payload := [0, 1] }).duration
    ∧ PingUDP silentEnv 0
        { Config := parsedUdpCfg, Address := "127.0.0.1:53", Payload := [0, 1] }
      = { duration := 1003000000, err := some "i/o timeout",
          ops := [SockOp.dial "udp" "127.0.0.1:53", SockOp.setWriteDeadline 1001000000,
            SockOp.write [0, 1], SockOp.setReadDeadline 1002000000, SockOp.read,
            SockOp.close] }
    ∧ PingUDP refusingEnv 0
        { Config := parsedUdpCfg, Address := "127.0.0.1:53", Payload := [0, 1] }
      = { duration := 1000000, err := some "connection refused",
          ops := [SockOp.dial "udp" "127.0.0.1:53"] }
    ∧ PingTCP refusingEnv 0
        { Config := exampleCfg [] 0 true, Address := "127.0.0.1:80", Payload := [] }
      = { duration := 1000000, err := some "connection refused",
          ops := [SockOp.dial "tcp" "127.0.0.1:80"] } :=
  ⟨fun k => by simp only [silentEnv]; split_ifs <;> push_cast <;> omega,
   (Ping_duration_nonneg silentEnv 0
      { Config := parsedUdpCfg, Address := "127.0.0.1:53", Payload := [0, 1] }
      (fun k => by simp only [silentEnv]; split_ifs <;> push_cast <;> omega)).2.1,
   ((((((Ping_duration_nonneg silentEnv 0
      { Config := parsedUdpCfg, Address := "127.0.0.1:53", Payload := [0, 1] }
      (fun k => by simp only [silentEnv]; split_ifs <;> push_cast <;> omega)).2.2.2.2.2.1
        (by decide)).2 (by decide)).2 (by decide)).2 (by decide)).2 (by decide)).trans
      (by decide),
   (((Ping_duration_nonneg refusingEnv 0
      { Config := parsedUdpCfg, Address := "127.0.0.1:53", Payload := [0, 1] }
      (fun k => by simp only [refusingEnv]; push_cast; omega)).2.2.2.2.2.1
        (by decide)).1 "connection refused" (by decide)).trans (by decide),
   by decide⟩

/-- C18 (the code at the failing input): a host whose lookup gives the address 1.1.1.1
twice passes `Validate` with two entries in `cfg.IPs`; `Run` then ends with one record in
the map for two configured addresses, because both entries have the key `1.1.1.1`. -/
theorem Run_repeated_address_one_record :
    (Validate (lookupNet (Except.ok [[1, 1, 1, 1], [1, 1, 1, 1]]))
        (exampleCfg [] 1 false)).cfg.IPs
      = [⟨"1.1.1.1", true⟩, ⟨"1.1.1.1", true⟩]
    ∧ (App.Run refusingEnv
        (NewApp (exampleCfg [⟨"1.1.1.1", true⟩, ⟨"1.1.1.1", true⟩] 1 false)) 2).map
      (fun o => (o.result, mapLen o.stats, o.stats.map Prod.fst))
      = some (RunResult.returned none, 1, ["1.1.1.1"])
    ∧ (exampleCfg [⟨"1.1.1.1", true⟩, ⟨"1.1.1.1", true⟩] 1 false).IPs.length = 2 := by
  decide

/-- The records that `Run` leaves in the map have an `Attempts` that is not negative. -/
theorem Run_Attempts_nonneg (env : Env) (cfg : Config) (fuel : Nat) (o : RunOutcome)
    (h : App.Run env (NewApp cfg) fuel = some o) :
    ∀ ip ∈ cfg.IPs, ∀ st ∈ statsAt o.stats ip.IP, 0 ≤ st.Attempts := by
  obtain ⟨_, _, _, _, _, r6, _, _⟩ := Run_spec env cfg fuel o h
  intro ip hip st hst
  obtain ⟨ip2, _, _, h2⟩ := r6 ip hip
  rw [h2] at hst
  have hst2 := Option.mem_some_iff.mp hst
  rw [← hst2, (UpdateAll_counters _ _).1]
  have : (zeroStats ip2).Attempts = 0 := rfl
  omega

/-- C19: for every config and every stats map whose records for the addresses of
`cfg.IPs` have an `Attempts` that is a count (not negative), `ShowStats` prints a row for
exactly those entries of `cfg.IPs` whose record in the map is present, non-nil and has
`Attempts > 0`, in the order of `cfg.IPs`, after the title and the column line; an entry
whose record is missing, nil or has zero attempts gives no row; and an empty map gives no
output at all. `ShowStats` is a total function: it ends in each of these cases. -/
theorem ShowStats_rows (cfg : Config) (statsMap : StatsMap)
    (hnn : ∀ ip ∈ cfg.IPs, ∀ st ∈ statsAt statsMap ip.IP, 0 ≤ st.Attempts) :
    rowsOf (ShowStats cfg statsMap)
      = cfg.IPs.filterMap (fun ip =>
          match statsAt statsMap ip.IP with
          | none => none
          | some st => if 0 < st.Attempts then some st else none)
    ∧ (mapLen statsMap ≠ 0 →
        ShowStats cfg statsMap
          = [Event.statsTitle cfg.Host cfg.Proto cfg.Port,
              Event.statsColumns (statsFormat cfg (maxKeyLen statsMap))]
            ++ (rowsOf (ShowStats cfg statsMap)).map
                (fun st => Event.statsRow (statsFormat cfg (maxKeyLen statsMap)) st))
    ∧ (mapLen statsMap = 0 → ShowStats cfg statsMap = [])
    ∧ (∀ ip ∈ cfg.IPs, mapGet statsMap ip.IP = none → statsAt statsMap ip.IP = none)
    ∧ (∀ ip ∈ cfg.IPs, mapGet statsMap ip.IP = some none → statsAt statsMap ip.IP = none) := by
  have hrows : rowsOf (ShowStats cfg statsMap)
      = cfg.IPs.filterMap (fun ip =>
          match statsAt statsMap ip.IP with
          | none => none
          | some st => if 0 < st.Attempts then some st else none) := by
    rw [rowsOf_ShowStats]
    apply List.filterMap_congr
    intro ip hip
    cases hs : statsAt statsMap ip.IP with
    | none => rfl
    | some st =>
      have h0 := hnn ip hip st (by rw [hs]; exact Option.mem_some_iff.mpr rfl)
      simp only []
      by_cases hz : st.Attempts = 0
      · rw [if_pos hz, if_neg (by omega)]
      · rw [if_neg hz, if_pos (by omega)]
  refine ⟨hrows, ?_, ShowStats_of_empty cfg statsMap, ?_, ?_⟩
  · intro hne
    rw [rowsOf_ShowStats]
    unfold ShowStats
    rw [if_neg hne]
    simp only []
    congr 1
    rw [List.map_filterMap]
    apply List.filterMap_congr
    intro ip _
    cases statsAt statsMap ip.IP with
    | none => rfl
    | some st =>
      simp only []
      split_ifs <;> rfl
  · intro ip _ hg
    rw [statsAt, hg]
    rfl
  · intro ip _ hg
    rw [statsAt, hg]
    rfl

theorem ShowStats_rows_witness :
    (∀ ip ∈ mixedCfg.IPs, ∀ st ∈ statsAt mixedStats ip.IP, 0 ≤ st.Attempts)
    ∧ rowsOf (ShowStats mixedCfg mixedStats)
        = [{ IP := ⟨"10.0.0.1", true⟩, Attempts := 2, Connects := 1, Failures := 1,
             Minimum := 10000000, Maximum := 10000000, Total := 10000000 }]
    ∧ ShowStats mixedCfg mixedStats
        = [Event.statsTitle "localhost" "tcp" "80",
           Event.statsColumns "% 9s% 12s% 11s % 15s% 10s %10s  %10s\n",
           Event.statsRow "% 9s% 12s% 11s % 15s% 10s %10s  %10s\n"
             { IP := ⟨"10.0.0.1", true⟩, Attempts := 2, Connects := 1, Failures := 1,
               Minimum := 10000000, Maximum := 10000000, Total := 10000000 }] :=
  ⟨by decide,
   (ShowStats_rows mixedCfg mixedStats (by decide)).1.trans (by decide),
   ((ShowStats_rows mixedCfg mixedStats (by decide)).2.1 (by decide)).trans (by decide)⟩

/-- C14 (the claim fails for a name whose lookup fails): with both families disallowed
and a host whose lookup fails, `GetAddrs` returns the error of the resolver, wrapped, and
not `no addresses found`. -/
theorem GetAddrs_lookup_failure_both_disallowed :
    GetAddrs (lookupNet (Except.error "no such host"))
      { exampleCfg [] 0 true with Host := "nosuch.example", AllowIPv4 := false,
                                  AllowIPv6 := false }
    = { ips := [], err := some "resolve host `nosuch.example`: no such host",
        lookups := ["nosuch.example"] } := by
  decide

/-- C14 (amended): with `AllowIPv4 = false` and `AllowIPv6 = false`, `GetAddrs` returns no
address and an error for every host. The error is `no addresses found` when the host is a
literal address (no lookup is made) and when the lookup succeeds; when the lookup fails
the error is that of the resolver, wrapped as "resolve host ...". -/
theorem GetAddrs_both_disallowed (net : NetLib) (cfg : Config)
    (h4 : cfg.AllowIPv4 = false) (h6 : cfg.AllowIPv6 = false) :
    (GetAddrs net cfg).ips = []
    ∧ (GetAddrs net cfg).err.isSome = true
    ∧ (∀ addr, net.ParseIP cfg.Host = some addr →
        (GetAddrs net cfg).err = some "no addresses found"
        ∧ (GetAddrs net cfg).lookups = [])
    ∧ (∀ addrs, net.ParseIP cfg.Host = none → net.LookupIP cfg.Host = Except.ok addrs →
        (GetAddrs net cfg).err = some "no addresses found")
    ∧ (∀ e, net.ParseIP cfg.Host = none → net.LookupIP cfg.Host = Except.error e →
        (GetAddrs net cfg).err = some ("resolve host `" ++ cfg.Host ++ "`: " ++ e)) := by
  have hno : ∀ addr, (getIP net cfg addr).2 = false :=
    fun addr => getIP_of_disallowed net cfg addr h4 h6
  have hfm : ∀ addrs : List NetIP, addrs.filterMap (fun addr =>
      if (getIP net cfg addr).2 then some (getIP net cfg addr).1 else none) = [] := by
    intro addrs
    rw [List.filterMap_eq_nil_iff]
    intro a _
    simp [hno a]
  unfold GetAddrs
  cases hp : net.ParseIP cfg.Host with
  | some ip =>
    simp [hno ip]
  | none =>
    cases hl : net.LookupIP cfg.Host with
    | error e => simp
    | ok addrs => simp [hfm addrs]

theorem GetAddrs_both_disallowed_witness :
    ({ exampleCfg [] 0 true with AllowIPv4 := false, AllowIPv6 := false } : Config).AllowIPv4
      = false
    ∧ (GetAddrs (lookupNet (Except.ok [[127, 0, 0, 1]]))
        { exampleCfg [] 0 true with AllowIPv4 := false, AllowIPv6 := false }).ips = []
    ∧ GetAddrs (lookupNet (Except.ok [[127, 0, 0, 1]]))
        { exampleCfg [] 0 true with AllowIPv4 := false, AllowIPv6 := false }
      = { ips := [], err := some "no addresses found", lookups := ["localhost"] } :=
  ⟨rfl,
   (GetAddrs_both_disallowed (lookupNet (Except.ok [[127, 0, 0, 1]]))
      { exampleCfg [] 0 true with AllowIPv4 := false, AllowIPv6 := false } rfl rfl).1,
   by decide⟩

/-- C15: whenever `GetAddrs` succeeds, the list it returns is non-empty; every returned
address comes from a source address (the literal, or one of the addresses found by the
lookup) and is marked `IsIPv4` exactly when that source has a 4-byte form; an IPv4 entry
appears only with `AllowIPv4` and an IPv6 entry only with `AllowIPv6`; and a host that is
a literal address gives exactly one address and no lookup. -/
theorem GetAddrs_success_reads (net : NetLib) (cfg : Config)
    (h : (GetAddrs net cfg).err = none) :
    (GetAddrs net cfg).ips ≠ []
    ∧ (∀ ip ∈ (GetAddrs net cfg).ips, ∃ addr,
        (net.ParseIP cfg.Host = some addr
          ∨ (net.ParseIP cfg.Host = none
              ∧ ∃ addrs, net.LookupIP cfg.Host = Except.ok addrs ∧ addr ∈ addrs))
        ∧ (ip.IsIPv4 = true ↔ (To4 addr).isSome = true)
        ∧ (ip.IsIPv4 = true →
            cfg.AllowIPv4 = true ∧ ∃ v4, To4 addr = some v4 ∧ ip.IP = net.ipString v4)
        ∧ (ip.IsIPv4 = false →
            cfg.AllowIPv6 = true ∧ ∃ v6, To16 addr = some v6 ∧ ip.IP = net.ipString v6))
    ∧ (∀ addr, net.ParseIP cfg.Host = some addr →
        (GetAddrs net cfg).ips.length = 1 ∧ (GetAddrs net cfg).lookups = []) := by
  unfold GetAddrs at h ⊢
  cases hp : net.ParseIP cfg.Host with
  | some lit =>
    rw [hp] at h
    simp only [] at h ⊢
    by_cases hf : (getIP net cfg lit).2 = true
    · rw [if_pos hf]
      refine ⟨by simp, ?_, ?_⟩
      · intro ip hip
        simp only [List.mem_singleton] at hip
        subst hip
        exact ⟨lit, Or.inl rfl, getIP_found_reads net cfg lit hf⟩
      · intro addr _
        exact ⟨rfl, rfl⟩
    · rw [if_neg hf] at h
      simp at h
  | none =>
    rw [hp] at h
    simp only [] at h ⊢
    cases hl : net.LookupIP cfg.Host with
    | error e =>
      rw [hl] at h
      simp at h
    | ok addrs =>
      rw [hl] at h
      simp only [] at h ⊢
      by_cases hz : (addrs.filterMap (fun addr =>
          if (getIP net cfg addr).2 then some (getIP net cfg addr).1 else none)).length = 0
      · rw [if_pos hz] at h
        simp at h
      · rw [if_neg hz]
        refine ⟨?_, ?_, ?_⟩
        · intro he
          simp only [] at he
          rw [he] at hz
          exact hz rfl
        · intro ip hip
          simp only [] at hip
          obtain ⟨addr, hmem, hsome⟩ := List.mem_filterMap.mp hip
          by_cases hf : (getIP net cfg addr).2 = true
          · rw [if_pos hf] at hsome
            injection hsome with hsome
            subst hsome
            exact ⟨addr, Or.inr ⟨trivial, addrs, rfl, hmem⟩,
              getIP_found_reads net cfg addr hf⟩
          · rw [if_neg hf] at hsome
            simp at hsome
        · intro addr hc
          simp at hc

theorem GetAddrs_success_reads_witness :
    (GetAddrs (literalNet [0, 0, 0, 0, 0, 0, 0, 0, 0, 0, 255, 255, 127, 0, 0, 1])
        (exampleCfg [] 0 true)).err = none
    ∧ (GetAddrs (literalNet [0, 0, 0, 0, 0, 0, 0, 0, 0, 0, 255, 255, 127, 0, 0, 1])
        (exampleCfg [] 0 true)).ips ≠ []
    ∧ GetAddrs (literalNet [0, 0, 0, 0, 0, 0, 0, 0, 0, 0, 255, 255, 127, 0, 0, 1])
        (exampleCfg [] 0 true)
      = { ips := [⟨"127.0.0.1", true⟩], err := none, lookups := [] } :=
  ⟨by decide,
   (GetAddrs_success_reads
      (literalNet [0, 0, 0, 0, 0, 0, 0, 0, 0, 0, 255, 255, 127, 0, 0, 1])
      (exampleCfg [] 0 true) (by decide)).1,
   by decide⟩

/-- C16 (the code at the failing input): when the lookup returns the address 1.1.1.1
twice, `GetAddrs` succeeds with two entries that have the same address string: nothing in
it removes a repeated address. -/
theorem GetAddrs_keeps_repeated_address :
    GetAddrs (lookupNet (Except.ok [[1, 1, 1, 1], [1, 1, 1, 1]])) (exampleCfg [] 0 true)
      = { ips := [⟨"1.1.1.1", true⟩, ⟨"1.1.1.1", true⟩], err := none,
          lookups := ["localhost"] }
    ∧ ¬ ((GetAddrs (lookupNet (Except.ok [[1, 1, 1, 1], [1, 1, 1, 1]]))
          (exampleCfg [] 0 true)).ips.map (fun ip => ip.IP)).Nodup := by
  decide

/-- C17: for every address list, the list after `SortIPs` is a permutation of the input;
in it no IPv6 entry comes before an IPv4 entry and, inside a family, no entry comes before
one with a smaller address string; it is the only ordering of the input that `less` does
not contradict, so the result is the same for every ordering of the same addresses, and
`SortIPs` changes nothing when applied again; no other field of the config changes. -/
theorem SortIPs_sorted (cfg : Config) :
    (SortIPs cfg).IPs.Perm cfg.IPs
    ∧ (SortIPs cfg).IPs.Pairwise (fun a b =>
        (a.IsIPv4 = false → b.IsIPv4 = false)
        ∧ (a.IsIPv4 = b.IsIPv4 → lessString b.IP a.IP = false))
    ∧ (∀ l : List IP, l.Perm cfg.IPs → l.Pairwise (fun a b => lessIP b a = false) →
        l = (SortIPs cfg).IPs)
    ∧ (∀ cfg2 : Config, cfg2.IPs.Perm cfg.IPs → (SortIPs cfg2).IPs = (SortIPs cfg).IPs)
    ∧ SortIPs (SortIPs cfg) = SortIPs cfg
    ∧ SortIPs cfg = { cfg with IPs := (SortIPs cfg).IPs } := by
  haveI : IsTotal IP notAfter := ⟨notAfter_total⟩
  haveI : IsTrans IP notAfter := ⟨notAfter_trans⟩
  haveI : IsAntisymm IP notAfter := ⟨notAfter_antisymm⟩
  have hperm : ∀ c : Config, (SortIPs c).IPs.Perm c.IPs :=
    fun c => List.perm_insertionSort notAfter c.IPs
  have hsorted : ∀ c : Config, List.Sorted notAfter (SortIPs c).IPs :=
    fun c => List.sorted_insertionSort notAfter c.IPs
  refine ⟨hperm cfg, ?_, ?_, ?_, ?_, rfl⟩
  · exact List.Pairwise.imp (fun {a b} hab => notAfter_reads a b hab) (hsorted cfg)
  · intro l hl hs
    have hs2 : List.Sorted notAfter l := hs
    exact List.eq_of_perm_of_sorted (hl.trans (hperm cfg).symm) hs2 (hsorted cfg)
  · intro cfg2 h2
    exact List.eq_of_perm_of_sorted (((hperm cfg2).trans h2).trans (hperm cfg).symm)
      (hsorted cfg2) (hsorted cfg)
  · have hfix : (SortIPs cfg).IPs.insertionSort notAfter = (SortIPs cfg).IPs :=
      List.Sorted.insertionSort_eq (hsorted cfg)
    show { SortIPs cfg with IPs := (SortIPs cfg).IPs.insertionSort notAfter } = SortIPs cfg
    rw [hfix]

/-! ## Theorems: port numbers -/

theorem isDigit_toNat (c : Char) (h : c.isDigit = true) : 48 ≤ c.toNat ∧ c.toNat ≤ 57 := by
  simp only [Char.isDigit, Bool.and_eq_true, decide_eq_true_eq] at h
  exact ⟨h.1, h.2⟩

theorem foldl_digits (digits : List Char) (h : ∀ c ∈ digits, c.isDigit = true) :
    digits.foldl (fun (acc : Int) c => acc * 10 + ((c.toNat : Int) - 48)) 0
      = ((Nat.ofDigits 10 (digits.reverse.map (fun c => c.toNat - 48)) : Nat) : Int) := by
  induction digits using List.reverseRecOn with
  | nil => simp
  | append_singleton l c ih =>
    have hl : ∀ c ∈ l, c.isDigit = true := fun x hx => h x (List.mem_append_left _ hx)
    have hc := isDigit_toNat c (h c (by simp))
    rw [List.foldl_append, ih hl]
    simp only [List.foldl_cons, List.foldl_nil, List.reverse_append, List.reverse_cons,
      List.reverse_nil, List.nil_append, List.singleton_append, List.map_cons, Nat.ofDigits_cons]
    push_cast
    omega

theorem digits_of_data (p : String) :
    (match p.data with
      | '-' :: rest => rest
      | '+' :: rest => rest
      | cs => cs)
    = (if p.data.head? = some '-' ∨ p.data.head? = some '+' then p.data.tail else p.data) := by
  cases hd : p.data with
  | nil => simp
  | cons c cs =>
    by_cases h1 : c = '-'
    · subst h1
      simp
    · by_cases h2 : c = '+'
      · subst h2
        simp
      · simp [h1, h2]

/-- The digits that `Atoi` reads and the sign it applies, for a text that is a sign followed
by digits. -/
theorem Atoi_of_parts (p : String) (sign digits : List Char) (hp : p.data = sign ++ digits)
    (hs : sign = [] ∨ sign = ['+'] ∨ sign = ['-']) (hne : digits ≠ [])
    (hd : ∀ c ∈ digits, c.isDigit = true) :
    Atoi p
      = (if (if sign = ['-'] then -1 else 1)
              * ((Nat.ofDigits 10 (digits.reverse.map (fun c => c.toNat - 48)) : Nat) : Int)
              < -9223372036854775808
            ∨ 9223372036854775807 < (if sign = ['-'] then -1 else 1)
              * ((Nat.ofDigits 10 (digits.reverse.map (fun c => c.toNat - 48)) : Nat) : Int)
         then none
         else some ((if sign = ['-'] then -1 else 1)
              * ((Nat.ofDigits 10 (digits.reverse.map (fun c => c.toNat - 48)) : Nat) : Int))) := by
  have hall : digits.all Char.isDigit = true := List.all_eq_true.mpr hd
  have hds : (if p.data.head? = some '-' ∨ p.data.head? = some '+' then p.data.tail
      else p.data) = digits := by
    rcases hs with h | h | h
    · subst h
      rw [List.nil_append] at hp
      rw [hp]
      cases digits with
      | nil => exact absurd rfl hne
      | cons c cs =>
        have hc := hd c (by simp)
        have h1 : c ≠ '-' := by
          intro e
          rw [e] at hc
          exact absurd hc (by decide)
        have h2 : c ≠ '+' := by
          intro e
          rw [e] at hc
          exact absurd hc (by decide)
        simp [h1, h2]
    · subst h
      rw [hp]
      simp
    · subst h
      rw [hp]
      simp
  have hhead : (p.data.head? = some '-') ↔ sign = ['-'] := by
    rcases hs with h | h | h
    · subst h
      rw [List.nil_append] at hp
      rw [hp]
      cases digits with
      | nil => exact absurd rfl hne
      | cons c cs =>
        have hc := hd c (by simp)
        have h1 : c ≠ '-' := by
          intro e
          rw [e] at hc
          exact absurd hc (by decide)
        simp [h1]
    · subst h
      rw [hp]
      simp
    · subst h
      rw [hp]
      simp
  unfold Atoi
  rw [digits_of_data, hds]
  simp only [hne, hall, false_or, Bool.true_eq_false, if_false]
  rw [foldl_digits digits hd]
  by_cases hm : sign = ['-']
  · have h1 : p.data.head? = some '-' := hhead.mpr hm
    simp only [h1, hm, if_true]
    simp
  · have h1 : ¬ p.data.head? = some '-' := fun e => hm (hhead.mp e)
    simp only [h1, hm, if_false]
    simp

/-- Whatever `Atoi` accepts is a sign followed by digits. -/
theorem parts_of_Atoi (p : String) (i : Int) (h : Atoi p = some i) :
    ∃ (sign digits : List Char), p.data = sign ++ digits
      ∧ (sign = [] ∨ sign = ['+'] ∨ sign = ['-']) ∧ digits ≠ []
      ∧ (∀ c ∈ digits, c.isDigit = true) := by
  have hkey : ∀ ds : List Char,
      (if p.data.head? = some '-' ∨ p.data.head? = some '+' then p.data.tail else p.data) = ds →
      ds ≠ [] ∧ ds.all Char.isDigit = true := by
    intro ds hds
    unfold Atoi at h
    rw [digits_of_data, hds] at h
    simp only [] at h
    by_cases hc : ds = [] ∨ ds.all Char.isDigit = false
    · rw [if_pos hc] at h
      exact absurd h (by simp)
    · simp only [not_or, Bool.not_eq_false] at hc
      exact hc
  by_cases hh : p.data.head? = some '-' ∨ p.data.head? = some '+'
  · obtain ⟨hne, hall⟩ := hkey p.data.tail (if_pos hh)
    cases hd : p.data with
    | nil =>
      rw [hd] at hh
      simp at hh
    | cons c cs =>
      rw [hd] at hh hne hall
      simp only [List.head?_cons, Option.some.injEq] at hh
      simp only [List.tail_cons] at hne hall
      refine ⟨[c], cs, rfl, ?_, hne, List.all_eq_true.mp hall⟩
      rcases hh with e | e
      · exact Or.inr (Or.inr (by rw [e]))
      · exact Or.inr (Or.inl (by rw [e]))
  · obtain ⟨hne, hall⟩ := hkey p.data (if_neg hh)
    exact ⟨[], p.data, rfl, Or.inl rfl, hne, List.all_eq_true.mp hall⟩

/-- The function `Atoi` accepts exactly the base-10 integer literals whose value fits a
64-bit integer, and returns the value. -/
theorem Atoi_eq_some_iff (p : String) (i : Int) :
    Atoi p = some i
      ↔ IsDecimalLiteral p i ∧ -9223372036854775808 ≤ i ∧ i ≤ 9223372036854775807 := by
  constructor
  · intro h
    obtain ⟨sign, digits, hp, hs, hne, hd⟩ := parts_of_Atoi p i h
    rw [Atoi_of_parts p sign digits hp hs hne hd] at h
    generalize hv : (if sign = ['-'] then (-1 : Int) else 1)
        * ((Nat.ofDigits 10 (digits.reverse.map (fun c => c.toNat - 48)) : Nat) : Int) = v at h
    by_cases hr : v < -9223372036854775808 ∨ 9223372036854775807 < v
    · rw [if_pos hr] at h
      exact absurd h (by simp)
    · rw [if_neg hr] at h
      simp only [Option.some.injEq] at h
      simp only [not_or, not_lt] at hr
      subst h
      exact ⟨⟨sign, digits, hp, hs, hne, hd, hv.symm⟩, hr.1, hr.2⟩
  · rintro ⟨⟨sign, digits, hp, hs, hne, hd, hi⟩, h1, h2⟩
    rw [Atoi_of_parts p sign digits hp hs hne hd, ← hi]
    rw [if_neg (by
      simp only [not_or, not_lt]
      exact ⟨h1, h2⟩)]

/-! ## Theorems: validation -/

theorem GetAddrs_ips_ne_nil (net : NetLib) (cfg : Config) (h : (GetAddrs net cfg).err = none) :
    (GetAddrs net cfg).ips ≠ [] := by
  unfold GetAddrs at h ⊢
  cases hp : net.ParseIP cfg.Host with
  | some lit =>
    rw [hp] at h
    simp only [] at h ⊢
    by_cases hf : (getIP net cfg lit).2 = true
    · rw [if_pos hf]
      simp
    · rw [if_neg hf] at h
      simp at h
  | none =>
    rw [hp] at h
    simp only [] at h ⊢
    cases hl : net.LookupIP cfg.Host with
    | error e =>
      rw [hl] at h
      simp at h
    | ok addrs =>
      rw [hl] at h
      simp only [] at h ⊢
      by_cases h0 : (addrs.filterMap (fun addr =>
          if (getIP net cfg addr).2 then some (getIP net cfg addr).1 else none)).length = 0
      · rw [if_pos h0] at h
        simp at h
      · rw [if_neg h0]
        intro hn
        apply h0
        simp only [] at hn
        rw [hn]
        rfl

/-- The list that `SortIPs` leaves: a reordering of the input in which no IPv6 entry comes
before an IPv4 entry and, inside a family, no entry comes before one with a smaller
text. -/
theorem SortIPs_order (cfg : Config) :
    (SortIPs cfg).IPs.Perm cfg.IPs
    ∧ (SortIPs cfg).IPs.Pairwise (fun a b =>
        (a.IsIPv4 = false → b.IsIPv4 = false)
        ∧ (a.IsIPv4 = b.IsIPv4 → lessString b.IP a.IP = false)) := by
  haveI : IsTotal IP notAfter := ⟨notAfter_total⟩
  haveI : IsTrans IP notAfter := ⟨notAfter_trans⟩
  have hsorted : List.Sorted notAfter (SortIPs cfg).IPs :=
    List.sorted_insertionSort notAfter cfg.IPs
  exact ⟨List.perm_insertionSort notAfter cfg.IPs,
    List.Pairwise.imp (fun {a b} hab => notAfter_reads a b hab) hsorted⟩

/-- The checks of `Validate` in front of the resolution: when one of them fails, the
config is returned as it was with an error and without a lookup. -/
theorem Validate_refused (net : NetLib) (cfg : Config)
    (h : cfg.Host = "" ∨ cfg.Port = "" ∨ ValidPort cfg.Port = false ∨ cfg.Timeout < 1
      ∨ cfg.Delay < 1 ∨ cfg.Count < 0
      ∨ (cfg.Proto = UDP ∧ cfg.UDPPayloadHex = "" ∧ cfg.UDPPayload = [])) :
    (Validate net cfg).err ≠ none ∧ (Validate net cfg).lookups = []
    ∧ (Validate net cfg).cfg = cfg := by
  unfold Validate
  split_ifs with c1 c2 c3 c4 c5 c6
  · simp
  · simp
  · simp
  · simp
  · simp
  · simp
  · exfalso
    rcases h with h | h | h | h | h | h | h
    · apply c1
      left
      rw [h]
      decide
    · apply c1
      right
      rw [h]
      decide
    · exact c2 h
    · exact c3 h
    · exact c4 h
    · exact c5 h
    · apply c6
      refine ⟨?_, h.2.1, ?_⟩
      · simp [Config.IsUDP, h.1]
      · rw [h.2.2]
        rfl

/-- What `Validate` leaves when it returns nil: the addresses found, sorted, with the
other fields as they were. -/
theorem Validate_accepted (net : NetLib) (cfg : Config) (h : (Validate net cfg).err = none) :
    (Validate net cfg).cfg = SortIPs { cfg with IPs := (GetAddrs net cfg).ips }
    ∧ (GetAddrs net cfg).err = none
    ∧ ¬ (cfg.Host.utf8ByteSize < 1 ∨ cfg.Port.utf8ByteSize < 1)
    ∧ ValidPort cfg.Port = true ∧ 1 ≤ cfg.Timeout ∧ 1 ≤ cfg.Delay ∧ 0 ≤ cfg.Count := by
  unfold Validate at h ⊢
  split_ifs at h ⊢ with c1 c2 c3 c4 c5 c6
  cases he : (GetAddrs net cfg).err with
  | some e =>
    rw [he] at h
    simp at h
  | none =>
    simp only []
    refine ⟨trivial, trivial, c1, ?_, by omega, by omega, by omega⟩
    simpa using c2

/-! ## Theorems: what parsing keeps of the flags -/

theorem SameSettings_trans (a b c : Config) (h1 : SameSettings a b) (h2 : SameSettings b c) :
    SameSettings a c := by
  obtain ⟨a1, a2, a3, a4, a5⟩ := h1
  obtain ⟨b1, b2, b3, b4, b5⟩ := h2
  exact ⟨a1.trans b1, a2.trans b2, a3.trans b3, a4.trans b4, a5.trans b5⟩

theorem choosePreset_settings (fl : Flags) (cfg cfg2 : Config)
    (h : choosePreset fl cfg = Except.ok cfg2) : SameSettings cfg cfg2 := by
  unfold choosePreset at h
  simp only [] at h
  split_ifs at h <;> injection h with h <;> rw [← h] <;> exact ⟨rfl, rfl, rfl, rfl, rfl⟩

theorem applyPreset_settings (cfg cfg2 : Config) (port port2 : String)
    (h : applyPreset cfg port = Except.ok (port2, cfg2)) : SameSettings cfg cfg2 := by
  unfold applyPreset at h
  by_cases hp : cfg.Preset ≠ ""
  · rw [if_pos hp] at h
    cases hg : GetPreset cfg.Preset with
    | none =>
      rw [hg] at h
      simp at h
    | some pr =>
      rw [hg] at h
      simp only [Except.ok.injEq, Prod.mk.injEq] at h
      rw [← h.2]
      split_ifs <;> exact ⟨rfl, rfl, rfl, rfl, rfl⟩
  · rw [if_neg hp] at h
    simp only [Except.ok.injEq, Prod.mk.injEq] at h
    rw [← h.2]
    exact ⟨rfl, rfl, rfl, rfl, rfl⟩

theorem positionalPayload_settings (cfg : Config) (args : List String) (b : Bool) :
    SameSettings cfg (positionalPayload cfg args b) := by
  unfold positionalPayload
  simp only []
  split_ifs <;> exact ⟨rfl, rfl, rfl, rfl, rfl⟩

theorem parseArgs_settings (fl : Flags) (cfg cfg2 : Config)
    (h : parseArgs fl cfg = Except.ok cfg2) : SameSettings cfg cfg2 := by
  unfold parseArgs at h
  split at h
  · injection h with h
    rw [h]
    exact ⟨rfl, rfl, rfl, rfl, rfl⟩
  · split at h
    · simp at h
    · rename_i cfg3 h3
      split at h
      · simp at h
      · rename_i port cfg4 h4
        injection h with h
        rw [← h]
        refine SameSettings_trans _ _ _ (choosePreset_settings _ _ _ h3)
          (SameSettings_trans _ _ _ (applyPreset_settings _ _ _ _ h4) ?_)
        exact positionalPayload_settings cfg4 _ _

theorem defaultProto_settings (cfg : Config) : SameSettings cfg (defaultProto cfg) := by
  unfold defaultProto
  split_ifs <;> exact ⟨rfl, rfl, rfl, rfl, rfl⟩

theorem decodePayload_settings (cfg cfg2 : Config) (h : decodePayload cfg = some cfg2) :
    SameSettings cfg cfg2 := by
  unfold decodePayload at h
  split_ifs at h
  · cases hd : hexDecodeString cfg.UDPPayloadHex with
    | none =>
      rw [hd] at h
      simp at h
    | some b =>
      rw [hd] at h
      simp only [Option.some.injEq] at h
      rw [← h]
      exact ⟨rfl, rfl, rfl, rfl, rfl⟩
  · simp only [Option.some.injEq] at h
    rw [← h]
    exact ⟨rfl, rfl, rfl, rfl, rfl⟩

theorem clearPayload_settings (cfg : Config) : SameSettings cfg (clearPayload cfg) := by
  unfold clearPayload
  split_ifs <;> exact ⟨rfl, rfl, rfl, rfl, rfl⟩

/-- What `parseWith` keeps and computes: whenever it returns a config (with or without an
error), the timeout, delay, count and address families are those of the flags, the
durations are the 64-bit products by one million, and the nonstop flag tells whether the
count is zero; `Validate` has run on a config with these values. -/
theorem parseWith_settings (net : NetLib) (fl : Flags) (cfg : Config) (err : GoError)
    (h : parseWith net (Except.ok fl) = (some cfg, err)) :
    SameSettings (flagsConfig fl) cfg
    ∧ cfg.TimeoutDur = wrapInt64 (wrapInt64 cfg.Timeout * 1000000)
    ∧ cfg.DelayDur = wrapInt64 (wrapInt64 cfg.Delay * 1000000)
    ∧ cfg.Nonstop = decide (cfg.Count = 0)
    ∧ (err = none → 1 ≤ cfg.Timeout ∧ 1 ≤ cfg.Delay ∧ 0 ≤ cfg.Count) := by
  unfold parseWith at h
  simp only [] at h
  split_ifs at h with hb
  · simp at h
  · cases h1 : parseArgs fl (flagsConfig fl) with
    | error e =>
      rw [h1] at h
      simp at h
    | ok cfg1 =>
      rw [h1] at h
      simp only [] at h
      unfold finishParse at h
      cases h2 : decodePayload (defaultProto cfg1) with
      | none =>
        rw [h2] at h
        simp at h
      | some cfg2 =>
        rw [h2] at h
        simp only [Prod.mk.injEq, Option.some.injEq] at h
        obtain ⟨hc, he⟩ := h
        have hs : SameSettings (flagsConfig fl) (clearPayload cfg2) :=
          SameSettings_trans _ _ _ (parseArgs_settings fl _ cfg1 h1)
            (SameSettings_trans _ _ _ (defaultProto_settings cfg1)
              (SameSettings_trans _ _ _ (decodePayload_settings _ cfg2 h2)
                (clearPayload_settings cfg2)))
        have hval : (Validate net (setDurations (clearPayload cfg2))).cfg
              = setDurations (clearPayload cfg2)
            ∨ ((Validate net (setDurations (clearPayload cfg2))).err = none
              ∧ (Validate net (setDurations (clearPayload cfg2))).cfg
                = SortIPs { setDurations (clearPayload cfg2) with
                    IPs := (GetAddrs net (setDurations (clearPayload cfg2))).ips }
              ∧ 1 ≤ (setDurations (clearPayload cfg2)).Timeout
              ∧ 1 ≤ (setDurations (clearPayload cfg2)).Delay
              ∧ 0 ≤ (setDurations (clearPayload cfg2)).Count) := by
          cases hv : (Validate net (setDurations (clearPayload cfg2))).err with
          | none =>
            obtain ⟨v1, _, _, _, v5, v6, v7⟩ := Validate_accepted net _ hv
            exact Or.inr ⟨rfl, v1, v5, v6, v7⟩
          | some e =>
            left
            unfold Validate at hv ⊢
            split_ifs at hv ⊢
            all_goals try rfl
            cases hg : (GetAddrs net (setDurations (clearPayload cfg2))).err with
            | none =>
              rw [hg] at hv
              simp at hv
            | some e2 => rfl
        obtain ⟨s1, s2, s3, s4, s5⟩ := hs
        rcases hval with hv | ⟨hv0, hv, t1, t2, t3⟩
        · rw [hv] at hc
          rw [← hc]
          refine ⟨⟨s1, s2, s3, s4, s5⟩, rfl, rfl, rfl, ?_⟩
          intro hn
          rw [hn] at he
          obtain ⟨_, _, _, _, v5, v6, v7⟩ := Validate_accepted net _ he
          exact ⟨v5, v6, v7⟩
        · rw [hv] at hc
          rw [← hc]
          exact ⟨⟨s1, s2, s3, s4, s5⟩, rfl, rfl, rfl, fun _ => ⟨t1, t2, t3⟩⟩

/-- The 64-bit product of a timeout in milliseconds by one million, where it fits: the
exact number of nanoseconds, which is positive. -/
theorem wrapInt64_millis (t : Int) (h1 : 1 ≤ t) (h2 : t ≤ 9223372036854) :
    wrapInt64 (wrapInt64 t * 1000000) = t * 1000000 ∧ 0 < wrapInt64 (wrapInt64 t * 1000000) := by
  have ha : wrapInt64 t = t := by
    unfold wrapInt64
    omega
  rw [ha]
  have hb : wrapInt64 (t * 1000000) = t * 1000000 := by
    unfold wrapInt64
    omega
  rw [hb]
  omega

/-! ## Theorems: the format of the per-attempt line -/

theorem append_ne_empty (a b : String) (h : a ≠ "") : a ++ b ≠ "" := by
  intro e
  apply h
  have hd : (a ++ b).data = [] := by rw [e]
  rw [String.data_append] at hd
  have ha : a.data = [] := (List.append_eq_nil.mp hd).1
  cases a with
  | mk data =>
    simp only [] at ha
    rw [ha]

/-- A call of `showCurrentFmt` leaves `okFmt` set. -/
theorem showCurrentFmt_sets (vars : FmtVars) (cfg : Config) (m : Int) (ok : Bool) :
    (showCurrentFmt vars cfg m ok).2.okFmt ≠ "" := by
  unfold showCurrentFmt
  simp only []
  by_cases h : vars.okFmt = ""
  · rw [if_pos h]
    simp only []
    repeat' apply append_ne_empty
    decide
  · rw [if_neg h]
    exact h

/-- Once `okFmt` is set, a call of `showCurrentFmt` changes nothing and returns one of the
two stored formats. -/
theorem showCurrentFmt_of_set (vars : FmtVars) (cfg : Config) (m : Int) (ok : Bool)
    (h : vars.okFmt ≠ "") :
    showCurrentFmt vars cfg m ok = (if ok then vars.okFmt else vars.errFmt, vars) := by
  unfold showCurrentFmt
  simp only []
  rw [if_neg h]

/-- The first call builds both formats from its own arguments. -/
theorem showCurrentFmt_of_start (cfg : Config) (m : Int) (ok : Bool) :
    (showCurrentFmt startVars cfg m ok).1 = lineFormat cfg.NoColor m ok
    ∧ (∀ ok2, (if ok2 then (showCurrentFmt startVars cfg m ok).2.okFmt
          else (showCurrentFmt startVars cfg m ok).2.errFmt) = lineFormat cfg.NoColor m ok2) := by
  unfold showCurrentFmt lineFormat startVars
  simp only [if_true]
  refine ⟨?_, ?_⟩
  · cases ok <;> simp [String.append_assoc]
  · intro ok2
    cases ok2 <;> simp [String.append_assoc]

theorem afterCalls_of_set (vars : FmtVars) (calls : List (Config × Int × Bool))
    (h : vars.okFmt ≠ "") : afterCalls vars calls = vars := by
  induction calls with
  | nil => rfl
  | cons c cs ih =>
    unfold afterCalls at ih ⊢
    rw [List.foldl_cons, showCurrentFmt_of_set vars c.1 c.2.1 c.2.2 h]
    exact ih

theorem afterCalls_cons (c : Config × Int × Bool) (cs : List (Config × Int × Bool)) :
    afterCalls startVars (c :: cs) = (showCurrentFmt startVars c.1 c.2.1 c.2.2).2 := by
  have h := afterCalls_of_set (showCurrentFmt startVars c.1 c.2.1 c.2.2).2 cs
    (showCurrentFmt_sets startVars c.1 c.2.1 c.2.2)
  unfold afterCalls at h ⊢
  rw [List.foldl_cons]
  exact h

/-! ## Theorems: splitting the destination -/

theorem lastIndexOfChar_of_not_mem (c : Char) (l : List Char) (h : c ∉ l) :
    lastIndexOfChar c l = none := by
  induction l with
  | nil => rfl
  | cons x rest ih =>
    have h1 : x ≠ c := fun e => h (by rw [e]; exact List.mem_cons_self c rest)
    have h2 : c ∉ rest := fun e => h (List.mem_cons_of_mem x e)
    rw [lastIndexOfChar, ih h2]
    simp [h1]

/-- The last occurrence of a character that does not occur after it. -/
theorem lastIndexOfChar_append (c : Char) (l r : List Char) (h : c ∉ r) :
    lastIndexOfChar c (l ++ c :: r) = some l.length := by
  induction l with
  | nil =>
    rw [List.nil_append, lastIndexOfChar, lastIndexOfChar_of_not_mem c r h]
    simp
  | cons x rest ih =>
    rw [List.cons_append, lastIndexOfChar, ih]
    simp

/-- The first occurrence of a character that does not occur before it. -/
theorem indexOfChar_append (c : Char) (l r : List Char) (h : c ∉ l) :
    indexOfChar c (l ++ c :: r) = some l.length := by
  induction l with
  | nil =>
    rw [List.nil_append, indexOfChar]
    simp
  | cons x rest ih =>
    have h1 : x ≠ c := fun e => h (by rw [e]; exact List.mem_cons_self c rest)
    have h2 : c ∉ rest := fun e => h (List.mem_cons_of_mem x e)
    rw [List.cons_append, indexOfChar, if_neg h1, ih h2]
    simp

theorem any_eq_false_of_not_mem (c : Char) (l : List Char) (h : c ∉ l) :
    l.any (fun x => x == c) = false := by
  rw [List.any_eq_false]
  intro x hx
  simp only [beq_iff_eq]
  intro e
  exact h (e ▸ hx)

theorem any_eq_true_of_mem (c : Char) (l : List Char) (h : c ∈ l) :
    l.any (fun x => x == c) = true := by
  rw [List.any_eq_true]
  exact ⟨c, h, by simp⟩

/-- The standard split of `host:port`, for a host and a port without colon or bracket. -/
theorem SplitHostPort_plain (h p : List Char)
    (hh : ':' ∉ h ∧ '[' ∉ h ∧ ']' ∉ h) (hp : ':' ∉ p ∧ '[' ∉ p ∧ ']' ∉ p) :
    SplitHostPort (String.mk (h ++ ':' :: p)) = some (String.mk h, String.mk p) := by
  have hhead : ¬ (h ++ ':' :: p).head? = some '[' := by
    cases h with
    | nil => simp
    | cons x rest =>
      simp only [List.cons_append, List.head?_cons, Option.some.injEq]
      intro e
      exact hh.2.1 (by rw [e]; exact List.mem_cons_self _ _)
  have hopen : '[' ∉ h ++ ':' :: p := by
    simp only [List.mem_append, List.mem_cons, not_or]
    exact ⟨hh.2.1, by decide, hp.2.1⟩
  have hclose : ']' ∉ h ++ ':' :: p := by
    simp only [List.mem_append, List.mem_cons, not_or]
    exact ⟨hh.2.2, by decide, hp.2.2⟩
  unfold SplitHostPort
  simp only []
  rw [lastIndexOfChar_append ':' h p hp.1]
  simp only []
  rw [if_neg hhead, List.take_left, any_eq_false_of_not_mem ':' h hh.1,
    any_eq_false_of_not_mem '[' _ hopen, any_eq_false_of_not_mem ']' _ hclose]
  simp

/-- The standard split of `[host]:port`, for a host without bracket and a port without
colon or bracket. -/
theorem SplitHostPort_bracketed (v p : List Char)
    (hv : '[' ∉ v ∧ ']' ∉ v) (hp : ':' ∉ p ∧ '[' ∉ p ∧ ']' ∉ p) :
    SplitHostPort (String.mk ('[' :: (v ++ ']' :: ':' :: p)))
      = some (String.mk v, String.mk p) := by
  have hlast : lastIndexOfChar ':' ('[' :: (v ++ ']' :: ':' :: p)) = some (v.length + 1 + 1) := by
    have e : '[' :: (v ++ ']' :: ':' :: p) = ('[' :: (v ++ [']'])) ++ ':' :: p := by simp
    rw [e, lastIndexOfChar_append ':' _ p hp.1]
    simp
  have hfirst : indexOfChar ']' ('[' :: (v ++ ']' :: ':' :: p)) = some (v.length + 1) := by
    have e : '[' :: (v ++ ']' :: ':' :: p) = ('[' :: v) ++ ']' :: (':' :: p) := by simp
    have hn : ']' ∉ '[' :: v := by
      simp only [List.mem_cons, not_or]
      exact ⟨by decide, hv.2⟩
    rw [e, indexOfChar_append ']' _ _ hn]
    simp
  have hopen : '[' ∉ v ++ ']' :: ':' :: p := by
    simp only [List.mem_append, List.mem_cons, not_or]
    exact ⟨hv.1, by decide, by decide, hp.2.1⟩
  have hclose : ']' ∉ ':' :: p := by
    simp only [List.mem_cons, not_or]
    exact ⟨by decide, hp.2.2⟩
  have hhead : ('[' :: (v ++ ']' :: ':' :: p)).head? = some '[' := rfl
  have hlen : ¬ v.length + 1 + 1 = ('[' :: (v ++ ']' :: ':' :: p)).length := by
    simp only [List.length_cons, List.length_append]
    omega
  have hd1 : List.drop 1 ('[' :: (v ++ ']' :: ':' :: p)) = v ++ ']' :: ':' :: p := rfl
  have hd2 : List.drop (v.length + 1 + 1) ('[' :: (v ++ ']' :: ':' :: p)) = ':' :: p := by
    rw [List.drop_succ_cons]
    have e : v ++ ']' :: ':' :: p = (v ++ [']']) ++ ':' :: p := by simp
    rw [e]
    have hl : v.length + 1 = (v ++ [']']).length := by simp
    rw [hl, List.drop_left]
  have hd3 : List.drop (v.length + 1 + 1 + 1) ('[' :: (v ++ ']' :: ':' :: p)) = p := by
    rw [List.drop_succ_cons]
    have e : v ++ ']' :: ':' :: p = (v ++ [']', ':']) ++ p := by simp
    rw [e]
    have hl : v.length + 1 + 1 = (v ++ [']', ':']).length := by simp
    rw [hl, List.drop_left]
  have ht : List.drop 1 (List.take (v.length + 1) ('[' :: (v ++ ']' :: ':' :: p))) = v := by
    rw [List.take_succ_cons, List.drop_succ_cons, List.drop_zero, List.take_left]
  unfold SplitHostPort
  simp only []
  rw [hlast]
  simp only []
  rw [if_pos hhead, hfirst]
  simp only []
  rw [if_neg hlen, if_pos trivial, hd1, hd2, hd3, ht, any_eq_false_of_not_mem '[' _ hopen,
    any_eq_false_of_not_mem ']' _ hclose]
  simp

/-- A text in brackets, alone, has no port to split off. -/
theorem SplitHostPort_brackets_only (v : List Char) (hv : ']' ∉ v) :
    SplitHostPort (String.mk ('[' :: (v ++ [']']))) = none := by
  have hfirst : indexOfChar ']' ('[' :: (v ++ [']'])) = some (v.length + 1) := by
    have e : '[' :: (v ++ [']']) = ('[' :: v) ++ ']' :: [] := by simp
    have hn : ']' ∉ '[' :: v := by
      simp only [List.mem_cons, not_or]
      exact ⟨by decide, hv⟩
    rw [e, indexOfChar_append ']' _ _ hn]
    simp
  have hhead : ('[' :: (v ++ [']'])).head? = some '[' := rfl
  have hlen : v.length + 1 + 1 = ('[' :: (v ++ [']'])).length := by
    simp
  unfold SplitHostPort
  simp only []
  cases hl : lastIndexOfChar ':' ('[' :: (v ++ [']'])) with
  | none => rfl
  | some i =>
    simp only []
    rw [if_pos hhead, hfirst]
    simp only []
    rw [if_pos hlen]

theorem dropWhile_of_forall (q : Char → Bool) (l : List Char) (h : ∀ x ∈ l, q x = false) :
    l.dropWhile q = l := by
  cases l with
  | nil => rfl
  | cons x rest =>
    rw [List.dropWhile_cons_of_neg]
    rw [h x (List.mem_cons_self x rest)]
    simp

/-- A text without brackets is left as it is by `strings.Trim(s, "[]")`. -/
theorem trimBrackets_plain (h : List Char) (hh : '[' ∉ h ∧ ']' ∉ h) :
    trimBrackets (String.mk h) = String.mk h := by
  have hq : ∀ x ∈ h, (x == '[' || x == ']') = false := by
    intro x hx
    have h1 : x ≠ '[' := fun e => hh.1 (e ▸ hx)
    have h2 : x ≠ ']' := fun e => hh.2 (e ▸ hx)
    simp [h1, h2]
  have hq2 : ∀ x ∈ h.reverse, (x == '[' || x == ']') = false :=
    fun x hx => hq x (List.mem_reverse.mp hx)
  unfold trimBrackets
  simp only []
  rw [dropWhile_of_forall _ h hq, dropWhile_of_forall _ h.reverse hq2, List.reverse_reverse]

/-- A text without brackets, put in brackets, is given back by `strings.Trim(s, "[]")`. -/
theorem trimBrackets_bracketed (v : List Char) (hv : '[' ∉ v ∧ ']' ∉ v) :
    trimBrackets (String.mk ('[' :: (v ++ [']']))) = String.mk v := by
  have hq : ∀ x ∈ v, (x == '[' || x == ']') = false := by
    intro x hx
    have h1 : x ≠ '[' := fun e => hv.1 (e ▸ hx)
    have h2 : x ≠ ']' := fun e => hv.2 (e ▸ hx)
    simp [h1, h2]
  have hq2 : ∀ x ∈ v.reverse, (x == '[' || x == ']') = false :=
    fun x hx => hq x (List.mem_reverse.mp hx)
  unfold trimBrackets
  simp only []
  rw [List.dropWhile_cons_of_pos (by decide)]
  cases v with
  | nil => rfl
  | cons x rest =>
    have hx := hq x (List.mem_cons_self x rest)
    rw [List.cons_append, List.dropWhile_cons_of_neg (by rw [hx]; simp)]
    rw [← List.cons_append, List.reverse_append, List.reverse_singleton, List.singleton_append,
      List.dropWhile_cons_of_pos (by decide), dropWhile_of_forall _ _ hq2, List.reverse_reverse]

/-- The split that `trySplitHostPort` makes of `host:port`. -/
theorem trySplitHostPort_plain (h p : List Char)
    (hh : ':' ∉ h ∧ '[' ∉ h ∧ ']' ∉ h) (hp : ':' ∉ p ∧ '[' ∉ p ∧ ']' ∉ p) :
    trySplitHostPort (String.mk (h ++ ':' :: p)) = some (String.mk h, String.mk p) := by
  unfold trySplitHostPort
  rw [SplitHostPort_plain h p hh hp]

/-- The split that `trySplitHostPort` makes of `[host]:port`. -/
theorem trySplitHostPort_bracketed (v p : List Char)
    (hv : '[' ∉ v ∧ ']' ∉ v) (hp : ':' ∉ p ∧ '[' ∉ p ∧ ']' ∉ p) :
    trySplitHostPort (String.mk ('[' :: (v ++ ']' :: ':' :: p)))
      = some (String.mk v, String.mk p) := by
  unfold trySplitHostPort
  rw [SplitHostPort_bracketed v p hv hp]

/-- A text in brackets, alone, is not split. -/
theorem trySplitHostPort_brackets_only (v : List Char) (hv : ']' ∉ v) :
    trySplitHostPort (String.mk ('[' :: (v ++ [']']))) = none := by
  unfold trySplitHostPort
  rw [SplitHostPort_brackets_only v hv]
  simp

/-- The split that `trySplitHostPort` makes of an address with colons and without
brackets that is followed by a colon and a port: at the last colon. -/
theorem trySplitHostPort_bare (v p : List Char)
    (hv : ':' ∈ v ∧ '[' ∉ v ∧ ']' ∉ v) (hp : ':' ∉ p ∧ '[' ∉ p ∧ ']' ∉ p) (hne : p ≠ []) :
    trySplitHostPort (String.mk (v ++ ':' :: p)) = some (String.mk v, String.mk p) := by
  have hlast : lastIndexOfChar ':' (v ++ ':' :: p) = some v.length :=
    lastIndexOfChar_append ':' v p hp.1
  have hhead : ¬ (v ++ ':' :: p).head? = some '[' := by
    cases v with
    | nil => simp
    | cons x rest =>
      simp only [List.cons_append, List.head?_cons, Option.some.injEq]
      intro e
      exact hv.2.1 (by rw [e]; exact List.mem_cons_self _ _)
  have hsplit : SplitHostPort (String.mk (v ++ ':' :: p)) = none := by
    unfold SplitHostPort
    simp only []
    rw [hlast]
    simp only []
    rw [if_neg hhead, List.take_left, any_eq_true_of_mem ':' v hv.1]
    simp
  have hcount : 2 ≤ (v ++ ':' :: p).count ':' := by
    rw [List.count_append, List.count_cons_self]
    have := List.count_pos_iff.mpr hv.1
    omega
  have hvpos : 0 < v.length := List.length_pos_of_mem hv.1
  have hppos : 0 < p.length := List.length_pos.mpr hne
  have hlen : v.length + 1 < (v ++ ':' :: p).length := by
    simp only [List.length_append, List.length_cons]
    omega
  have hjoin : "[" ++ String.mk (List.take v.length (v ++ ':' :: p)) ++ "]:"
      ++ String.mk (List.drop (v.length + 1) (v ++ ':' :: p))
      = String.mk ('[' :: (v ++ ']' :: ':' :: p)) := by
    have e : v ++ ':' :: p = (v ++ [':']) ++ p := by simp
    have hl : v.length + 1 = (v ++ [':']).length := by simp
    rw [List.take_left]
    rw [e, hl, List.drop_left]
    apply String.ext
    simp [String.data_append]
  unfold trySplitHostPort
  rw [hsplit]
  simp only []
  rw [if_pos ⟨hcount, hhead⟩, hlast]
  simp only []
  rw [if_pos ⟨hvpos, hlen⟩, hjoin]
  exact SplitHostPort_bracketed v p ⟨hv.2.1, hv.2.2⟩ hp

theorem splitArgs_of_none (raw0 : String) (more : List String)
    (hs : (if raw0.data.head? = some '[' ∨ raw0.data.any (fun c => c == ':') = true then
        trySplitHostPort raw0 else none) = none) :
    splitArgs raw0 more = (trimBrackets raw0, more.headD "", false) := by
  unfold splitArgs
  rw [hs]
  rfl

theorem splitArgs_of_some (raw0 : String) (more : List String) (host port : String)
    (hs : (if raw0.data.head? = some '[' ∨ raw0.data.any (fun c => c == ':') = true then
        trySplitHostPort raw0 else none) = some (host, port)) :
    splitArgs raw0 more
      = (if host = "" then trimBrackets raw0 else host,
         if host = "" then more.headD port else port, true) := by
  unfold splitArgs
  rw [hs]
  rfl

/-- Lines 147 to 161 on a destination without colon that does not start with a bracket:
the host is the destination after `strings.Trim`, and the port is the next argument. -/
theorem splitArgs_no_colon (raw0 : String) (more : List String)
    (h1 : ':' ∉ raw0.data) (h2 : ¬ raw0.data.head? = some '[') :
    splitArgs raw0 more = (trimBrackets raw0, more.headD "", false) := by
  apply splitArgs_of_none
  rw [if_neg]
  rw [any_eq_false_of_not_mem ':' _ h1]
  simp [h2]

/-- Lines 147 to 161 on a destination in brackets without a port: the host is the text
between the brackets, and the port is the next argument. -/
theorem splitArgs_brackets_only (v : List Char) (more : List String)
    (hv : '[' ∉ v ∧ ']' ∉ v) :
    splitArgs (String.mk ('[' :: (v ++ [']']))) more = (String.mk v, more.headD "", false) := by
  rw [splitArgs_of_none, trimBrackets_bracketed v hv]
  have hc : (String.mk ('[' :: (v ++ [']']))).data.head? = some '['
      ∨ (String.mk ('[' :: (v ++ [']']))).data.any (fun c => c == ':') = true := Or.inl rfl
  rw [if_pos hc]
  exact trySplitHostPort_brackets_only v hv.2

/-- Lines 147 to 161 when the destination splits into a host that is not empty and a
port: these are the host and the port, and the arguments after it hold no port. -/
theorem splitArgs_of_split (raw0 : String) (more : List String) (h p : List Char)
    (hs : trySplitHostPort raw0 = some (String.mk h, String.mk p))
    (hc : raw0.data.head? = some '[' ∨ raw0.data.any (fun c => c == ':') = true)
    (hne : h ≠ []) :
    splitArgs raw0 more = (String.mk h, String.mk p, true) := by
  have hh : ¬ String.mk h = "" := by
    intro e
    apply hne
    have : (String.mk h).data = [] := by rw [e]
    exact this
  rw [splitArgs_of_some raw0 more (String.mk h) (String.mk p) (by rw [if_pos hc, hs]),
    if_neg hh, if_neg hh]

/-! ## Theorems: the steps of parseArgs -/

theorem parseArgs_of_steps (fl : Flags) (cfg c1 c2 : Config) (raw0 : String)
    (more : List String) (port : String) (ha : fl.args = raw0 :: more)
    (h1 : choosePreset fl cfg = Except.ok c1)
    (h2 : applyPreset c1 (splitArgs raw0 more).2.1 = Except.ok (port, c2)) :
    parseArgs fl cfg = Except.ok
      { positionalPayload c2 (raw0 :: more) (splitArgs raw0 more).2.2 with
        Host := (splitArgs raw0 more).1, Port := port } := by
  unfold parseArgs
  rw [ha]
  simp only [h1, h2]

theorem parseArgs_steps (fl : Flags) (cfg cfg2 : Config) (raw0 : String) (more : List String)
    (ha : fl.args = raw0 :: more) (h : parseArgs fl cfg = Except.ok cfg2) :
    ∃ c1 port c2, choosePreset fl cfg = Except.ok c1
      ∧ applyPreset c1 (splitArgs raw0 more).2.1 = Except.ok (port, c2)
      ∧ cfg2 = { positionalPayload c2 (raw0 :: more) (splitArgs raw0 more).2.2 with
                 Host := (splitArgs raw0 more).1, Port := port } := by
  unfold parseArgs at h
  rw [ha] at h
  simp only [] at h
  cases h1 : choosePreset fl cfg with
  | error e =>
    rw [h1] at h
    simp at h
  | ok c1 =>
    rw [h1] at h
    simp only [] at h
    cases h2 : applyPreset c1 (splitArgs raw0 more).2.1 with
    | error e =>
      rw [h2] at h
      simp at h
    | ok pc =>
      obtain ⟨port, c2⟩ := pc
      rw [h2] at h
      simp only [Except.ok.injEq] at h
      exact ⟨c1, port, c2, rfl, h2, h.symm⟩

theorem parseArgs_error_of_choose (fl : Flags) (cfg : Config) (raw0 : String)
    (more : List String) (e : String) (ha : fl.args = raw0 :: more)
    (h1 : choosePreset fl cfg = Except.error e) : parseArgs fl cfg = Except.error e := by
  unfold parseArgs
  rw [ha]
  simp only [h1]

theorem parseArgs_error_of_apply (fl : Flags) (cfg c1 : Config) (raw0 : String)
    (more : List String) (e : String) (ha : fl.args = raw0 :: more)
    (h1 : choosePreset fl cfg = Except.ok c1)
    (h2 : applyPreset c1 (splitArgs raw0 more).2.1 = Except.error e) :
    parseArgs fl cfg = Except.error e := by
  unfold parseArgs
  rw [ha]
  simp only [h1, h2]

theorem parseArgs_nil (fl : Flags) (cfg : Config) (ha : fl.args = []) :
    parseArgs fl cfg = Except.ok cfg := by
  unfold parseArgs
  rw [ha]

theorem mem_of_mapGet {V : Type} (m : GoMap V) (k : String) (v : V) (h : mapGet m k = some v) :
    (k, v) ∈ m := by
  induction m with
  | nil => simp [mapGet] at h
  | cons kv rest ih =>
    obtain ⟨k1, v1⟩ := kv
    rw [mapGet] at h
    by_cases hk : k1 = k
    · rw [if_pos hk] at h
      simp only [Option.some.injEq] at h
      rw [hk, h]
      exact List.mem_cons_self _ _
    · rw [if_neg hk] at h
      exact List.mem_cons_of_mem _ (ih h)

theorem two_le_length_of_mem {α : Type} (l : List α) (a b : α) (ha : a ∈ l) (hb : b ∈ l)
    (hab : a ≠ b) : 2 ≤ l.length := by
  match l, ha, hb with
  | [], ha, _ => simp at ha
  | [x], ha, hb =>
    simp only [List.mem_singleton] at ha hb
    exact absurd (ha.trans hb.symm) hab
  | _ :: _ :: _, _, _ => simp

/-- The names of the presets are not empty. -/
theorem preset_name_ne_empty (a : String) (h : a ∈ Predefined.map Prod.fst) : a ≠ "" := by
  intro e
  rw [e] at h
  exact absurd h (by decide)

/-- What the choice of the preset leaves: the config with at most its preset name changed,
to the name of a shortcut that is set when `-preset` gave none. -/
theorem choosePreset_reads (fl : Flags) (cfg c1 : Config)
    (h : choosePreset fl cfg = Except.ok c1) :
    c1 = { cfg with Preset := c1.Preset }
    ∧ (c1.Preset = cfg.Preset
        ∨ (cfg.Preset = "" ∧ fl.shortcut c1.Preset = true
            ∧ c1.Preset ∈ Predefined.map Prod.fst)) := by
  unfold choosePreset at h
  simp only [] at h
  by_cases hl : 1 < ((Predefined.map Prod.fst).filter fl.shortcut).length
  · rw [if_pos hl] at h
    simp at h
  · rw [if_neg hl] at h
    by_cases hc : ((Predefined.map Prod.fst).filter fl.shortcut).headD "" ≠ "" ∧ cfg.Preset = ""
    · rw [if_pos hc] at h
      split_ifs at h
      simp only [Except.ok.injEq] at h
      rw [← h]
      refine ⟨rfl, Or.inr ⟨hc.2, ?_⟩⟩
      simp only []
      have hmem : ((Predefined.map Prod.fst).filter fl.shortcut).headD ""
          ∈ (Predefined.map Prod.fst).filter fl.shortcut := by
        cases hs : (Predefined.map Prod.fst).filter fl.shortcut with
        | nil =>
          rw [hs] at hc
          exact absurd rfl hc.1
        | cons x rest => simp
      rw [List.mem_filter] at hmem
      exact ⟨hmem.2, hmem.1⟩
    · rw [if_neg hc] at h
      split_ifs at h
      simp only [Except.ok.injEq] at h
      rw [← h]
      exact ⟨rfl, Or.inl rfl⟩

/-- What the preset gives: the port when none was read, the protocol when none is set, and
the payload text under UDP when none is set. -/
theorem applyPreset_reads (c1 c2 : Config) (port port2 : String)
    (h : applyPreset c1 port = Except.ok (port2, c2)) (hp : c1.Preset ≠ "") :
    ∃ pr, GetPreset c1.Preset = some pr
      ∧ port2 = (if port = "" then pr.Port else port)
      ∧ c2.Proto = (if c1.Proto ≠ UDP ∧ c1.Proto ≠ TCP then pr.Proto else c1.Proto)
      ∧ c2.UDPPayloadHex
          = (if c2.Proto = UDP ∧ c1.UDPPayloadHex = "" then pr.UDPPayloadHex
             else c1.UDPPayloadHex)
      ∧ c2.Preset = c1.Preset := by
  unfold applyPreset at h
  rw [if_pos hp] at h
  cases hg : GetPreset c1.Preset with
  | none =>
    rw [hg] at h
    simp at h
  | some pr =>
    rw [hg] at h
    simp only [Except.ok.injEq, Prod.mk.injEq] at h
    obtain ⟨h1, h2⟩ := h
    refine ⟨pr, rfl, h1.symm, ?_, ?_, ?_⟩
    · rw [← h2]
      by_cases hq : c1.Proto ≠ UDP ∧ c1.Proto ≠ TCP
      · simp only [if_pos hq]
        split_ifs <;> rfl
      · simp only [if_neg hq]
        split_ifs <;> rfl
    · rw [← h2]
      by_cases hq : c1.Proto ≠ UDP ∧ c1.Proto ≠ TCP
      · simp only [if_pos hq]
        split_ifs <;> rfl
      · simp only [if_neg hq]
        split_ifs <;> rfl
    · rw [← h2]
      split_ifs <;> rfl

theorem applyPreset_no_preset (c1 : Config) (port : String) (hp : c1.Preset = "") :
    applyPreset c1 port = Except.ok (port, c1) := by
  unfold applyPreset
  rw [if_neg (fun hn => hn hp)]

/-- What the positional payload changes: under UDP, when it is there and not empty, it is
the payload text; nothing else changes. -/
theorem positionalPayload_reads (c : Config) (args : List String) (b : Bool) :
    (positionalPayload c args b).Proto = c.Proto
    ∧ (positionalPayload c args b).Preset = c.Preset
    ∧ (positionalPayload c args b).UDPPayloadHex
        = (if c.Proto = UDP ∧ (args.drop (if b then 1 else 2)).headD "" ≠ "" then
            (args.drop (if b then 1 else 2)).headD ""
           else c.UDPPayloadHex) := by
  unfold positionalPayload
  simp only []
  generalize (args.drop (if b then 1 else 2)).headD "" = pos
  by_cases hu : c.Proto = UDP
  · have hi : c.IsUDP = true := by simp [Config.IsUDP, hu]
    rw [hi]
    simp only [if_true]
    by_cases hq : pos ≠ ""
    · rw [if_pos hq, if_pos ⟨hu, hq⟩]
      exact ⟨rfl, rfl, rfl⟩
    · rw [if_neg hq, if_neg (fun hn => hq hn.2)]
      exact ⟨rfl, rfl, rfl⟩
  · have hi : c.IsUDP = false := by simp [Config.IsUDP, hu]
    rw [hi]
    have hf : ¬ ((if false = true then pos else "") ≠ "") := by simp
    rw [if_neg hf, if_neg (fun hn => hu hn.1)]
    exact ⟨rfl, rfl, rfl⟩

/-- What `flagsConfig` holds of the flags. -/
theorem flagsConfig_reads (fl : Flags) :
    (flagsConfig fl).Proto = (if fl.udp then UDP else if fl.tcp then TCP else "")
    ∧ (flagsConfig fl).Preset = fl.preset
    ∧ (flagsConfig fl).UDPPayloadHex = fl.payload
    ∧ (flagsConfig fl).Host = "" := by
  unfold flagsConfig
  simp only []
  cases fl.udp <;> cases fl.tcp <;> cases fl.v4 <;> cases fl.v6 <;> exact ⟨rfl, rfl, rfl, rfl⟩

/-- What `parseArgs` leaves when a preset is selected: the preset named by `-preset` or by
the shortcut that is set; the port of the preset when the arguments gave none; the
protocol of the preset when neither `-udp` nor `-tcp` is set; and, under UDP, the
positional payload, else the text of `-payload`, else the payload of the preset. -/
theorem parseArgs_preset_reads (fl : Flags) (cfg : Config) (raw0 : String)
    (more : List String) (ha : fl.args = raw0 :: more)
    (h : parseArgs fl (flagsConfig fl) = Except.ok cfg) (hp : cfg.Preset ≠ "") :
    ∃ pr, GetPreset cfg.Preset = some pr
      ∧ (cfg.Preset = fl.preset ∨ (fl.preset = "" ∧ fl.shortcut cfg.Preset = true))
      ∧ cfg.Port = (if (splitArgs raw0 more).2.1 = "" then pr.Port
                    else (splitArgs raw0 more).2.1)
      ∧ cfg.Proto = (if fl.udp then UDP else if fl.tcp then TCP else pr.Proto)
      ∧ cfg.UDPPayloadHex
          = (if cfg.Proto = UDP then
              (if ((raw0 :: more).drop (if (splitArgs raw0 more).2.2 then 1 else 2)).headD "" ≠ ""
                then ((raw0 :: more).drop (if (splitArgs raw0 more).2.2 then 1 else 2)).headD ""
               else if fl.payload ≠ "" then fl.payload else pr.UDPPayloadHex)
             else fl.payload) := by
  obtain ⟨c1, port, c2, h1, h2, h3⟩ := parseArgs_steps fl _ cfg raw0 more ha h
  obtain ⟨f1, f2, f3, _⟩ := flagsConfig_reads fl
  obtain ⟨k1, k2⟩ := choosePreset_reads fl _ c1 h1
  obtain ⟨q1, q2, q3⟩ := positionalPayload_reads c2 (raw0 :: more) (splitArgs raw0 more).2.2
  have hc1proto : c1.Proto = (flagsConfig fl).Proto := by rw [k1]
  have hc1hex : c1.UDPPayloadHex = (flagsConfig fl).UDPPayloadHex := by rw [k1]
  have hpreset : cfg.Preset = (positionalPayload c2 (raw0 :: more) (splitArgs raw0 more).2.2).Preset := by
    rw [h3]
  have hproto : cfg.Proto = (positionalPayload c2 (raw0 :: more) (splitArgs raw0 more).2.2).Proto := by
    rw [h3]
  have hhex : cfg.UDPPayloadHex
      = (positionalPayload c2 (raw0 :: more) (splitArgs raw0 more).2.2).UDPPayloadHex := by
    rw [h3]
  have hport : cfg.Port = port := by rw [h3]
  have hc1 : c1.Preset ≠ "" := by
    intro e
    have := applyPreset_no_preset c1 (splitArgs raw0 more).2.1 e
    rw [h2] at this
    simp only [Except.ok.injEq, Prod.mk.injEq] at this
    apply hp
    rw [hpreset, q2, this.2, e]
  obtain ⟨pr, a1, a2, a3, a4, a5⟩ := applyPreset_reads c1 c2 _ port h2 hc1
  have hname : cfg.Preset = c1.Preset := by rw [hpreset, q2, a5]
  have hP : cfg.Proto = (if fl.udp then UDP else if fl.tcp then TCP else pr.Proto) := by
    have e1 : ¬ ("" : String) = UDP := by decide
    have e2 : ¬ ("" : String) = TCP := by decide
    have e3 : ¬ TCP = UDP := by decide
    rw [hproto, q1, a3, hc1proto, f1]
    cases fl.udp <;> cases fl.tcp <;> simp [e1, e2, e3]
  refine ⟨pr, by rw [hname]; exact a1, ?_, by rw [hport, a2], hP, ?_⟩
  · rw [hname]
    rcases k2 with k | ⟨k, ks, _⟩
    · left
      rw [k, f2]
    · right
      rw [f2] at k
      exact ⟨k, ks⟩
  · rw [hhex, q3, a4, hc1hex, f3]
    have hc2 : c2.Proto = cfg.Proto := by rw [hproto, q1]
    rw [hc2]
    generalize ((raw0 :: more).drop (if (splitArgs raw0 more).2.2 then 1 else 2)).headD "" = pos
    by_cases hu : cfg.Proto = UDP <;> by_cases hq : pos = "" <;> by_cases hy : fl.payload = ""
      <;> simp [hu, hq, hy]

/-- Whatever `parseArgs` returns holds the host that lines 147 to 161 read from the
arguments, and without a preset the port that they read. -/
theorem parseArgs_host_port (fl : Flags) (cfg0 cfg : Config) (raw0 : String)
    (more : List String) (ha : fl.args = raw0 :: more)
    (h : parseArgs fl cfg0 = Except.ok cfg) :
    cfg.Host = (splitArgs raw0 more).1
    ∧ (cfg.Preset = "" → cfg.Port = (splitArgs raw0 more).2.1)
    ∧ (cfg.Proto = UDP →
        ((raw0 :: more).drop (if (splitArgs raw0 more).2.2 then 1 else 2)).headD "" ≠ "" →
        cfg.UDPPayloadHex
          = ((raw0 :: more).drop (if (splitArgs raw0 more).2.2 then 1 else 2)).headD "") := by
  obtain ⟨c1, port, c2, h1, h2, h3⟩ := parseArgs_steps fl _ cfg raw0 more ha h
  obtain ⟨q1, q2, q3⟩ := positionalPayload_reads c2 (raw0 :: more) (splitArgs raw0 more).2.2
  have hpreset : cfg.Preset = (positionalPayload c2 (raw0 :: more) (splitArgs raw0 more).2.2).Preset := by
    rw [h3]
  have hproto : cfg.Proto = (positionalPayload c2 (raw0 :: more) (splitArgs raw0 more).2.2).Proto := by
    rw [h3]
  have hhex : cfg.UDPPayloadHex
      = (positionalPayload c2 (raw0 :: more) (splitArgs raw0 more).2.2).UDPPayloadHex := by
    rw [h3]
  refine ⟨by rw [h3], ?_, ?_⟩
  · intro hp
    by_cases hc1 : c1.Preset = ""
    · have := applyPreset_no_preset c1 (splitArgs raw0 more).2.1 hc1
      rw [h2] at this
      simp only [Except.ok.injEq, Prod.mk.injEq] at this
      rw [h3]
      exact this.1
    · obtain ⟨pr, _, _, _, _, a5⟩ := applyPreset_reads c1 c2 _ port h2 hc1
      exfalso
      apply hc1
      rw [← a5, ← q2, ← hpreset, hp]
  · intro hu hpos
    rw [hhex, q3, if_pos ⟨by rw [← q1, ← hproto]; exact hu, hpos⟩]

/-! ## Theorems: the errors of parseWith -/

theorem finishParse_no_host (net : NetLib) (cfg : Config) (h : cfg.Host = "") :
    (finishParse net cfg).2 ≠ none := by
  unfold finishParse
  cases hd : decodePayload (defaultProto cfg) with
  | none => simp
  | some c =>
    simp only []
    have h1 : (defaultProto cfg).Host = "" := by
      unfold defaultProto
      split_ifs <;> exact h
    have h2 : c.Host = "" := by
      unfold decodePayload at hd
      by_cases hq : (defaultProto cfg).Proto = UDP ∧ (defaultProto cfg).UDPPayloadHex ≠ ""
      · rw [if_pos hq] at hd
        cases hh : hexDecodeString (defaultProto cfg).UDPPayloadHex with
        | none =>
          rw [hh] at hd
          simp at hd
        | some b =>
          rw [hh] at hd
          simp only [Option.some.injEq] at hd
          rw [← hd]
          exact h1
      · rw [if_neg hq] at hd
        simp only [Option.some.injEq] at hd
        rw [← hd]
        exact h1
    have h3 : (setDurations (clearPayload c)).Host = "" := by
      unfold setDurations clearPayload
      split_ifs <;> exact h2
    exact (Validate_refused net _ (Or.inl h3)).1

theorem parseWith_error_of_parseArgs (net : NetLib) (fl : Flags) (e : String)
    (h : parseArgs fl (flagsConfig fl) = Except.error e) :
    (parseWith net (Except.ok fl)).2 ≠ none := by
  unfold parseWith
  simp only []
  split_ifs
  · simp
  · rw [h]
    simp

theorem parseWith_error_no_args (net : NetLib) (fl : Flags) (h : fl.args = []) :
    (parseWith net (Except.ok fl)).2 ≠ none := by
  unfold parseWith
  simp only []
  split_ifs
  · simp
  · rw [parseArgs_nil fl _ h]
    exact finishParse_no_host net _ (flagsConfig_reads fl).2.2.2

/-- Two shortcuts that are set, or a shortcut next to another `-preset`, end
`choosePreset` with an error. -/
theorem choosePreset_error (fl : Flags) (cfg : Config) (a : String)
    (ha : a ∈ Predefined.map Prod.fst) (hs : fl.shortcut a = true)
    (h : (∃ b, b ∈ Predefined.map Prod.fst ∧ fl.shortcut b = true ∧ a ≠ b)
      ∨ (cfg.Preset ≠ "" ∧ cfg.Preset ≠ a)) :
    ∃ e, choosePreset fl cfg = Except.error e := by
  have hmem : a ∈ (Predefined.map Prod.fst).filter fl.shortcut := List.mem_filter.mpr ⟨ha, hs⟩
  unfold choosePreset
  simp only []
  by_cases hl : 1 < ((Predefined.map Prod.fst).filter fl.shortcut).length
  · rw [if_pos hl]
    exact ⟨_, rfl⟩
  · rw [if_neg hl]
    rcases h with ⟨b, hb, hsb, hab⟩ | ⟨hp, hpa⟩
    · exfalso
      apply hl
      exact two_le_length_of_mem _ a b hmem (List.mem_filter.mpr ⟨hb, hsb⟩) hab
    · have hhead : ((Predefined.map Prod.fst).filter fl.shortcut).headD "" = a := by
        cases hf : (Predefined.map Prod.fst).filter fl.shortcut with
        | nil =>
          rw [hf] at hmem
          simp at hmem
        | cons x rest =>
          rw [hf] at hmem hl
          cases rest with
          | nil =>
            simp only [List.mem_singleton] at hmem
            rw [hmem]
            rfl
          | cons y ys =>
            exfalso
            apply hl
            simp
      have hinner : ∀ x : Config, (if a ≠ "" ∧ cfg.Preset = "" then x else cfg) = cfg :=
        fun x => if_neg (fun hn => hp hn.2)
      rw [hhead, hinner, if_pos ⟨preset_name_ne_empty a ha, hp, hpa⟩]
      exact ⟨_, rfl⟩

/-- An unknown preset name ends `parseArgs` with an error when there is an argument. -/
theorem parseArgs_unknown_preset (fl : Flags) (cfg : Config) (raw0 : String)
    (more : List String) (ha : fl.args = raw0 :: more) (hp : cfg.Preset ≠ "")
    (hg : GetPreset cfg.Preset = none) : ∃ e, parseArgs fl cfg = Except.error e := by
  cases h1 : choosePreset fl cfg with
  | error e => exact ⟨e, parseArgs_error_of_choose fl cfg raw0 more e ha h1⟩
  | ok c1 =>
    obtain ⟨_, k2⟩ := choosePreset_reads fl cfg c1 h1
    have hc1 : c1.Preset = cfg.Preset := by
      rcases k2 with k | ⟨k, _⟩
      · exact k
      · exact absurd k hp
    have h2 : applyPreset c1 (splitArgs raw0 more).2.1
        = Except.error ("invalid preset " ++ goQuote c1.Preset) := by
      unfold applyPreset
      rw [if_pos (by rw [hc1]; exact hp), hc1, hg]
    exact ⟨_, parseArgs_error_of_apply fl cfg c1 raw0 more _ ha h1 h2⟩

/-! ## Theorems: host and port of the destination -/

/-- The two-argument form `destination port` for a destination without colon or bracket
and for a destination in brackets: without a preset, the host is the destination with the
brackets removed and the port is the second argument. -/
theorem parseArgs_two_arguments (fl : Flags) (cfg0 cfg : Config) (d p : String)
    (ha : fl.args = [d, p]) (h : parseArgs fl cfg0 = Except.ok cfg) (hp : cfg.Preset = "") :
    ((':' ∉ d.data ∧ '[' ∉ d.data ∧ ']' ∉ d.data) → cfg.Host = d ∧ cfg.Port = p)
    ∧ (∀ v : List Char, d = String.mk ('[' :: (v ++ [']'])) → '[' ∉ v → ']' ∉ v →
        cfg.Host = String.mk v ∧ cfg.Port = p) := by
  obtain ⟨h1, h2, _⟩ := parseArgs_host_port fl cfg0 cfg d [p] ha h
  refine ⟨?_, ?_⟩
  · rintro ⟨c1, c2, c3⟩
    have hhead : ¬ d.data.head? = some '[' := by
      intro e
      apply c2
      cases hd : d.data with
      | nil =>
        rw [hd] at e
        simp at e
      | cons x rest =>
        rw [hd] at e
        simp only [List.head?_cons, Option.some.injEq] at e
        rw [e]
        exact List.mem_cons_self _ _
    have hs := splitArgs_no_colon d [p] c1 hhead
    have ht : trimBrackets d = d := trimBrackets_plain d.data ⟨c2, c3⟩
    rw [h1, h2 hp, hs, ht]
    exact ⟨rfl, rfl⟩
  · intro v hd hv1 hv2
    have hs := splitArgs_brackets_only v [p] ⟨hv1, hv2⟩
    rw [h1, h2 hp, hd, hs]
    exact ⟨rfl, rfl⟩

/-- The one-argument forms `host:port`, `[host]:port` and, for a host with colons and
without brackets, `host:port` with a port that is not empty: without a preset, the host is
the text before the last colon without the brackets and the port is the text after it;
under UDP the next argument, when it is not empty, is the payload text. -/
theorem parseArgs_single_argument (fl : Flags) (cfg0 cfg : Config) (raw0 : String)
    (more : List String) (h p : List Char) (ha : fl.args = raw0 :: more)
    (hres : parseArgs fl cfg0 = Except.ok cfg) (hpre : cfg.Preset = "")
    (hne : h ≠ []) (hh : '[' ∉ h ∧ ']' ∉ h) (hp : ':' ∉ p ∧ '[' ∉ p ∧ ']' ∉ p)
    (hform : (raw0 = String.mk (h ++ ':' :: p) ∧ (':' ∈ h → p ≠ []))
      ∨ raw0 = String.mk ('[' :: (h ++ ']' :: ':' :: p))) :
    cfg.Host = String.mk h ∧ cfg.Port = String.mk p
    ∧ (cfg.Proto = UDP → more.headD "" ≠ "" → cfg.UDPPayloadHex = more.headD "") := by
  obtain ⟨h1, h2, h3⟩ := parseArgs_host_port fl cfg0 cfg raw0 more ha hres
  have hs : splitArgs raw0 more = (String.mk h, String.mk p, true) := by
    rcases hform with ⟨hr, hc⟩ | hr
    · have hany : raw0.data.any (fun c => c == ':') = true := by
        rw [hr]
        apply any_eq_true_of_mem
        simp
      by_cases hcol : ':' ∈ h
      · exact splitArgs_of_split raw0 more h p
          (by rw [hr]; exact trySplitHostPort_bare h p ⟨hcol, hh.1, hh.2⟩ hp (hc hcol))
          (Or.inr hany) hne
      · exact splitArgs_of_split raw0 more h p
          (by rw [hr]; exact trySplitHostPort_plain h p ⟨hcol, hh.1, hh.2⟩ hp)
          (Or.inr hany) hne
    · exact splitArgs_of_split raw0 more h p
        (by rw [hr]; exact trySplitHostPort_bracketed h p hh hp)
        (Or.inl (by rw [hr]; rfl)) hne
  rw [hs] at h1 h2 h3
  refine ⟨h1, h2 hpre, ?_⟩
  intro hu hm
  have hd : ((raw0 :: more).drop (if (String.mk h, String.mk p, true).2.2 = true then 1 else 2)).headD ""
      = more.headD "" := rfl
  rw [hd] at h3
  exact h3 hu hm

/-! ## Theorems: the presets -/

/-- Every entry of the table, checked one by one: the port is valid, the protocol is TCP
or UDP, a UDP entry has a payload text that decodes to at least one byte, and a TCP entry
has an empty payload text. -/
theorem Predefined_entries (e : String × Preset) (h : e ∈ Predefined) :
    ValidPort e.2.Port = true
    ∧ (e.2.Proto = TCP ∨ e.2.Proto = UDP)
    ∧ (e.2.Proto = UDP → ∃ b, hexDecodeString e.2.UDPPayloadHex = some b ∧ b ≠ [])
    ∧ (e.2.Proto = TCP → e.2.UDPPayloadHex = "") := by
  have hall : ∀ x ∈ Predefined,
      ValidPort x.2.Port = true
      ∧ (x.2.Proto = TCP ∨ x.2.Proto = UDP)
      ∧ (x.2.Proto = UDP → (hexDecodeString x.2.UDPPayloadHex).isSome = true
          ∧ hexDecodeString x.2.UDPPayloadHex ≠ some [])
      ∧ (x.2.Proto = TCP → x.2.UDPPayloadHex = "") := by
    decide
  obtain ⟨h1, h2, h3, h4⟩ := hall e h
  refine ⟨h1, h2, ?_, h4⟩
  intro hu
  obtain ⟨a1, a2⟩ := h3 hu
  cases hd : hexDecodeString e.2.UDPPayloadHex with
  | none =>
    rw [hd] at a1
    simp at a1
  | some b =>
    refine ⟨b, rfl, ?_⟩
    intro hb
    apply a2
    rw [hd, hb]

theorem Predefined_names_nodup : (Predefined.map Prod.fst).Nodup := by
  decide

/-- A preset selected alone, by `-preset` or by its shortcut, is the preset that
`choosePreset` leaves in the config. -/
theorem choosePreset_selected (fl : Flags) (cfg : Config) (name : String)
    (hn : name ∈ Predefined.map Prod.fst)
    (hsel : (cfg.Preset = name ∧ ∀ n ∈ Predefined.map Prod.fst, fl.shortcut n = false)
      ∨ (cfg.Preset = "" ∧ ∀ n ∈ Predefined.map Prod.fst, fl.shortcut n = decide (n = name))) :
    choosePreset fl cfg = Except.ok { cfg with Preset := name } := by
  have hne : name ≠ "" := preset_name_ne_empty name hn
  rcases hsel with ⟨hp, hs⟩ | ⟨hp, hs⟩
  · have hf : (Predefined.map Prod.fst).filter fl.shortcut = [] := by
      rw [List.filter_eq_nil_iff]
      intro n hnm
      rw [hs n hnm]
      simp
    unfold choosePreset
    simp only []
    rw [hf]
    have hinner : ∀ x : Config, (if ([] : List String).headD "" ≠ "" ∧ cfg.Preset = "" then x
        else cfg) = cfg := fun x => if_neg (fun hq => hq.1 rfl)
    rw [if_neg (by simp), hinner, if_neg (fun hq => hq.1 rfl)]
    cases cfg
    simp only [] at hp
    rw [hp]
  · have hf : (Predefined.map Prod.fst).filter fl.shortcut = [name] := by
      have h1 : (Predefined.map Prod.fst).filter fl.shortcut
          = (Predefined.map Prod.fst).filter (fun n => decide (n = name)) :=
        List.filter_congr hs
      rw [h1, List.filter_eq, List.count_eq_one_of_mem Predefined_names_nodup hn]
      rfl
    unfold choosePreset
    simp only []
    rw [hf]
    have hhead : ([name] : List String).headD "" = name := rfl
    rw [hhead]
    have hinner : ∀ x : Config, (if name ≠ "" ∧ cfg.Preset = "" then x else cfg) = x :=
      fun x => if_pos ⟨hne, hp⟩
    rw [if_neg (by simp), hinner, if_neg (fun hq => hq.2.2 rfl)]

theorem applyPreset_ok (c1 : Config) (port : String) (pr : Preset)
    (hg : GetPreset c1.Preset = some pr) :
    ∃ port2 c2, applyPreset c1 port = Except.ok (port2, c2) := by
  unfold applyPreset
  by_cases hp : c1.Preset ≠ ""
  · rw [if_pos hp, hg]
    exact ⟨_, _, rfl⟩
  · rw [if_neg hp]
    exact ⟨_, _, rfl⟩

/-- What `parseArgs` does with a preset, for every command line: when it leaves a
preset selected, it is the one named by `-preset` or, without `-preset`, the one whose
shortcut is set; the port is the preset's exactly when lines 147 to 161 (`splitArgs`)
leave the port empty; the protocol is the preset's exactly when neither `-udp` nor `-tcp`
is set; under UDP the payload text is the positional payload, else the text of
`-payload`, else the preset's. An unknown preset name, two different shortcuts, and a
shortcut next to another `-preset` name make `parseWith` return an error. -/
theorem parseWith_preset_choice (net : NetLib) (fl : Flags) :
    (∀ (cfg : Config) (raw0 : String) (more : List String), fl.args = raw0 :: more →
      parseArgs fl (flagsConfig fl) = Except.ok cfg → cfg.Preset ≠ "" →
      ∃ pr, GetPreset cfg.Preset = some pr
        ∧ (cfg.Preset = fl.preset ∨ (fl.preset = "" ∧ fl.shortcut cfg.Preset = true))
        ∧ cfg.Port = (if (splitArgs raw0 more).2.1 = "" then pr.Port
                      else (splitArgs raw0 more).2.1)
        ∧ cfg.Proto = (if fl.udp then UDP else if fl.tcp then TCP else pr.Proto)
        ∧ cfg.UDPPayloadHex
            = (if cfg.Proto = UDP then
                (if ((raw0 :: more).drop (if (splitArgs raw0 more).2.2 then 1 else 2)).headD ""
                      ≠ ""
                  then ((raw0 :: more).drop (if (splitArgs raw0 more).2.2 then 1 else 2)).headD ""
                 else if fl.payload ≠ "" then fl.payload else pr.UDPPayloadHex)
               else fl.payload))
    ∧ (fl.preset ≠ "" → GetPreset fl.preset = none →
        (parseWith net (Except.ok fl)).2 ≠ none)
    ∧ (∀ a b : String, a ∈ Predefined.map Prod.fst → b ∈ Predefined.map Prod.fst → a ≠ b →
        fl.shortcut a = true → fl.shortcut b = true →
        (parseWith net (Except.ok fl)).2 ≠ none)
    ∧ (∀ a : String, a ∈ Predefined.map Prod.fst → fl.shortcut a = true →
        fl.preset ≠ "" → fl.preset ≠ a → (parseWith net (Except.ok fl)).2 ≠ none) := by
  obtain ⟨_, f2, _, _⟩ := flagsConfig_reads fl
  refine ⟨fun cfg raw0 more ha h hp => parseArgs_preset_reads fl cfg raw0 more ha h hp,
    ?_, ?_, ?_⟩
  · intro hp hg
    cases hargs : fl.args with
    | nil => exact parseWith_error_no_args net fl hargs
    | cons raw0 more =>
      obtain ⟨e, he⟩ := parseArgs_unknown_preset fl (flagsConfig fl) raw0 more hargs
        (by rw [f2]; exact hp) (by rw [f2]; exact hg)
      exact parseWith_error_of_parseArgs net fl e he
  · intro a b ha hb hab hsa hsb
    cases hargs : fl.args with
    | nil => exact parseWith_error_no_args net fl hargs
    | cons raw0 more =>
      obtain ⟨e, he⟩ := choosePreset_error fl (flagsConfig fl) a ha hsa
        (Or.inl ⟨b, hb, hsb, hab⟩)
      exact parseWith_error_of_parseArgs net fl e
        (parseArgs_error_of_choose fl _ raw0 more e hargs he)
  · intro a ha hsa hp hpa
    cases hargs : fl.args with
    | nil => exact parseWith_error_no_args net fl hargs
    | cons raw0 more =>
      obtain ⟨e, he⟩ := choosePreset_error fl (flagsConfig fl) a ha hsa
        (Or.inr ⟨by rw [f2]; exact hp, by rw [f2]; exact hpa⟩)
      exact parseWith_error_of_parseArgs net fl e
        (parseArgs_error_of_choose fl _ raw0 more e hargs he)

/-- Every entry of `Predefined` is well-formed, and for a preset selected alone (by
`-preset` or by its shortcut, without `-udp`, `-tcp` or `-payload`) with one argument, a
host without colon that does not start with a bracket, `parseWith` does not fail at the
decoding and hands `Validate` a config with the port and the protocol of the preset that
passes the port check and the payload check. -/
theorem Predefined_alone_plain_host (net : NetLib) :
    (∀ e ∈ Predefined,
      ValidPort e.2.Port = true
      ∧ (e.2.Proto = TCP ∨ e.2.Proto = UDP)
      ∧ (e.2.Proto = UDP → ∃ b, hexDecodeString e.2.UDPPayloadHex = some b ∧ b ≠ [])
      ∧ (e.2.Proto = TCP → e.2.UDPPayloadHex = ""))
    ∧ (∀ (fl : Flags) (name host : String) (pr : Preset),
        GetPreset name = some pr → fl.args = [host] → fl.udp = false → fl.tcp = false →
        fl.payload = "" →
        ((fl.preset = name ∧ ∀ n ∈ Predefined.map Prod.fst, fl.shortcut n = false)
          ∨ (fl.preset = ""
              ∧ ∀ n ∈ Predefined.map Prod.fst, fl.shortcut n = decide (n = name))) →
        ':' ∉ host.data → ¬ host.data.head? = some '[' →
        ∃ c, parseWith net (Except.ok fl) = (some (Validate net c).cfg, (Validate net c).err)
          ∧ c.Host = trimBrackets host ∧ c.Port = pr.Port ∧ c.Proto = pr.Proto
          ∧ ValidPort c.Port = true
          ∧ ¬ (c.IsUDP = true ∧ c.UDPPayloadHex = "" ∧ c.UDPPayload.length = 0)
          ∧ (c.Proto = UDP →
              hexDecodeString pr.UDPPayloadHex = some c.UDPPayload ∧ c.UDPPayload ≠ [])) := by
  refine ⟨Predefined_entries, ?_⟩
  intro fl name host pr hg ha hu ht hpay hsel hcol hbr
  have hmem : (name, pr) ∈ Predefined := mem_of_mapGet Predefined name pr hg
  have hn : name ∈ Predefined.map Prod.fst := List.mem_map.mpr ⟨(name, pr), hmem, rfl⟩
  have hne : name ≠ "" := preset_name_ne_empty name hn
  obtain ⟨w1, w2, w3, w4⟩ := Predefined_entries (name, pr) hmem
  simp only [] at w1 w2 w3 w4
  obtain ⟨f1, f2, f3, _⟩ := flagsConfig_reads fl
  have hsplit : splitArgs host [] = (trimBrackets host, "", false) :=
    splitArgs_no_colon host [] hcol hbr
  -- the steps of parseArgs
  have h1 : choosePreset fl (flagsConfig fl) = Except.ok { flagsConfig fl with Preset := name } :=
    choosePreset_selected fl (flagsConfig fl) name hn (by rw [f2]; exact hsel)
  obtain ⟨port, c2, h2⟩ := applyPreset_ok { flagsConfig fl with Preset := name }
    (splitArgs host []).2.1 pr hg
  have a5 : c2.Preset = name := by
    obtain ⟨_, _, _, _, _, a⟩ := applyPreset_reads _ c2 _ port h2 hne
    exact a
  have hname0 : (positionalPayload c2 [host] (splitArgs host []).2.2).Preset = name := by
    rw [(positionalPayload_reads c2 [host] (splitArgs host []).2.2).2.1, a5]
  have hargs := parseArgs_of_steps fl (flagsConfig fl) _ c2 host [] port ha h1 h2
  have hhost0 : ({ positionalPayload c2 [host] (splitArgs host []).2.2 with
      Host := (splitArgs host []).1, Port := port } : Config).Host = trimBrackets host := by
    show (splitArgs host []).1 = trimBrackets host
    rw [hsplit]
  have hname1 : ({ positionalPayload c2 [host] (splitArgs host []).2.2 with
      Host := (splitArgs host []).1, Port := port } : Config).Preset = name := hname0
  generalize ({ positionalPayload c2 [host] (splitArgs host []).2.2 with
      Host := (splitArgs host []).1, Port := port } : Config) = cfg2 at hargs hhost0 hname1
  obtain ⟨pr2, r1, _, r3, r4, r5⟩ := parseArgs_preset_reads fl cfg2 host [] ha hargs
    (by rw [hname1]; exact hne)
  have hpr : pr2 = pr := by
    rw [hname1, hg] at r1
    exact (Option.some.inj r1).symm
  rw [hpr] at r3 r4 r5
  rw [hsplit] at r3 r5
  rw [hu, ht] at r4
  have hpos : (([host] : List String).drop (if (trimBrackets host, "", false).2.2 = true
      then 1 else 2)).headD "" = "" := rfl
  rw [hpos, hpay] at r5
  simp only [Bool.false_eq_true, if_false, if_true, ne_eq, not_true_eq_false] at r3 r4 r5
  have hhost : cfg2.Host = trimBrackets host := hhost0
  have hpl : cfg2.UDPPayload = [] := by
    rw [parseArgs_UDPPayload fl _ cfg2 hargs]
    exact flagsConfig_UDPPayload fl
  have hdp : defaultProto cfg2 = cfg2 := by
    unfold defaultProto
    rw [if_neg]
    intro hq
    rcases w2 with w | w
    · exact hq.2 (by rw [r4, w])
    · exact hq.1 (by rw [r4, w])
  have hpw : ∀ c3, decodePayload cfg2 = some c3 →
      parseWith net (Except.ok fl)
        = (some (Validate net (setDurations (clearPayload c3))).cfg,
           (Validate net (setDurations (clearPayload c3))).err) := by
    intro c3 hd
    unfold parseWith
    simp only [hu, ht, Bool.and_self, Bool.false_eq_true, if_false, hargs]
    unfold finishParse
    rw [hdp, hd]
  by_cases hudp : pr.Proto = UDP
  · obtain ⟨b, hb, hbne⟩ := w3 hudp
    have hP : cfg2.Proto = UDP := by rw [r4, hudp]
    have hhex : cfg2.UDPPayloadHex = pr.UDPPayloadHex := by
      rw [r5, if_pos hP]
    have hhexne : cfg2.UDPPayloadHex ≠ "" := by
      intro e
      rw [hhex] at e
      rw [e] at hb
      apply hbne
      have : hexDecodeString "" = some [] := rfl
      rw [this] at hb
      exact (Option.some.inj hb).symm
    have hd : decodePayload cfg2 = some { cfg2 with UDPPayload := b } := by
      unfold decodePayload
      rw [if_pos ⟨hP, hhexne⟩, hhex, hb]
    have hclear : clearPayload { cfg2 with UDPPayload := b } = { cfg2 with UDPPayload := b } := by
      unfold clearPayload
      rw [if_neg (fun hq => hq hP)]
    refine ⟨setDurations (clearPayload { cfg2 with UDPPayload := b }), hpw _ hd, ?_⟩
    rw [hclear]
    refine ⟨hhost, r3, r4, by rw [show (setDurations { cfg2 with UDPPayload := b }).Port
      = cfg2.Port from rfl, r3]; exact w1, ?_, ?_⟩
    · intro hq
      exact hhexne hq.2.1
    · intro _
      exact ⟨hb, hbne⟩
  · have hP : ¬ cfg2.Proto = UDP := by rw [r4]; exact hudp
    have hd : decodePayload cfg2 = some cfg2 := by
      unfold decodePayload
      rw [if_neg (fun hq => hP hq.1)]
    have hclearP : (clearPayload cfg2).Proto = cfg2.Proto := by
      unfold clearPayload
      split_ifs <;> rfl
    have hclearH : (clearPayload cfg2).Host = cfg2.Host := by
      unfold clearPayload
      split_ifs <;> rfl
    have hclearPort : (clearPayload cfg2).Port = cfg2.Port := by
      unfold clearPayload
      split_ifs <;> rfl
    refine ⟨setDurations (clearPayload cfg2), hpw _ hd, ?_⟩
    have e1 : (setDurations (clearPayload cfg2)).Host = cfg2.Host := hclearH
    have e2 : (setDurations (clearPayload cfg2)).Port = cfg2.Port := hclearPort
    have e3 : (setDurations (clearPayload cfg2)).Proto = cfg2.Proto := hclearP
    refine ⟨by rw [e1, hhost], by rw [e2, r3], by rw [e3, r4], by rw [e2, r3]; exact w1, ?_, ?_⟩
    · intro hq
      have : (setDurations (clearPayload cfg2)).Proto = UDP := by
        have := hq.1
        simpa [Config.IsUDP] using this
      rw [e3] at this
      exact hP this
    · intro hq
      rw [e3] at hq
      exact absurd hq hP

/-! ## Claims C21 to C30 -/

/-- C21: for every string `p`, `ValidPort p` is true exactly when `p` is a base-10 integer
literal (an optional sign, then one or more decimal digits) whose value `i` satisfies
`1 ≤ i ≤ 65535`. It is false for the empty string, for text with surrounding spaces, for
non-numeric text, for the decimal `80.5`, for `0`, for a negative and for `65536`. -/
theorem ValidPort_iff_port_literal (p : String) :
    (ValidPort p = true ↔ ∃ i : Int, IsDecimalLiteral p i ∧ 1 ≤ i ∧ i ≤ 65535)
    ∧ ValidPort "" = false ∧ ValidPort " 80 " = false ∧ ValidPort "abc" = false
    ∧ ValidPort "80.5" = false ∧ ValidPort "0" = false ∧ ValidPort "-1" = false
    ∧ ValidPort "65536" = false ∧ ValidPort "1" = true ∧ ValidPort "65535" = true := by
  refine ⟨?_, by decide⟩
  unfold ValidPort
  constructor
  · intro h
    cases ha : Atoi p with
    | none =>
      rw [ha] at h
      simp at h
    | some i =>
      rw [ha] at h
      simp only [Bool.and_eq_true, decide_eq_true_eq] at h
      exact ⟨i, ((Atoi_eq_some_iff p i).mp ha).1, h.1, h.2⟩
  · rintro ⟨i, hl, h1, h2⟩
    have ha : Atoi p = some i := (Atoi_eq_some_iff p i).mpr ⟨hl, by omega, by omega⟩
    rw [ha]
    simp [h1, h2]

/-- C22: `Validate` returns an error, asks the resolver for nothing and leaves the config
(so `cfg.IPs` too) as it was whenever the host is empty, the port is empty, the port is
not a valid port, `Timeout < 1`, `Delay < 1`, `Count < 0`, or the protocol is UDP with an
empty payload text and an empty payload. Whenever `Validate` returns nil, `cfg.IPs` is
not empty, holds the addresses that `GetAddrs` found, and is sorted: no IPv6 entry before
an IPv4 entry and, inside a family, no entry before one with a smaller text. -/
theorem Validate_refuses_or_resolves (net : NetLib) (cfg : Config) :
    ((cfg.Host = "" ∨ cfg.Port = "" ∨ ValidPort cfg.Port = false ∨ cfg.Timeout < 1
        ∨ cfg.Delay < 1 ∨ cfg.Count < 0
        ∨ (cfg.Proto = UDP ∧ cfg.UDPPayloadHex = "" ∧ cfg.UDPPayload = [])) →
      (Validate net cfg).err ≠ none ∧ (Validate net cfg).lookups = []
      ∧ (Validate net cfg).cfg = cfg)
    ∧ ((Validate net cfg).err = none →
        (Validate net cfg).cfg.IPs ≠ []
        ∧ (Validate net cfg).cfg.IPs.Perm (GetAddrs net cfg).ips
        ∧ (Validate net cfg).cfg.IPs.Pairwise (fun a b =>
            (a.IsIPv4 = false → b.IsIPv4 = false)
            ∧ (a.IsIPv4 = b.IsIPv4 → lessString b.IP a.IP = false))) := by
  refine ⟨Validate_refused net cfg, ?_⟩
  intro h
  obtain ⟨hc, he, _⟩ := Validate_accepted net cfg h
  rw [hc]
  obtain ⟨hperm, hsorted⟩ := SortIPs_order { cfg with IPs := (GetAddrs net cfg).ips }
  refine ⟨?_, hperm, hsorted⟩
  intro hn
  have := hperm.length_eq
  rw [hn] at this
  exact GetAddrs_ips_ne_nil net cfg he (List.length_eq_zero.mp this.symm)

theorem Validate_refuses_or_resolves_witness :
    (exampleCfg [] (-1) false).Count < 0
    ∧ (Validate (lookupNet (Except.ok [[127, 0, 0, 1]])) (exampleCfg [] (-1) false)).lookups = []
    ∧ (Validate (lookupNet (Except.ok [[127, 0, 0, 1]])) (exampleCfg [] (-1) false)).cfg
        = exampleCfg [] (-1) false
    ∧ (Validate (lookupNet (Except.ok [[10, 0, 0, 2], [10, 0, 0, 1]]))
        (exampleCfg [] 0 true)).err = none
    ∧ (Validate (lookupNet (Except.ok [[10, 0, 0, 2], [10, 0, 0, 1]]))
        (exampleCfg [] 0 true)).cfg.IPs = [⟨"10.0.0.1", true⟩, ⟨"10.0.0.2", true⟩]
    ∧ (Validate (lookupNet (Except.ok [[10, 0, 0, 2], [10, 0, 0, 1]]))
        (exampleCfg [] 0 true)).cfg.IPs ≠ [] :=
  ⟨by decide,
    ((Validate_refuses_or_resolves (lookupNet (Except.ok [[127, 0, 0, 1]]))
      (exampleCfg [] (-1) false)).1
      (Or.inr (Or.inr (Or.inr (Or.inr (Or.inr (Or.inl (by decide)))))))).2.1,
    ((Validate_refuses_or_resolves (lookupNet (Except.ok [[127, 0, 0, 1]]))
      (exampleCfg [] (-1) false)).1
      (Or.inr (Or.inr (Or.inr (Or.inr (Or.inr (Or.inl (by decide)))))))).2.2,
    by decide, by decide,
    ((Validate_refuses_or_resolves (lookupNet (Except.ok [[10, 0, 0, 2], [10, 0, 0, 1]]))
      (exampleCfg [] 0 true)).2 (by decide)).1⟩

/-- The durations that `parseWith` computes where the products fit 64 bits: whenever it
succeeds with a timeout and a delay of at most 9223372036854 ms, `TimeoutDur` and
`DelayDur` are exactly the timeout and the delay in nanoseconds and are positive; and
`Nonstop` is true exactly when `Count = 0`, for every config that it returns. -/
theorem parseWith_durations (net : NetLib) (fl : Flags) (cfg : Config)
    (h : parseWith net (Except.ok fl) = (some cfg, none))
    (ht : cfg.Timeout ≤ 9223372036854) (hd : cfg.Delay ≤ 9223372036854) :
    1 ≤ cfg.Timeout ∧ 1 ≤ cfg.Delay
    ∧ cfg.TimeoutDur = cfg.Timeout * 1000000 ∧ 0 < cfg.TimeoutDur
    ∧ cfg.DelayDur = cfg.Delay * 1000000 ∧ 0 < cfg.DelayDur
    ∧ (cfg.Nonstop = true ↔ cfg.Count = 0) := by
  obtain ⟨_, h1, h2, h3, h4⟩ := parseWith_settings net fl cfg none h
  obtain ⟨t1, t2, _⟩ := h4 rfl
  obtain ⟨a1, a2⟩ := wrapInt64_millis cfg.Timeout t1 ht
  obtain ⟨b1, b2⟩ := wrapInt64_millis cfg.Delay t2 hd
  refine ⟨t1, t2, ?_, ?_, ?_, ?_, ?_⟩
  · rw [h1, a1]
  · rw [h1]
    exact a2
  · rw [h2, b1]
  · rw [h2]
    exact b2
  · rw [h3]
    simp

/-- C25 (the claim fails for a timeout above 9223372036854 ms): for
`portping -t 9223372036855 127.0.0.1 80`, `parseWith` succeeds with `Timeout` equal to
9223372036855, which is `≥ 1`, and `TimeoutDur` equal to -9223372036854551616 ns: the
product by `time.Millisecond` does not fit 64 bits and wraps, so the duration is negative
and is not the timeout in milliseconds. -/
theorem parseWith_timeout_wraps :
    parseWith (literalNet [127, 0, 0, 1])
        (Except.ok { plainFlags ["127.0.0.1", "80"] with t := 9223372036855 })
      = (some { parsedPlainCfg with Timeout := 9223372036855,
                                    TimeoutDur := -9223372036854551616 }, none)
    ∧ (-9223372036854551616 : Int) ≠ 9223372036855 * 1000000
    ∧ (-9223372036854551616 : Int) < 0 := by
  decide

/-- C26: for every combination of the flags `-4` and `-6`, in every config that
`parseWith` returns `AllowIPv6` is true exactly when `-6` was given and `AllowIPv4` is true
exactly when `-4` was given or `-6` was not given; so with neither flag only IPv4 is
allowed, and at least one family is always allowed. -/
theorem parseWith_address_families (net : NetLib) (fl : Flags) (cfg : Config) (err : GoError)
    (h : parseWith net (Except.ok fl) = (some cfg, err)) :
    (cfg.AllowIPv6 = true ↔ fl.v6 = true)
    ∧ (cfg.AllowIPv4 = true ↔ (fl.v4 = true ∨ fl.v6 = false))
    ∧ (fl.v4 = false → fl.v6 = false → cfg.AllowIPv4 = true ∧ cfg.AllowIPv6 = false)
    ∧ (cfg.AllowIPv4 = true ∨ cfg.AllowIPv6 = true) := by
  obtain ⟨⟨_, _, _, s4, s5⟩, _⟩ := parseWith_settings net fl cfg err h
  have h4 : (flagsConfig fl).AllowIPv4 = (fl.v4 || !fl.v6) := by
    unfold flagsConfig
    cases fl.v4 <;> cases fl.v6 <;> simp
  have h6 : (flagsConfig fl).AllowIPv6 = fl.v6 := by
    unfold flagsConfig
    cases fl.v4 <;> cases fl.v6 <;> simp only [Bool.or_self, Bool.or_true, Bool.or_false,
      Bool.false_eq_true, if_false, if_true] <;> split_ifs <;> rfl
  rw [← s4, ← s5, h4, h6]
  cases fl.v4 <;> cases fl.v6 <;> simp

theorem parseWith_address_families_witness :
    parseWith (literalNet [127, 0, 0, 1]) (Except.ok (plainFlags ["127.0.0.1", "80"]))
      = (some parsedPlainCfg, none)
    ∧ parsedPlainCfg.AllowIPv4 = true ∧ parsedPlainCfg.AllowIPv6 = false :=
  ⟨by decide,
    ((parseWith_address_families (literalNet [127, 0, 0, 1])
      (plainFlags ["127.0.0.1", "80"]) parsedPlainCfg none (by decide)).2.2.1 rfl rfl).1,
    ((parseWith_address_families (literalNet [127, 0, 0, 1])
      (plainFlags ["127.0.0.1", "80"]) parsedPlainCfg none (by decide)).2.2.1 rfl rfl).2⟩

/-- C28: for every config and options, `a.Ping` returns the duration and the error of
`PingTCP` when `cfg.Proto` is TCP, and the duration and the error of `PingUDP` for every
other protocol value, the unset protocol included. -/
theorem Ping_dispatch (env : Env) (n : Nat) (cfg : Config) (opts : PingOptions) :
    (cfg.Proto = TCP →
      App.Ping env n cfg opts = ((PingTCP env n opts).duration, (PingTCP env n opts).err))
    ∧ (cfg.Proto ≠ TCP →
      App.Ping env n cfg opts = ((PingUDP env n opts).duration, (PingUDP env n opts).err))
    ∧ (cfg.Proto = "" →
      App.Ping env n cfg opts = ((PingUDP env n opts).duration, (PingUDP env n opts).err)) := by
  have hne : ∀ c : Config, c.Proto ≠ TCP →
      App.Ping env n c opts = ((PingUDP env n opts).duration, (PingUDP env n opts).err) := by
    intro c hc
    have ht : c.IsTCP = false := by
      simp [Config.IsTCP, hc]
    rw [App.Ping, ht]
    simp
  refine ⟨?_, hne cfg, ?_⟩
  · intro h
    have ht : cfg.IsTCP = true := by
      simp [Config.IsTCP, h]
    rw [App.Ping, ht]
    simp
  · intro h
    apply hne cfg
    rw [h]
    decide

theorem Ping_dispatch_witness :
    (exampleCfg [] 1 false).Proto = TCP
    ∧ App.Ping refusingEnv 0 (exampleCfg [] 1 false)
        { Config := exampleCfg [] 1 false, Address := "127.0.0.1:80", Payload := [] }
      = ((PingTCP refusingEnv 0
          { Config := exampleCfg [] 1 false, Address := "127.0.0.1:80", Payload := [] }).duration,
         (PingTCP refusingEnv 0
          { Config := exampleCfg [] 1 false, Address := "127.0.0.1:80", Payload := [] }).err)
    ∧ App.Ping refusingEnv 0 parsedUdpCfg
        { Config := parsedUdpCfg, Address := "127.0.0.1:53", Payload := [0, 1] }
      = (1000000, some "connection refused") :=
  ⟨rfl,
    (Ping_dispatch refusingEnv 0 (exampleCfg [] 1 false)
      { Config := exampleCfg [] 1 false, Address := "127.0.0.1:80", Payload := [] }).1 rfl,
    ((Ping_dispatch refusingEnv 0 parsedUdpCfg
      { Config := parsedUdpCfg, Address := "127.0.0.1:53", Payload := [0, 1] }).2.1
      (by decide)).trans (by decide)⟩

/-- C29 (the claim fails after an earlier call with another width): from the start of the
process, the call with `NoColor = true`, `maxIPLen = 9` and success returns a format of
width 9; after one earlier call with `maxIPLen = 15` the same call returns the format of
width 15 that the earlier call stored. -/
theorem showCurrentFmt_depends_on_history :
    (showCurrentFmt (afterCalls startVars []) (exampleCfg [] 1 false) 9 true).1
      = "% 3s\t%9s\t%10s%s\n"
    ∧ (showCurrentFmt (afterCalls startVars [(exampleCfg [] 1 false, 15, true)])
        (exampleCfg [] 1 false) 9 true).1 = "% 3s\t%15s\t%10s%s\n"
    ∧ (showCurrentFmt (afterCalls startVars []) (exampleCfg [] 1 false) 9 true).1
      ≠ (showCurrentFmt (afterCalls startVars [(exampleCfg [] 1 false, 15, true)])
          (exampleCfg [] 1 false) 9 true).1 := by
  decide

/-- C29 (amended): the format that `showCurrentFmt` returns is built from the `NoColor` and
the `maxIPLen` of the first call made since the process started (those of the call itself
when it is the first) and from the success flag of the call itself. So a call whose
earlier calls all had its `NoColor` and its `maxIPLen`, as inside one run, returns the
format of its own arguments, whatever the history. -/
theorem showCurrentFmt_first_call (calls : List (Config × Int × Bool)) (cfg : Config)
    (m : Int) (ok : Bool) :
    (showCurrentFmt (afterCalls startVars calls) cfg m ok).1
        = (match calls.head? with
          | none => lineFormat cfg.NoColor m ok
          | some first => lineFormat first.1.NoColor first.2.1 ok)
    ∧ ((∀ c ∈ calls, c.1.NoColor = cfg.NoColor ∧ c.2.1 = m) →
        (showCurrentFmt (afterCalls startVars calls) cfg m ok).1
          = lineFormat cfg.NoColor m ok) := by
  have hfirst : (showCurrentFmt (afterCalls startVars calls) cfg m ok).1
      = (match calls.head? with
        | none => lineFormat cfg.NoColor m ok
        | some first => lineFormat first.1.NoColor first.2.1 ok) := by
    cases calls with
    | nil => exact (showCurrentFmt_of_start cfg m ok).1
    | cons c cs =>
      rw [afterCalls_cons, showCurrentFmt_of_set _ cfg m ok
        (showCurrentFmt_sets startVars c.1 c.2.1 c.2.2)]
      exact (showCurrentFmt_of_start c.1 c.2.1 c.2.2).2 ok
  refine ⟨hfirst, ?_⟩
  intro hall
  rw [hfirst]
  cases calls with
  | nil => rfl
  | cons c cs =>
    obtain ⟨h1, h2⟩ := hall c (List.mem_cons_self c cs)
    simp only [List.head?_cons]
    rw [h1, h2]

theorem showCurrentFmt_first_call_witness :
    (∀ c ∈ [(exampleCfg [] 1 false, (9 : Int), false)],
        c.1.NoColor = (exampleCfg [] 1 false).NoColor ∧ c.2.1 = 9)
    ∧ (showCurrentFmt (afterCalls startVars [(exampleCfg [] 1 false, 9, false)])
        (exampleCfg [] 1 false) 9 true).1 = "% 3s\t%9s\t%10s%s\n" :=
  ⟨by decide,
    ((showCurrentFmt_first_call [(exampleCfg [] 1 false, 9, false)] (exampleCfg [] 1 false) 9
      true).2 (by decide)).trans (by decide)⟩

/-- C27 (the code at the failing input): `portping -preset dns ::1` gives no port, in the
destination or after it, yet the port is not the 53 of the preset: `parseArgs` cuts the
destination at its last colon, which leaves the host `:` and the port `1`, and it takes
the port of the preset only when the port it has is empty. The shortcut `-dns` gives the
same. With brackets, `-preset dns [::1]` gives the host `::1` and the port 53, and a host
name gets the port 53 as well. -/
theorem parseArgs_preset_port_bare_IPv6 :
    (parseArgs (presetDnsFlags ["::1"]) (flagsConfig (presetDnsFlags ["::1"]))).toOption.map
        (fun c => (c.Host, c.Port, c.Preset, c.Proto))
      = some (":", "1", "dns", "udp")
    ∧ (parseArgs (dnsFlags ["::1"]) (flagsConfig (dnsFlags ["::1"]))).toOption.map
        (fun c => (c.Host, c.Port, c.Preset, c.Proto))
      = some (":", "1", "dns", "udp")
    ∧ (GetPreset "dns").map (fun pr => pr.Port) = some "53"
    ∧ (parseArgs (presetDnsFlags ["[::1]"]) (flagsConfig (presetDnsFlags ["[::1]"]))).toOption.map
        (fun c => (c.Host, c.Port, c.Preset, c.Proto))
      = some ("::1", "53", "dns", "udp")
    ∧ (parseArgs (presetDnsFlags ["example.com"])
        (flagsConfig (presetDnsFlags ["example.com"]))).toOption.map
        (fun c => (c.Host, c.Port, c.Preset, c.Proto))
      = some ("example.com", "53", "dns", "udp") := by
  decide

/-- C23 (the claim fails for an IPv6 literal without brackets): for the arguments
`::1 80`, `parseArgs` sets the host to `:` and the port to `1`, and for
`2001:db8::1 80` the host to `2001:db8:` and the port to `1`; the destination is split
at its last colon and the port argument is not read. With brackets, `[::1] 80` gives the
host `::1` and the port `80`. -/
theorem parseArgs_bare_IPv6_and_port :
    parseArgs (plainFlags ["::1", "80"]) (flagsConfig (plainFlags ["::1", "80"]))
      = Except.ok { flagsConfig (plainFlags ["::1", "80"]) with Host := ":", Port := "1" }
    ∧ parseArgs (plainFlags ["2001:db8::1", "80"])
        (flagsConfig (plainFlags ["2001:db8::1", "80"]))
      = Except.ok { flagsConfig (plainFlags ["2001:db8::1", "80"]) with
                    Host := "2001:db8:", Port := "1" }
    ∧ parseArgs (plainFlags ["[::1]", "80"]) (flagsConfig (plainFlags ["[::1]", "80"]))
      = Except.ok { flagsConfig (plainFlags ["[::1]", "80"]) with Host := "::1", Port := "80" } :=
  ⟨rfl, rfl, rfl⟩

/-- C24 (the claim fails for an IPv6 literal without brackets): the single argument
`2001:db8::1:443` gives the host `2001:db8::1` and the port `443`, while the two
arguments `2001:db8::1 443` give the host `2001:db8:` and the port `1`, so the two forms
do not give the same host and port. -/
theorem parseArgs_one_and_two_arguments_differ :
    parseArgs (plainFlags ["2001:db8::1:443"]) (flagsConfig (plainFlags ["2001:db8::1:443"]))
      = Except.ok { flagsConfig (plainFlags ["2001:db8::1:443"]) with
                    Host := "2001:db8::1", Port := "443" }
    ∧ parseArgs (plainFlags ["2001:db8::1", "443"])
        (flagsConfig (plainFlags ["2001:db8::1", "443"]))
      = Except.ok { flagsConfig (plainFlags ["2001:db8::1", "443"]) with
                    Host := "2001:db8:", Port := "1" }
    ∧ ("2001:db8::1" : String) ≠ "2001:db8:" ∧ ("443" : String) ≠ "1" :=
  ⟨rfl, rfl, by decide, by decide⟩

/-- C30 (the code at the failing input): `portping -https 2001:db8::abcd` selects the
preset `https` alone with a host, and `parseWith` fails at the port validation: the
destination is cut at its last colon, which leaves the host `2001:db8:` and the port
`abcd` in place of the 443 of the preset, and `Validate` returns "invalid port". With
brackets, `-https [2001:db8::abcd]` gives the host `2001:db8::abcd` and the port 443. -/
theorem parseWith_preset_alone_bare_IPv6 :
    (parseArgs (httpsFlags ["2001:db8::abcd"])
        (flagsConfig (httpsFlags ["2001:db8::abcd"]))).toOption.map
        (fun c => (c.Host, c.Port, c.Preset, c.Proto))
      = some ("2001:db8:", "abcd", "https", "tcp")
    ∧ (GetPreset "https").map (fun pr => pr.Port) = some "443"
    ∧ ValidPort "abcd" = false
    ∧ (parseWith (lookupNet (Except.error "no such host"))
        (Except.ok (httpsFlags ["2001:db8::abcd"]))).2 = some "invalid port `abcd`"
    ∧ (parseArgs (httpsFlags ["[2001:db8::abcd]"])
        (flagsConfig (httpsFlags ["[2001:db8::abcd]"]))).toOption.map
        (fun c => (c.Host, c.Port, c.Preset, c.Proto))
      = some ("2001:db8::abcd", "443", "https", "tcp") := by
  decide

end PortPing
